import Mathlib

/-!
Render passes: the per-pixel accumulator `colorIntPasses_t` and the catalog `renderPasses_t`.

A shallow embedding of `src/src/yafraycore/renderpasses.cc` and of the colour
operators of `src/include/core_api/color.h` that the accumulator uses.

* `CFLOAT` (a C `float`) is computed with in exact rational arithmetic: the claims
  about sums and products of channels are statements of exact arithmetic.  Where the
  special values or the rounding of `float` decide a claim, the function is also given over
  `float_t` (finite numbers, infinities, NaN) or with a rounding function (`binary32_round`).
* A `std::vector` is a `List`; `v[i]` with an `int` index is defined only for
  `0 ≤ i < v.size()`, every other access is undefined behaviour and is the
  result `none` here.  `reserve` only changes the capacity and has no
  counterpart.
* A pass kind is an `int` of the source, an `Int` here.
-/

/-- The scalar type `CFLOAT` of the colour classes, in exact arithmetic. -/
abbrev CFLOAT : Type := ℚ

/-- The class `color_t` (color.h): three channels. -/
structure color_t where
  R : CFLOAT
  G : CFLOAT
  B : CFLOAT
deriving DecidableEq

/-- The class `colorA_t` (color.h), which derives from `color_t` and adds the channel `A`. -/
structure colorA_t where
  R : CFLOAT
  G : CFLOAT
  B : CFLOAT
  A : CFLOAT
deriving DecidableEq

/-- The constructor `colorA_t(const color_t &c)`: the three channels of `c` and `A = 1`. -/
def colorA_t.of_color (c : color_t) : colorA_t :=
  { R := c.R, G := c.G, B := c.B, A := 1 }

/-- The constructor `colorA_t(CFLOAT g)`: all four channels are `g`. -/
def colorA_t.of_gray (g : CFLOAT) : colorA_t :=
  { R := g, G := g, B := g, A := g }

/-- The result of `colorA_t::operator +=(const colorA_t &c)` on `a`. -/
def colorA_t.operator_add_assign (a c : colorA_t) : colorA_t :=
  { R := a.R + c.R, G := a.G + c.G, B := a.B + c.B, A := a.A + c.A }

/-- The result of `colorA_t::operator *=(const colorA_t &c)` on `a`. -/
def colorA_t.operator_mul_assign (a c : colorA_t) : colorA_t :=
  { R := a.R * c.R, G := a.G * c.G, B := a.B * c.B, A := a.A * c.A }

/-- The result of `colorA_t::operator *=(CFLOAT f)` on `a`. -/
def colorA_t.operator_mul_assign_scalar (a : colorA_t) (f : CFLOAT) : colorA_t :=
  { R := a.R * f, G := a.G * f, B := a.B * f, A := a.A * f }

/-- The values of the enumeration of internal pass kinds that `renderpasses.cc` names.
The enumeration is declared in `core_api/renderpasses.h`, which is not
among the sources, so its values are parameters of the development. -/
structure intPassTypes_t where
  PASS_INT_DISABLED : Int
  PASS_INT_COMBINED : Int
  PASS_INT_Z_DEPTH_NORM : Int
  PASS_INT_SHADOW : Int
  PASS_INT_OBJ_INDEX_MASK : Int
  PASS_INT_OBJ_INDEX_MASK_SHADOW : Int
  PASS_INT_OBJ_INDEX_MASK_ALL : Int
  PASS_INT_MAT_INDEX_MASK : Int
  PASS_INT_MAT_INDEX_MASK_SHADOW : Int
  PASS_INT_MAT_INDEX_MASK_ALL : Int
  PASS_INT_Z_DEPTH_ABS : Int
  PASS_INT_NORMAL_SMOOTH : Int
  PASS_INT_NORMAL_GEOM : Int
  PASS_INT_RADIANCE : Int
  PASS_INT_UV : Int
  PASS_INT_EMIT : Int
  PASS_INT_MIST : Int
  PASS_INT_DIFFUSE : Int
  PASS_INT_DIFFUSE_NO_SHADOW : Int
  PASS_INT_AO : Int
  PASS_INT_AO_CLAY : Int
  PASS_INT_ENV : Int
  PASS_INT_INDIRECT_ALL : Int
  PASS_INT_INDIRECT : Int
  PASS_INT_REFLECT_ALL : Int
  PASS_INT_REFRACT_ALL : Int
  PASS_INT_REFLECT_PERFECT : Int
  PASS_INT_REFRACT_PERFECT : Int
  PASS_INT_OBJ_INDEX_ABS : Int
  PASS_INT_OBJ_INDEX_NORM : Int
  PASS_INT_OBJ_INDEX_AUTO : Int
  PASS_INT_MAT_INDEX_ABS : Int
  PASS_INT_MAT_INDEX_NORM : Int
  PASS_INT_MAT_INDEX_AUTO : Int
  PASS_INT_DIFFUSE_INDIRECT : Int
  PASS_INT_DIFFUSE_COLOR : Int
  PASS_INT_GLOSSY : Int
  PASS_INT_GLOSSY_INDIRECT : Int
  PASS_INT_GLOSSY_COLOR : Int
  PASS_INT_TRANS : Int
  PASS_INT_TRANS_INDIRECT : Int
  PASS_INT_TRANS_COLOR : Int
  PASS_INT_SUBSURFACE : Int
  PASS_INT_SUBSURFACE_INDIRECT : Int
  PASS_INT_SUBSURFACE_COLOR : Int
  PASS_INT_DEBUG_NU : Int
  PASS_INT_DEBUG_NV : Int
  PASS_INT_DEBUG_DPDU : Int
  PASS_INT_DEBUG_DPDV : Int
  PASS_INT_DEBUG_DSDU : Int
  PASS_INT_DEBUG_DSDV : Int
  PASS_INT_SURFACE_INTEGRATION : Int
  PASS_INT_VOLUME_INTEGRATION : Int
  PASS_INT_VOLUME_TRANSMITTANCE : Int
  PASS_INT_AA_SAMPLES : Int

/-- An enumeration that starts at `PASS_INT_DISABLED = -1`, `PASS_INT_COMBINED = 0` and
numbers the kinds in the order in which `generate_pass_maps` registers them. -/
def samplePassTypes : intPassTypes_t :=
  { PASS_INT_DISABLED := -1
    PASS_INT_COMBINED := 0
    PASS_INT_Z_DEPTH_NORM := 1
    PASS_INT_SHADOW := 16
    PASS_INT_OBJ_INDEX_MASK := 24
    PASS_INT_OBJ_INDEX_MASK_SHADOW := 25
    PASS_INT_OBJ_INDEX_MASK_ALL := 26
    PASS_INT_MAT_INDEX_MASK := 30
    PASS_INT_MAT_INDEX_MASK_SHADOW := 31
    PASS_INT_MAT_INDEX_MASK_ALL := 32
    PASS_INT_Z_DEPTH_ABS := 2
    PASS_INT_NORMAL_SMOOTH := 3
    PASS_INT_NORMAL_GEOM := 4
    PASS_INT_RADIANCE := 5
    PASS_INT_UV := 6
    PASS_INT_EMIT := 7
    PASS_INT_MIST := 8
    PASS_INT_DIFFUSE := 9
    PASS_INT_DIFFUSE_NO_SHADOW := 10
    PASS_INT_AO := 11
    PASS_INT_AO_CLAY := 12
    PASS_INT_ENV := 13
    PASS_INT_INDIRECT_ALL := 14
    PASS_INT_INDIRECT := 15
    PASS_INT_REFLECT_ALL := 17
    PASS_INT_REFRACT_ALL := 18
    PASS_INT_REFLECT_PERFECT := 19
    PASS_INT_REFRACT_PERFECT := 20
    PASS_INT_OBJ_INDEX_ABS := 21
    PASS_INT_OBJ_INDEX_NORM := 22
    PASS_INT_OBJ_INDEX_AUTO := 23
    PASS_INT_MAT_INDEX_ABS := 27
    PASS_INT_MAT_INDEX_NORM := 28
    PASS_INT_MAT_INDEX_AUTO := 29
    PASS_INT_DIFFUSE_INDIRECT := 33
    PASS_INT_DIFFUSE_COLOR := 34
    PASS_INT_GLOSSY := 35
    PASS_INT_GLOSSY_INDIRECT := 36
    PASS_INT_GLOSSY_COLOR := 37
    PASS_INT_TRANS := 38
    PASS_INT_TRANS_INDIRECT := 39
    PASS_INT_TRANS_COLOR := 40
    PASS_INT_SUBSURFACE := 41
    PASS_INT_SUBSURFACE_INDIRECT := 42
    PASS_INT_SUBSURFACE_COLOR := 43
    PASS_INT_DEBUG_NU := 44
    PASS_INT_DEBUG_NV := 45
    PASS_INT_DEBUG_DPDU := 46
    PASS_INT_DEBUG_DPDV := 47
    PASS_INT_DEBUG_DSDU := 48
    PASS_INT_DEBUG_DSDV := 49
    PASS_INT_SURFACE_INTEGRATION := 50
    PASS_INT_VOLUME_INTEGRATION := 51
    PASS_INT_VOLUME_TRANSMITTANCE := 52
    PASS_INT_AA_SAMPLES := 53 }

/-- What the development assumes of the enumeration of `core_api/renderpasses.h`.
`PASS_INT_COMBINED` is 0 (the spec: "enable internal kind 0 (Combined)").
`PASS_INT_DISABLED` is the sentinel -1 just below it: the constructor sets the watermark to
`PASS_INT_DISABLED` and grows the vectors from `PASS_INT_DISABLED + 1` to
`PASS_INT_COMBINED`, which yields the one-slot accumulator with watermark 0 for this value
only (`ctor_invariant_iff` below).  Every other kind is an enumerator after Combined, hence
positive. -/
def intPassTypes_t.Valid (E : intPassTypes_t) : Prop :=
  E.PASS_INT_DISABLED = -1 ∧ E.PASS_INT_COMBINED = 0 ∧ 0 < E.PASS_INT_Z_DEPTH_NORM
    ∧ 0 < E.PASS_INT_SHADOW ∧ 0 < E.PASS_INT_OBJ_INDEX_MASK
    ∧ 0 < E.PASS_INT_OBJ_INDEX_MASK_SHADOW ∧ 0 < E.PASS_INT_OBJ_INDEX_MASK_ALL
    ∧ 0 < E.PASS_INT_MAT_INDEX_MASK ∧ 0 < E.PASS_INT_MAT_INDEX_MASK_SHADOW
    ∧ 0 < E.PASS_INT_MAT_INDEX_MASK_ALL

instance (E : intPassTypes_t) : Decidable E.Valid := by
  unfold intPassTypes_t.Valid; infer_instance

/-- Reading `v[i]` of a `std::vector` with an `int` index; `none` outside `0..size-1`. -/
def vector_at {α : Type} (v : List α) (i : Int) : Option α :=
  if 0 ≤ i then v[i.toNat]? else none

/-- Writing `v[i] = x` of a `std::vector` with an `int` index; `none` outside `0..size-1`. -/
def vector_assign {α : Type} (v : List α) (i : Int) (x : α) : Option (List α) :=
  if 0 ≤ i ∧ i.toNat < v.length then some (v.set i.toNat x) else none

/-- The data members of the class `colorIntPasses_t` that its member functions read or
write.  (The reference `passDefinitions` to the catalog is only stored.) -/
structure colorIntPasses_t where
  intPasses : List colorA_t
  enabledIntPasses : List Bool
  highestInternalPassUsed : Int
deriving DecidableEq

/-- The function `colorIntPasses_t::init_color`. -/
def colorIntPasses_t.init_color (E : intPassTypes_t) (pass : Int) : colorA_t :=
  if pass = E.PASS_INT_SHADOW ∨ pass = E.PASS_INT_OBJ_INDEX_MASK
      ∨ pass = E.PASS_INT_OBJ_INDEX_MASK_SHADOW ∨ pass = E.PASS_INT_OBJ_INDEX_MASK_ALL
      ∨ pass = E.PASS_INT_MAT_INDEX_MASK ∨ pass = E.PASS_INT_MAT_INDEX_MASK_SHADOW
      ∨ pass = E.PASS_INT_MAT_INDEX_MASK_ALL then
    { R := 0, G := 0, B := 0, A := 0 }
  else
    { R := 0, G := 0, B := 0, A := 1 }

/-- The function `colorIntPasses_t::enabled`. -/
def colorIntPasses_t.enabled (s : colorIntPasses_t) (pass : Int) : Option Bool :=
  if pass ≤ s.highestInternalPassUsed then vector_at s.enabledIntPasses pass else some false

/-- The function `colorIntPasses_t::color`, as a read of the slot. -/
def colorIntPasses_t.color (s : colorIntPasses_t) (pass : Int) : Option colorA_t :=
  vector_at s.intPasses pass

/-- The loop of `enable_pass`, `for(int idx = highestInternalPassUsed+1; idx <= pass; ++idx)`:
the first argument is the number of iterations left, the second the value of `idx`. -/
def colorIntPasses_t.enable_pass_loop (E : intPassTypes_t) (pass : Int) :
    Nat → Int → colorIntPasses_t → colorIntPasses_t
  | 0, _, s => s
  | n + 1, idx, s =>
    colorIntPasses_t.enable_pass_loop E pass n (idx + 1)
      { s with
        intPasses := s.intPasses ++ [colorIntPasses_t.init_color E idx]
        enabledIntPasses := s.enabledIntPasses ++ [decide (idx = pass)] }

/-- The function `colorIntPasses_t::enable_pass`.  The loop from
`highestInternalPassUsed+1` to `pass` runs `pass - highestInternalPassUsed` times. -/
def colorIntPasses_t.enable_pass (E : intPassTypes_t) (s : colorIntPasses_t) (pass : Int) :
    Option colorIntPasses_t :=
  match s.enabled pass with
  | none => none
  | some e =>
    if e = true ∨ pass = E.PASS_INT_DISABLED then some s
    else
      let s1 : colorIntPasses_t :=
        if pass > s.highestInternalPassUsed then
          { colorIntPasses_t.enable_pass_loop E pass
              (pass - s.highestInternalPassUsed).toNat (s.highestInternalPassUsed + 1) s with
            highestInternalPassUsed := pass }
        else s
      match vector_assign s1.enabledIntPasses pass true with
      | none => none
      | some bits => some { s1 with enabledIntPasses := bits }

/-- The constructor `colorIntPasses_t::colorIntPasses_t`: the watermark is set to
`PASS_INT_DISABLED`, the vectors are empty, and `enable_pass(PASS_INT_COMBINED)` is called. -/
def colorIntPasses_t.ctor (E : intPassTypes_t) : Option colorIntPasses_t :=
  colorIntPasses_t.enable_pass E
    { intPasses := [], enabledIntPasses := [], highestInternalPassUsed := E.PASS_INT_DISABLED }
    E.PASS_INT_COMBINED

/-- The function `colorIntPasses_t::get_highest_internal_pass_used`. -/
def colorIntPasses_t.get_highest_internal_pass_used (s : colorIntPasses_t) : Int :=
  s.highestInternalPassUsed

/-- An assignment through the reference `color(pass)`, which is `intPasses[pass]`: the
value `c` of the slot is replaced by `f c`. -/
def colorIntPasses_t.assign_color (s : colorIntPasses_t) (pass : Int)
    (f : colorA_t → colorA_t) : Option colorIntPasses_t :=
  match vector_at s.intPasses pass with
  | none => none
  | some c => some { s with intPasses := s.intPasses.set pass.toNat (f c) }

/-- The loop `for(int idx = PASS_INT_COMBINED; idx <= highestInternalPassUsed; ++idx)` of
the bulk operations, with the body `color(idx) = body idx (color(idx))`: the first argument
is the number of iterations left, the second the value of `idx`. -/
def colorIntPasses_t.for_each_pass (body : Int → colorA_t → colorA_t) :
    Nat → Int → colorIntPasses_t → Option colorIntPasses_t
  | 0, _, s => some s
  | n + 1, idx, s =>
    match s.assign_color idx (body idx) with
    | none => none
    | some s1 => colorIntPasses_t.for_each_pass body n (idx + 1) s1

/-- The number of iterations of `for(int idx = PASS_INT_COMBINED; idx <= highestInternalPassUsed; ++idx)`. -/
def colorIntPasses_t.pass_count (E : intPassTypes_t) (s : colorIntPasses_t) : Nat :=
  (s.highestInternalPassUsed + 1 - E.PASS_INT_COMBINED).toNat

/-- The function `colorIntPasses_t::reset_colors`. -/
def colorIntPasses_t.reset_colors (E : intPassTypes_t) (s : colorIntPasses_t) :
    Option colorIntPasses_t :=
  colorIntPasses_t.for_each_pass (fun idx _ => colorIntPasses_t.init_color E idx)
    (s.pass_count E) E.PASS_INT_COMBINED s

/-- The function `colorIntPasses_t::multiply_colors`. -/
def colorIntPasses_t.multiply_colors (E : intPassTypes_t) (s : colorIntPasses_t)
    (factor : CFLOAT) : Option colorIntPasses_t :=
  colorIntPasses_t.for_each_pass (fun _ c => c.operator_mul_assign_scalar factor)
    (s.pass_count E) E.PASS_INT_COMBINED s

/-- The value form `probe_set(pass, renderedColor, condition)`: the returned colour and the
accumulator after the call. -/
def colorIntPasses_t.probe_set (s : colorIntPasses_t) (pass : Int) (renderedColor : colorA_t)
    (condition : Bool) : Option (colorA_t × colorIntPasses_t) :=
  if condition = true then
    match s.enabled pass with
    | none => none
    | some true =>
      match s.assign_color pass (fun _ => renderedColor) with
      | none => none
      | some s1 => some (renderedColor, s1)
    | some false => some (renderedColor, s)
  else some (renderedColor, s)

/-- The value form `probe_add(pass, renderedColor, condition)`. -/
def colorIntPasses_t.probe_add (s : colorIntPasses_t) (pass : Int) (renderedColor : colorA_t)
    (condition : Bool) : Option (colorA_t × colorIntPasses_t) :=
  if condition = true then
    match s.enabled pass with
    | none => none
    | some true =>
      match s.assign_color pass (fun c => c.operator_add_assign renderedColor) with
      | none => none
      | some s1 => some (renderedColor, s1)
    | some false => some (renderedColor, s)
  else some (renderedColor, s)

/-- The value form `probe_mult(pass, renderedColor, condition)`. -/
def colorIntPasses_t.probe_mult (s : colorIntPasses_t) (pass : Int) (renderedColor : colorA_t)
    (condition : Bool) : Option (colorA_t × colorIntPasses_t) :=
  if condition = true then
    match s.enabled pass with
    | none => none
    | some true =>
      match s.assign_color pass (fun c => c.operator_mul_assign renderedColor) with
      | none => none
      | some s1 => some (renderedColor, s1)
    | some false => some (renderedColor, s)
  else some (renderedColor, s)

/-- The common shape of the accumulator forms `probe_set`, `probe_add` and `probe_mult`
with the peer `colorPasses`: under `condition && enabled(pass) && colorPasses.enabled(pass)`
the statement `intPasses[pass] op= colorPasses.intPasses[pass]` runs and the peer slot is
returned, otherwise `colorA_t(0.f)` is returned; `op c x` is the new value of a slot that
holds `c` when the peer slot holds `x`. -/
def colorIntPasses_t.probe_peer (op : colorA_t → colorA_t → colorA_t) (s : colorIntPasses_t)
    (pass : Int) (colorPasses : colorIntPasses_t) (condition : Bool) :
    Option (colorA_t × colorIntPasses_t) :=
  if condition = true then
    match s.enabled pass with
    | none => none
    | some false => some (colorA_t.of_gray 0, s)
    | some true =>
      match colorPasses.enabled pass with
      | none => none
      | some false => some (colorA_t.of_gray 0, s)
      | some true =>
        match vector_at colorPasses.intPasses pass with
        | none => none
        | some x =>
          match s.assign_color pass (fun c => op c x) with
          | none => none
          | some s1 => some (x, s1)
  else some (colorA_t.of_gray 0, s)

/-- The accumulator form `probe_set(pass, colorPasses, condition)`. -/
def colorIntPasses_t.probe_set_passes (s : colorIntPasses_t) (pass : Int)
    (colorPasses : colorIntPasses_t) (condition : Bool) : Option (colorA_t × colorIntPasses_t) :=
  colorIntPasses_t.probe_peer (fun _ x => x) s pass colorPasses condition

/-- The accumulator form `probe_add(pass, colorPasses, condition)`. -/
def colorIntPasses_t.probe_add_passes (s : colorIntPasses_t) (pass : Int)
    (colorPasses : colorIntPasses_t) (condition : Bool) : Option (colorA_t × colorIntPasses_t) :=
  colorIntPasses_t.probe_peer (fun c x => c.operator_add_assign x) s pass colorPasses condition

/-- The accumulator form `probe_mult(pass, colorPasses, condition)`. -/
def colorIntPasses_t.probe_mult_passes (s : colorIntPasses_t) (pass : Int)
    (colorPasses : colorIntPasses_t) (condition : Bool) : Option (colorA_t × colorIntPasses_t) :=
  colorIntPasses_t.probe_peer (fun c x => c.operator_mul_assign x) s pass colorPasses condition

/-- The function `colorIntPasses_t::operator *=(CFLOAT f)`. -/
def colorIntPasses_t.operator_mul_assign_scalar (E : intPassTypes_t) (s : colorIntPasses_t)
    (f : CFLOAT) : Option colorIntPasses_t :=
  colorIntPasses_t.for_each_pass (fun _ c => c.operator_mul_assign_scalar f)
    (s.pass_count E) E.PASS_INT_COMBINED s

/-- The function `colorIntPasses_t::operator *=(color_t &a)`: `colorA_t` has no
`operator *=` for a `color_t`, the argument is converted with `colorA_t(const color_t &)`. -/
def colorIntPasses_t.operator_mul_assign_color (E : intPassTypes_t) (s : colorIntPasses_t)
    (a : color_t) : Option colorIntPasses_t :=
  colorIntPasses_t.for_each_pass (fun _ c => c.operator_mul_assign (colorA_t.of_color a))
    (s.pass_count E) E.PASS_INT_COMBINED s

/-- The function `colorIntPasses_t::operator *=(colorA_t &a)`. -/
def colorIntPasses_t.operator_mul_assign_colorA (E : intPassTypes_t) (s : colorIntPasses_t)
    (a : colorA_t) : Option colorIntPasses_t :=
  colorIntPasses_t.for_each_pass (fun _ c => c.operator_mul_assign a)
    (s.pass_count E) E.PASS_INT_COMBINED s

/-- The loop of `operator +=(colorIntPasses_t &a)` for a peer `a` other than the
accumulator itself, with the body `color(idx) += a.color(idx)`. -/
def colorIntPasses_t.operator_add_assign_loop (a : colorIntPasses_t) :
    Nat → Int → colorIntPasses_t → Option colorIntPasses_t
  | 0, _, s => some s
  | n + 1, idx, s =>
    match a.color idx with
    | none => none
    | some x =>
      match s.assign_color idx (fun c => c.operator_add_assign x) with
      | none => none
      | some s1 => colorIntPasses_t.operator_add_assign_loop a n (idx + 1) s1

/-- The function `colorIntPasses_t::operator +=(colorIntPasses_t &a)`, for a peer `a` other
than the accumulator itself. -/
def colorIntPasses_t.operator_add_assign (E : intPassTypes_t) (s a : colorIntPasses_t) :
    Option colorIntPasses_t :=
  colorIntPasses_t.operator_add_assign_loop a (s.pass_count E) E.PASS_INT_COMBINED s

/-- The accumulators that the member functions can produce: the constructed one, and every
result of a call of `enable_pass`, of a value-form or accumulator-form probe (with any
peer), of `reset_colors`, `multiply_colors`, an `operator *=` or `operator +=` (with any
peer) on such an accumulator. -/
inductive colorIntPasses_t.Reachable (E : intPassTypes_t) : colorIntPasses_t → Prop
  | ctor {s : colorIntPasses_t} :
      colorIntPasses_t.ctor E = some s → Reachable E s
  | enable_pass {s t : colorIntPasses_t} (pass : Int) :
      Reachable E s → s.enable_pass E pass = some t → Reachable E t
  | probe_set {s t : colorIntPasses_t} (pass : Int) (v r : colorA_t) (condition : Bool) :
      Reachable E s → s.probe_set pass v condition = some (r, t) → Reachable E t
  | probe_add {s t : colorIntPasses_t} (pass : Int) (v r : colorA_t) (condition : Bool) :
      Reachable E s → s.probe_add pass v condition = some (r, t) → Reachable E t
  | probe_mult {s t : colorIntPasses_t} (pass : Int) (v r : colorA_t) (condition : Bool) :
      Reachable E s → s.probe_mult pass v condition = some (r, t) → Reachable E t
  | probe_set_passes {s t : colorIntPasses_t} (pass : Int) (peer : colorIntPasses_t)
      (r : colorA_t) (condition : Bool) :
      Reachable E s → s.probe_set_passes pass peer condition = some (r, t) → Reachable E t
  | probe_add_passes {s t : colorIntPasses_t} (pass : Int) (peer : colorIntPasses_t)
      (r : colorA_t) (condition : Bool) :
      Reachable E s → s.probe_add_passes pass peer condition = some (r, t) → Reachable E t
  | probe_mult_passes {s t : colorIntPasses_t} (pass : Int) (peer : colorIntPasses_t)
      (r : colorA_t) (condition : Bool) :
      Reachable E s → s.probe_mult_passes pass peer condition = some (r, t) → Reachable E t
  | reset_colors {s t : colorIntPasses_t} :
      Reachable E s → s.reset_colors E = some t → Reachable E t
  | multiply_colors {s t : colorIntPasses_t} (factor : CFLOAT) :
      Reachable E s → s.multiply_colors E factor = some t → Reachable E t
  | operator_mul_assign_scalar {s t : colorIntPasses_t} (f : CFLOAT) :
      Reachable E s → s.operator_mul_assign_scalar E f = some t → Reachable E t
  | operator_mul_assign_color {s t : colorIntPasses_t} (a : color_t) :
      Reachable E s → s.operator_mul_assign_color E a = some t → Reachable E t
  | operator_mul_assign_colorA {s t : colorIntPasses_t} (a : colorA_t) :
      Reachable E s → s.operator_mul_assign_colorA E a = some t → Reachable E t
  | operator_add_assign {s t : colorIntPasses_t} (peer : colorIntPasses_t) :
      Reachable E s → s.operator_add_assign E peer = some t → Reachable E t

/-- The invariant of the accumulator: both vectors have `highestInternalPassUsed + 1`
elements and the bit of index 0 is set. -/
def colorIntPasses_t.Invariant (s : colorIntPasses_t) : Prop :=
  (s.intPasses.length : Int) = s.highestInternalPassUsed + 1
    ∧ (s.enabledIntPasses.length : Int) = s.highestInternalPassUsed + 1
    ∧ s.enabledIntPasses[0]? = some true

instance (s : colorIntPasses_t) : Decidable s.Invariant := by
  unfold colorIntPasses_t.Invariant; infer_instance

/-! ## The catalog `renderPasses_t` -/

/-- The values of the enumeration of external pass kinds and of the tile types that
`renderpasses.cc` names.  They are declared in `core_api/renderpasses.h`, which is not among
the sources, so they are parameters of the development. -/
structure extPassTypes_t where
  PASS_EXT_DISABLED : Int
  PASS_EXT_COMBINED : Int
  PASS_EXT_Z_DEPTH : Int
  PASS_EXT_VECTOR : Int
  PASS_EXT_NORMAL : Int
  PASS_EXT_UV : Int
  PASS_EXT_COLOR : Int
  PASS_EXT_EMIT : Int
  PASS_EXT_MIST : Int
  PASS_EXT_DIFFUSE : Int
  PASS_EXT_SPECULAR : Int
  PASS_EXT_AO : Int
  PASS_EXT_ENV : Int
  PASS_EXT_INDIRECT : Int
  PASS_EXT_SHADOW : Int
  PASS_EXT_REFLECT : Int
  PASS_EXT_REFRACT : Int
  PASS_EXT_OBJ_INDEX : Int
  PASS_EXT_MAT_INDEX : Int
  PASS_EXT_DIFFUSE_DIRECT : Int
  PASS_EXT_DIFFUSE_INDIRECT : Int
  PASS_EXT_DIFFUSE_COLOR : Int
  PASS_EXT_GLOSSY_DIRECT : Int
  PASS_EXT_GLOSSY_INDIRECT : Int
  PASS_EXT_GLOSSY_COLOR : Int
  PASS_EXT_TRANS_DIRECT : Int
  PASS_EXT_TRANS_INDIRECT : Int
  PASS_EXT_TRANS_COLOR : Int
  PASS_EXT_SUBSURFACE_DIRECT : Int
  PASS_EXT_SUBSURFACE_INDIRECT : Int
  PASS_EXT_SUBSURFACE_COLOR : Int
  PASS_EXT_TOTAL_PASSES : Int
  PASS_EXT_TILE_1_GRAYSCALE : Int
  PASS_EXT_TILE_3_RGB : Int
  PASS_EXT_TILE_4_RGBA : Int

/-- An enumeration that starts at `PASS_EXT_DISABLED = -1`, `PASS_EXT_COMBINED = 0`, numbers
the kinds in the order in which `generate_pass_maps` registers them and ends with
`PASS_EXT_TOTAL_PASSES`; the tile types are their numbers of channels. -/
def sampleExtPassTypes : extPassTypes_t :=
  { PASS_EXT_DISABLED := -1
    PASS_EXT_COMBINED := 0
    PASS_EXT_Z_DEPTH := 1
    PASS_EXT_VECTOR := 2
    PASS_EXT_NORMAL := 3
    PASS_EXT_UV := 4
    PASS_EXT_COLOR := 5
    PASS_EXT_EMIT := 6
    PASS_EXT_MIST := 7
    PASS_EXT_DIFFUSE := 8
    PASS_EXT_SPECULAR := 9
    PASS_EXT_AO := 10
    PASS_EXT_ENV := 11
    PASS_EXT_INDIRECT := 12
    PASS_EXT_SHADOW := 13
    PASS_EXT_REFLECT := 14
    PASS_EXT_REFRACT := 15
    PASS_EXT_OBJ_INDEX := 16
    PASS_EXT_MAT_INDEX := 17
    PASS_EXT_DIFFUSE_DIRECT := 18
    PASS_EXT_DIFFUSE_INDIRECT := 19
    PASS_EXT_DIFFUSE_COLOR := 20
    PASS_EXT_GLOSSY_DIRECT := 21
    PASS_EXT_GLOSSY_INDIRECT := 22
    PASS_EXT_GLOSSY_COLOR := 23
    PASS_EXT_TRANS_DIRECT := 24
    PASS_EXT_TRANS_INDIRECT := 25
    PASS_EXT_TRANS_COLOR := 26
    PASS_EXT_SUBSURFACE_DIRECT := 27
    PASS_EXT_SUBSURFACE_INDIRECT := 28
    PASS_EXT_SUBSURFACE_COLOR := 29
    PASS_EXT_TOTAL_PASSES := 30
    PASS_EXT_TILE_1_GRAYSCALE := 1
    PASS_EXT_TILE_3_RGB := 3
    PASS_EXT_TILE_4_RGBA := 4 }

/-- The external kinds that `generate_pass_maps` registers, in the order of the source. -/
def extPassTypes_t.kinds (X : extPassTypes_t) : List Int :=
  [
    X.PASS_EXT_COMBINED, X.PASS_EXT_Z_DEPTH, X.PASS_EXT_VECTOR, X.PASS_EXT_NORMAL,
    X.PASS_EXT_UV, X.PASS_EXT_COLOR, X.PASS_EXT_EMIT, X.PASS_EXT_MIST, X.PASS_EXT_DIFFUSE,
    X.PASS_EXT_SPECULAR, X.PASS_EXT_AO, X.PASS_EXT_ENV, X.PASS_EXT_INDIRECT, X.PASS_EXT_SHADOW,
    X.PASS_EXT_REFLECT, X.PASS_EXT_REFRACT, X.PASS_EXT_OBJ_INDEX, X.PASS_EXT_MAT_INDEX,
    X.PASS_EXT_DIFFUSE_DIRECT, X.PASS_EXT_DIFFUSE_INDIRECT, X.PASS_EXT_DIFFUSE_COLOR,
    X.PASS_EXT_GLOSSY_DIRECT, X.PASS_EXT_GLOSSY_INDIRECT, X.PASS_EXT_GLOSSY_COLOR,
    X.PASS_EXT_TRANS_DIRECT, X.PASS_EXT_TRANS_INDIRECT, X.PASS_EXT_TRANS_COLOR,
    X.PASS_EXT_SUBSURFACE_DIRECT, X.PASS_EXT_SUBSURFACE_INDIRECT, X.PASS_EXT_SUBSURFACE_COLOR]

/-- What the development assumes of the external enumeration: `PASS_EXT_DISABLED` is below
every kind, every kind is below `PASS_EXT_TOTAL_PASSES`, the last enumerator, and no two
kinds have the same value. -/
def extPassTypes_t.Enumerated (X : extPassTypes_t) : Prop :=
  (∀ k ∈ X.kinds, X.PASS_EXT_DISABLED < k ∧ k < X.PASS_EXT_TOTAL_PASSES) ∧ X.kinds.Nodup

instance (X : extPassTypes_t) : Decidable X.Enumerated := by
  unfold extPassTypes_t.Enumerated; infer_instance

/-- The internal kinds that `generate_pass_maps` registers, in the order of the source. -/
def intPassTypes_t.kinds (E : intPassTypes_t) : List Int :=
  [
    E.PASS_INT_COMBINED, E.PASS_INT_Z_DEPTH_NORM, E.PASS_INT_Z_DEPTH_ABS,
    E.PASS_INT_NORMAL_SMOOTH, E.PASS_INT_NORMAL_GEOM, E.PASS_INT_RADIANCE, E.PASS_INT_UV,
    E.PASS_INT_EMIT, E.PASS_INT_MIST, E.PASS_INT_DIFFUSE, E.PASS_INT_DIFFUSE_NO_SHADOW,
    E.PASS_INT_AO, E.PASS_INT_AO_CLAY, E.PASS_INT_ENV, E.PASS_INT_INDIRECT_ALL,
    E.PASS_INT_INDIRECT, E.PASS_INT_SHADOW, E.PASS_INT_REFLECT_ALL, E.PASS_INT_REFRACT_ALL,
    E.PASS_INT_REFLECT_PERFECT, E.PASS_INT_REFRACT_PERFECT, E.PASS_INT_OBJ_INDEX_ABS,
    E.PASS_INT_OBJ_INDEX_NORM, E.PASS_INT_OBJ_INDEX_AUTO, E.PASS_INT_OBJ_INDEX_MASK,
    E.PASS_INT_OBJ_INDEX_MASK_SHADOW, E.PASS_INT_OBJ_INDEX_MASK_ALL, E.PASS_INT_MAT_INDEX_ABS,
    E.PASS_INT_MAT_INDEX_NORM, E.PASS_INT_MAT_INDEX_AUTO, E.PASS_INT_MAT_INDEX_MASK,
    E.PASS_INT_MAT_INDEX_MASK_SHADOW, E.PASS_INT_MAT_INDEX_MASK_ALL,
    E.PASS_INT_DIFFUSE_INDIRECT, E.PASS_INT_DIFFUSE_COLOR, E.PASS_INT_GLOSSY,
    E.PASS_INT_GLOSSY_INDIRECT, E.PASS_INT_GLOSSY_COLOR, E.PASS_INT_TRANS,
    E.PASS_INT_TRANS_INDIRECT, E.PASS_INT_TRANS_COLOR, E.PASS_INT_SUBSURFACE,
    E.PASS_INT_SUBSURFACE_INDIRECT, E.PASS_INT_SUBSURFACE_COLOR, E.PASS_INT_DEBUG_NU,
    E.PASS_INT_DEBUG_NV, E.PASS_INT_DEBUG_DPDU, E.PASS_INT_DEBUG_DPDV, E.PASS_INT_DEBUG_DSDU,
    E.PASS_INT_DEBUG_DSDV, E.PASS_INT_SURFACE_INTEGRATION, E.PASS_INT_VOLUME_INTEGRATION,
    E.PASS_INT_VOLUME_TRANSMITTANCE, E.PASS_INT_AA_SAMPLES]

/-- What the development assumes of the whole internal enumeration: the sentinel
`PASS_INT_DISABLED` is -1, `PASS_INT_COMBINED` is 0, no kind is negative and no two kinds
have the same value. -/
def intPassTypes_t.Enumerated (E : intPassTypes_t) : Prop :=
  E.PASS_INT_DISABLED = -1 ∧ E.PASS_INT_COMBINED = 0 ∧ (∀ k ∈ E.kinds, 0 ≤ k) ∧ E.kinds.Nodup

instance (E : intPassTypes_t) : Decidable E.Enumerated := by
  unfold intPassTypes_t.Enumerated; infer_instance

/-- The order `a < b` of two `std::string`, the lexicographic order of their characters. -/
def string_less_chars : List Char → List Char → Bool
  | [], [] => false
  | [], _ :: _ => true
  | _ :: _, [] => false
  | a :: as, b :: bs =>
    if a.toNat < b.toNat then true
    else if b.toNat < a.toNat then false
    else string_less_chars as bs

/-- The order `a < b` of two `std::string`, the key order of the maps of names. -/
def string_less (a b : String) : Bool :=
  string_less_chars a.toList b.toList

/-- The order `a < b` of two `int`, the key order of the maps of kinds. -/
def int_less (a b : Int) : Bool :=
  decide (a < b)

/-- The assignment `m[k] = v` of a `std::map` with the key order `less`, which is kept as
the list of its entries in the order of iteration, by ascending key: the entry of `k` is
replaced, or a new entry is put in its place in the order. -/
def map_assign {K V : Type} [DecidableEq K] (less : K → K → Bool) :
    List (K × V) → K → V → List (K × V)
  | [], k, v => [(k, v)]
  | (k1, v1) :: rest, k, v =>
    if k = k1 then (k, v) :: rest
    else if less k k1 = true then (k, v) :: (k1, v1) :: rest
    else (k1, v1) :: map_assign less rest k v

/-- The lookup `m.find(k)` of a `std::map`: `none` stands for `end()`. -/
def map_find {K V : Type} [DecidableEq K] : List (K × V) → K → Option V
  | [], _ => none
  | (k1, v1) :: rest, k => if k = k1 then some v1 else map_find rest k

/-- The class `extPass_t`. -/
structure extPass_t where
  externalPassType : Int
  internalYafPassType : Int
  externalTyleType : Int
  enabled : Bool
deriving DecidableEq

/-- The constructor `extPass_t::extPass_t(int extPassType, int intPassType)`. -/
def extPass_t.ctor (X : extPassTypes_t) (extPassType intPassType : Int) : extPass_t :=
  { externalPassType := extPassType
    internalYafPassType := intPassType
    externalTyleType :=
      if extPassType = X.PASS_EXT_COMBINED then X.PASS_EXT_TILE_4_RGBA
      else if extPassType = X.PASS_EXT_Z_DEPTH then X.PASS_EXT_TILE_1_GRAYSCALE
      else if extPassType = X.PASS_EXT_VECTOR then X.PASS_EXT_TILE_4_RGBA
      else if extPassType = X.PASS_EXT_COLOR then X.PASS_EXT_TILE_4_RGBA
      else if extPassType = X.PASS_EXT_MIST then X.PASS_EXT_TILE_1_GRAYSCALE
      else if extPassType = X.PASS_EXT_OBJ_INDEX then X.PASS_EXT_TILE_1_GRAYSCALE
      else if extPassType = X.PASS_EXT_MAT_INDEX then X.PASS_EXT_TILE_1_GRAYSCALE
      else X.PASS_EXT_TILE_3_RGB
    enabled :=
      if extPassType = X.PASS_EXT_DISABLED ∨ extPassType ≥ X.PASS_EXT_TOTAL_PASSES then false
      else true }

/-- The data members of the class `renderPasses_t` that `renderpasses.cc` reads or writes:
the list of external passes and the four name and kind maps. -/
structure renderPasses_t where
  extPasses : List extPass_t
  extPassMapStringInt : List (String × Int)
  extPassMapIntString : List (Int × String)
  intPassMapStringInt : List (String × Int)
  intPassMapIntString : List (Int × String)
deriving DecidableEq

/-- The assignments `extPassMapStringInt[name] = kind` of `generate_pass_maps`, in the order
of the source. -/
def renderPasses_t.ext_assignments (X : extPassTypes_t) : List (String × Int) :=
  [
    ("Combined", X.PASS_EXT_COMBINED), ("Depth", X.PASS_EXT_Z_DEPTH),
    ("Vector", X.PASS_EXT_VECTOR), ("Normal", X.PASS_EXT_NORMAL), ("UV", X.PASS_EXT_UV),
    ("Color", X.PASS_EXT_COLOR), ("Emit", X.PASS_EXT_EMIT), ("Mist", X.PASS_EXT_MIST),
    ("Diffuse", X.PASS_EXT_DIFFUSE), ("Spec", X.PASS_EXT_SPECULAR), ("AO", X.PASS_EXT_AO),
    ("Env", X.PASS_EXT_ENV), ("Indirect", X.PASS_EXT_INDIRECT), ("Shadow", X.PASS_EXT_SHADOW),
    ("Reflect", X.PASS_EXT_REFLECT), ("Refract", X.PASS_EXT_REFRACT),
    ("IndexOB", X.PASS_EXT_OBJ_INDEX), ("IndexMA", X.PASS_EXT_MAT_INDEX),
    ("DiffDir", X.PASS_EXT_DIFFUSE_DIRECT), ("DiffInd", X.PASS_EXT_DIFFUSE_INDIRECT),
    ("DiffCol", X.PASS_EXT_DIFFUSE_COLOR), ("GlossDir", X.PASS_EXT_GLOSSY_DIRECT),
    ("GlossInd", X.PASS_EXT_GLOSSY_INDIRECT), ("GlossCol", X.PASS_EXT_GLOSSY_COLOR),
    ("TransDir", X.PASS_EXT_TRANS_DIRECT), ("TransInd", X.PASS_EXT_TRANS_INDIRECT),
    ("TransCol", X.PASS_EXT_TRANS_COLOR), ("SubsurfaceDir", X.PASS_EXT_SUBSURFACE_DIRECT),
    ("SubsurfaceInd", X.PASS_EXT_SUBSURFACE_INDIRECT),
    ("SubsurfaceCol", X.PASS_EXT_SUBSURFACE_COLOR)]

/-- The assignments `intPassMapStringInt[name] = kind` of `generate_pass_maps`, in the order
of the source ("debug-normal-smooth" and "debug-normal-geom" are assigned twice). -/
def renderPasses_t.int_assignments (E : intPassTypes_t) : List (String × Int) :=
  [
    ("combined", E.PASS_INT_COMBINED), ("z-depth-norm", E.PASS_INT_Z_DEPTH_NORM),
    ("z-depth-abs", E.PASS_INT_Z_DEPTH_ABS), ("debug-normal-smooth", E.PASS_INT_NORMAL_SMOOTH),
    ("debug-normal-geom", E.PASS_INT_NORMAL_GEOM), ("adv-radiance", E.PASS_INT_RADIANCE),
    ("debug-uv", E.PASS_INT_UV), ("emit", E.PASS_INT_EMIT), ("mist", E.PASS_INT_MIST),
    ("diffuse", E.PASS_INT_DIFFUSE), ("diffuse-noshadow", E.PASS_INT_DIFFUSE_NO_SHADOW),
    ("ao", E.PASS_INT_AO), ("ao-clay", E.PASS_INT_AO_CLAY), ("env", E.PASS_INT_ENV),
    ("indirect", E.PASS_INT_INDIRECT_ALL), ("adv-indirect", E.PASS_INT_INDIRECT),
    ("shadow", E.PASS_INT_SHADOW), ("reflect", E.PASS_INT_REFLECT_ALL),
    ("refract", E.PASS_INT_REFRACT_ALL), ("adv-reflect", E.PASS_INT_REFLECT_PERFECT),
    ("adv-refract", E.PASS_INT_REFRACT_PERFECT), ("obj-index-abs", E.PASS_INT_OBJ_INDEX_ABS),
    ("obj-index-norm", E.PASS_INT_OBJ_INDEX_NORM),
    ("obj-index-auto", E.PASS_INT_OBJ_INDEX_AUTO),
    ("obj-index-mask", E.PASS_INT_OBJ_INDEX_MASK),
    ("obj-index-mask-shadow", E.PASS_INT_OBJ_INDEX_MASK_SHADOW),
    ("obj-index-mask-all", E.PASS_INT_OBJ_INDEX_MASK_ALL),
    ("mat-index-abs", E.PASS_INT_MAT_INDEX_ABS), ("mat-index-norm", E.PASS_INT_MAT_INDEX_NORM),
    ("mat-index-auto", E.PASS_INT_MAT_INDEX_AUTO),
    ("mat-index-mask", E.PASS_INT_MAT_INDEX_MASK),
    ("mat-index-mask-shadow", E.PASS_INT_MAT_INDEX_MASK_SHADOW),
    ("mat-index-mask-all", E.PASS_INT_MAT_INDEX_MASK_ALL),
    ("adv-diffuse-indirect", E.PASS_INT_DIFFUSE_INDIRECT),
    ("adv-diffuse-color", E.PASS_INT_DIFFUSE_COLOR), ("adv-glossy", E.PASS_INT_GLOSSY),
    ("adv-glossy-indirect", E.PASS_INT_GLOSSY_INDIRECT),
    ("adv-glossy-color", E.PASS_INT_GLOSSY_COLOR), ("adv-trans", E.PASS_INT_TRANS),
    ("adv-trans-indirect", E.PASS_INT_TRANS_INDIRECT),
    ("adv-trans-color", E.PASS_INT_TRANS_COLOR), ("adv-subsurface", E.PASS_INT_SUBSURFACE),
    ("adv-subsurface-indirect", E.PASS_INT_SUBSURFACE_INDIRECT),
    ("adv-subsurface-color", E.PASS_INT_SUBSURFACE_COLOR),
    ("debug-normal-smooth", E.PASS_INT_NORMAL_SMOOTH),
    ("debug-normal-geom", E.PASS_INT_NORMAL_GEOM), ("debug-nu", E.PASS_INT_DEBUG_NU),
    ("debug-nv", E.PASS_INT_DEBUG_NV), ("debug-dpdu", E.PASS_INT_DEBUG_DPDU),
    ("debug-dpdv", E.PASS_INT_DEBUG_DPDV), ("debug-dsdu", E.PASS_INT_DEBUG_DSDU),
    ("debug-dsdv", E.PASS_INT_DEBUG_DSDV),
    ("adv-surface-integration", E.PASS_INT_SURFACE_INTEGRATION),
    ("adv-volume-integration", E.PASS_INT_VOLUME_INTEGRATION),
    ("adv-volume-transmittance", E.PASS_INT_VOLUME_TRANSMITTANCE),
    ("debug-aa-samples", E.PASS_INT_AA_SAMPLES)]

/-- A run of assignments `m[name] = kind` on a map of names. -/
def map_assign_all (m : List (String × Int)) (l : List (String × Int)) : List (String × Int) :=
  l.foldl (fun acc p => map_assign string_less acc p.1 p.2) m

/-- The loop `for(it = m.begin(); it != m.end(); ++it) r[it->second] = it->first` that
generates a reverse map. -/
def map_reverse_into (r : List (Int × String)) (m : List (String × Int)) :
    List (Int × String) :=
  m.foldl (fun acc it => map_assign int_less acc it.2 it.1) r

/-- The function `renderPasses_t::generate_pass_maps`. -/
def renderPasses_t.generate_pass_maps (X : extPassTypes_t) (E : intPassTypes_t)
    (c : renderPasses_t) : renderPasses_t :=
  let c1 : renderPasses_t :=
    { c with
      extPassMapStringInt :=
        map_assign_all c.extPassMapStringInt (renderPasses_t.ext_assignments X) }
  let c2 : renderPasses_t :=
    { c1 with
      extPassMapIntString := map_reverse_into c1.extPassMapIntString c1.extPassMapStringInt }
  let c3 : renderPasses_t :=
    { c2 with
      intPassMapStringInt :=
        map_assign_all c2.intPassMapStringInt (renderPasses_t.int_assignments E) }
  { c3 with
    intPassMapIntString := map_reverse_into c3.intPassMapIntString c3.intPassMapStringInt }

/-- The constructor `renderPasses_t::renderPasses_t`: the external Combined pass is pushed
and the maps are generated. -/
def renderPasses_t.ctor (X : extPassTypes_t) (E : intPassTypes_t) : renderPasses_t :=
  renderPasses_t.generate_pass_maps X E
    { extPasses := [extPass_t.ctor X X.PASS_EXT_COMBINED E.PASS_INT_COMBINED]
      extPassMapStringInt := []
      extPassMapIntString := []
      intPassMapStringInt := []
      intPassMapIntString := [] }

/-- The function `renderPasses_t::numExtPasses`. -/
def renderPasses_t.numExtPasses (c : renderPasses_t) : Nat :=
  c.extPasses.length

/-- The function `renderPasses_t::externalPassType(size_t pass_seq)`. -/
def renderPasses_t.externalPassType (c : renderPasses_t) (pass_seq : Nat) : Option Int :=
  (c.extPasses[pass_seq]?).map extPass_t.externalPassType

/-- The function `renderPasses_t::externalTyleType(size_t pass_seq)`. -/
def renderPasses_t.externalTyleType (c : renderPasses_t) (pass_seq : Nat) : Option Int :=
  (c.extPasses[pass_seq]?).map extPass_t.externalTyleType

/-- The function `renderPasses_t::internalYafPassType(int pass)`. -/
def renderPasses_t.internalYafPassType (c : renderPasses_t) (pass : Int) : Option Int :=
  (vector_at c.extPasses pass).map extPass_t.internalYafPassType

/-- The function `renderPasses_t::pass_add`. -/
def renderPasses_t.pass_add (X : extPassTypes_t) (E : intPassTypes_t) (c : renderPasses_t)
    (sExternalPass sInternalPass : String) : renderPasses_t :=
  let extPassType : Int :=
    match map_find c.extPassMapStringInt sExternalPass with
    | some k => k
    | none => X.PASS_EXT_DISABLED
  let intPassType : Int :=
    match map_find c.intPassMapStringInt sInternalPass with
    | some k => k
    | none => E.PASS_INT_DISABLED
  if extPassType ≠ X.PASS_EXT_COMBINED ∧ extPassType ≠ X.PASS_EXT_DISABLED
      ∧ intPassType ≠ E.PASS_INT_DISABLED then
    { c with extPasses := c.extPasses ++ [extPass_t.ctor X extPassType intPassType] }
  else c

/-- The catalogs that the constructor and calls of `pass_add` produce. -/
inductive renderPasses_t.Reachable (X : extPassTypes_t) (E : intPassTypes_t) :
    renderPasses_t → Prop
  | ctor : Reachable X E (renderPasses_t.ctor X E)
  | pass_add {c : renderPasses_t} (sExternalPass sInternalPass : String) :
      Reachable X E c → Reachable X E (c.pass_add X E sExternalPass sInternalPass)

/-- A sequence of calls `pass_add(external name, internal name)` on a catalog. -/
def renderPasses_t.pass_add_all (X : extPassTypes_t) (E : intPassTypes_t) (c : renderPasses_t)
    (calls : List (String × String)) : renderPasses_t :=
  calls.foldl (fun acc p => acc.pass_add X E p.1 p.2) c

/-! ## The colour functions of `color.h` -/

/-- The data members R, G, B of the class `color_t` over a scalar type `F`.  The functions
of `color.h` below are written for every ordered field `F`: in `CFLOAT` they can be
evaluated, in `ℝ` the functions `fPow` and `fExp` can be the real power and exponential.
`fPow` and `fExp` are declared in `utilities/mathOptimizations.h`, which is not among the
sources, so they are parameters. -/
structure colorOf (F : Type) where
  R : F
  G : F
  B : F
deriving DecidableEq

/-- The enumeration `colorSpaces_t` (color.h). -/
inductive colorSpaces_t where
  | RAW_MANUAL_GAMMA
  | LINEAR_RGB
  | SRGB
  | XYZ_D65
deriving DecidableEq

/-- The values of a `float` with the special values of IEEE 754: a finite number, an
infinity with its sign, or NaN.  The finite numbers are taken exactly (rounding and overflow
are not part of this type, and the two zeros are one value). -/
inductive float_t where
  | finite (q : ℚ)
  | inf (negative : Bool)
  | nan
deriving DecidableEq

instance : Zero float_t := ⟨float_t.finite 0⟩

instance : One float_t := ⟨float_t.finite 1⟩

/-- The product of two `float` values: a zero times an infinity is NaN, every operation on
NaN is NaN. -/
def float_t.mul : float_t → float_t → float_t
  | float_t.finite a, float_t.finite b => float_t.finite (a * b)
  | float_t.finite a, float_t.inf s =>
    if a = 0 then float_t.nan else float_t.inf (xor s (decide (a < 0)))
  | float_t.inf s, float_t.finite b =>
    if b = 0 then float_t.nan else float_t.inf (xor s (decide (b < 0)))
  | float_t.inf s, float_t.inf t => float_t.inf (xor s t)
  | float_t.nan, _ => float_t.nan
  | _, float_t.nan => float_t.nan

/-- The quotient of two `float` values: a number other than zero divided by zero is an
infinity, zero by zero and infinity by infinity are NaN, a finite number divided by an
infinity is zero. -/
def float_t.div : float_t → float_t → float_t
  | float_t.finite a, float_t.finite b =>
    if b = 0 then (if a = 0 then float_t.nan else float_t.inf (decide (a < 0)))
    else float_t.finite (a / b)
  | float_t.finite _, float_t.inf _ => float_t.finite 0
  | float_t.inf s, float_t.finite b => float_t.inf (xor s (decide (b < 0)))
  | float_t.inf _, float_t.inf _ => float_t.nan
  | float_t.nan, _ => float_t.nan
  | _, float_t.nan => float_t.nan

instance : Mul float_t := ⟨float_t.mul⟩

instance : Div float_t := ⟨float_t.div⟩

/-- The function `color_t::clampRGB0`. -/
def color_t.clampRGB0 {F : Type} [LinearOrderedField F] (c : colorOf F) : colorOf F :=
  { R := if c.R < 0 then 0 else c.R
    G := if c.G < 0 then 0 else c.G
    B := if c.B < 0 then 0 else c.B }

/-- The function `color_t::clampRGB01`. -/
def color_t.clampRGB01 {F : Type} [LinearOrderedField F] (c : colorOf F) : colorOf F :=
  { R := if c.R < 0 then 0 else if c.R > 1 then 1 else c.R
    G := if c.G < 0 then 0 else if c.G > 1 then 1 else c.G
    B := if c.B < 0 then 0 else if c.B > 1 then 1 else c.B }

/-- The function `color_t::gammaAdjust`. -/
def color_t.gammaAdjust {F : Type} (fPow : F → F → F) (c : colorOf F) (g : F) : colorOf F :=
  { R := fPow c.R g, G := fPow c.G g, B := fPow c.B g }

/-- The function `color_t::expgam_Adjust`. -/
def color_t.expgam_Adjust {F : Type} [LinearOrderedField F] (fExp : F → F)
    (fPow : F → F → F) (c : colorOf F) (e g : F) (clamp_rgb : Bool) : colorOf F :=
  if e = 0 ∧ g = 1 then
    if clamp_rgb = true then color_t.clampRGB01 c else c
  else
    let c1 : colorOf F :=
      if e ≠ 0 then
        let c0 := color_t.clampRGB0 c
        { R := 1 - fExp (c0.R * e), G := 1 - fExp (c0.G * e), B := 1 - fExp (c0.B * e) }
      else c
    if g ≠ 1 then
      let c2 := color_t.clampRGB0 c1
      { R := fPow c2.R g, G := fPow c2.G g, B := fPow c2.B g }
    else c1

/-- The function `color_t::linearRGB_from_sRGB`. -/
def color_t.linearRGB_from_sRGB {F : Type} [LinearOrderedField F] (fPow : F → F → F)
    (value_sRGB : F) : F :=
  if value_sRGB ≤ 0.04045 then value_sRGB / 12.92
  else fPow ((value_sRGB + 0.055) / 1.055) 2.4

/-- The function `color_t::sRGB_from_linearRGB`. -/
def color_t.sRGB_from_linearRGB {F : Type} [LinearOrderedField F] (fPow : F → F → F)
    (value_linearRGB : F) : F :=
  if value_linearRGB ≤ 0.0031308 then value_linearRGB * 12.92
  else 1.055 * fPow value_linearRGB 0.416667 - 0.055

/-- The table `linearRGB_from_XYZ_D65` (color.h), in exact arithmetic. -/
def linearRGB_from_XYZ_D65 {F : Type} [LinearOrderedField F] : Matrix (Fin 3) (Fin 3) F :=
  !![3.2406255, -1.537208, -0.4986286;
     -0.9689307, 1.8757561, 0.0415175;
     0.0557101, -0.2040211, 1.0569959]

/-- The table `XYZ_D65_from_linearRGB` (color.h), in exact arithmetic. -/
def XYZ_D65_from_linearRGB {F : Type} [LinearOrderedField F] : Matrix (Fin 3) (Fin 3) F :=
  !![0.412400, 0.357600, 0.180500;
     0.212600, 0.715200, 0.072200;
     0.019300, 0.119200, 0.950500]

/-- The function `color_t::linearRGB_from_ColorSpace`. -/
def color_t.linearRGB_from_ColorSpace {F : Type} [LinearOrderedField F] (fPow : F → F → F)
    (c : colorOf F) (colorSpace : colorSpaces_t) (gamma : F) : colorOf F :=
  if colorSpace = colorSpaces_t.SRGB then
    { R := color_t.linearRGB_from_sRGB fPow c.R
      G := color_t.linearRGB_from_sRGB fPow c.G
      B := color_t.linearRGB_from_sRGB fPow c.B }
  else if colorSpace = colorSpaces_t.XYZ_D65 then
    { R := linearRGB_from_XYZ_D65 0 0 * c.R + linearRGB_from_XYZ_D65 0 1 * c.G
        + linearRGB_from_XYZ_D65 0 2 * c.B
      G := linearRGB_from_XYZ_D65 1 0 * c.R + linearRGB_from_XYZ_D65 1 1 * c.G
        + linearRGB_from_XYZ_D65 1 2 * c.B
      B := linearRGB_from_XYZ_D65 2 0 * c.R + linearRGB_from_XYZ_D65 2 1 * c.G
        + linearRGB_from_XYZ_D65 2 2 * c.B }
  else if colorSpace = colorSpaces_t.RAW_MANUAL_GAMMA ∧ gamma ≠ 1 then
    color_t.gammaAdjust fPow c gamma
  else c

/-- The function `color_t::ColorSpace_from_linearRGB`. -/
def color_t.ColorSpace_from_linearRGB {F : Type} [LinearOrderedField F] (fPow : F → F → F)
    (c : colorOf F) (colorSpace : colorSpaces_t) (gamma : F) : colorOf F :=
  if colorSpace = colorSpaces_t.SRGB then
    { R := color_t.sRGB_from_linearRGB fPow c.R
      G := color_t.sRGB_from_linearRGB fPow c.G
      B := color_t.sRGB_from_linearRGB fPow c.B }
  else if colorSpace = colorSpaces_t.XYZ_D65 then
    { R := XYZ_D65_from_linearRGB 0 0 * c.R + XYZ_D65_from_linearRGB 0 1 * c.G
        + XYZ_D65_from_linearRGB 0 2 * c.B
      G := XYZ_D65_from_linearRGB 1 0 * c.R + XYZ_D65_from_linearRGB 1 1 * c.G
        + XYZ_D65_from_linearRGB 1 2 * c.B
      B := XYZ_D65_from_linearRGB 2 0 * c.R + XYZ_D65_from_linearRGB 2 1 * c.G
        + XYZ_D65_from_linearRGB 2 2 * c.B }
  else if colorSpace = colorSpaces_t.RAW_MANUAL_GAMMA ∧ gamma ≠ 1 then
    let gamma1 : F := if gamma ≤ 0 then 0.01 else gamma
    let invGamma : F := 1 / gamma1
    color_t.gammaAdjust fPow c invGamma
  else c

/-- The function `color_t::clampProportionalRGB`.  The quotient `maxValue / maxRGB` is
computed before the test `maxRGB > maxValue` and is used only when the test holds. -/
def color_t.clampProportionalRGB {F : Type} [LinearOrderedField F] (c : colorOf F)
    (maxValue : F) : colorOf F :=
  if maxValue > 0 then
    let maxRGB : F := max c.R (max c.G c.B)
    let proportionalAdjustment : F := maxValue / maxRGB
    if maxRGB > maxValue then
      if c.R ≥ maxRGB then
        { R := maxValue, G := c.G * proportionalAdjustment, B := c.B * proportionalAdjustment }
      else if c.G ≥ maxRGB then
        { R := c.R * proportionalAdjustment, G := maxValue, B := c.B * proportionalAdjustment }
      else
        { R := c.R * proportionalAdjustment, G := c.G * proportionalAdjustment, B := maxValue }
    else c
  else c

/-- The function `color_t::clampProportionalRGB` in machine arithmetic: `fl` rounds the exact
result of the division and of each product to a `float`.  With `fl` the identity this is
`color_t.clampProportionalRGB`. -/
def color_t.clampProportionalRGB_float {F : Type} [LinearOrderedField F] (fl : F → F)
    (c : colorOf F) (maxValue : F) : colorOf F :=
  if maxValue > 0 then
    let maxRGB : F := max c.R (max c.G c.B)
    let proportionalAdjustment : F := fl (maxValue / maxRGB)
    if maxRGB > maxValue then
      if c.R ≥ maxRGB then
        { R := maxValue, G := fl (c.G * proportionalAdjustment),
          B := fl (c.B * proportionalAdjustment) }
      else if c.G ≥ maxRGB then
        { R := fl (c.R * proportionalAdjustment), G := maxValue,
          B := fl (c.B * proportionalAdjustment) }
      else
        { R := fl (c.R * proportionalAdjustment), G := fl (c.G * proportionalAdjustment),
          B := maxValue }
    else c
  else c

/-- The number of times `n` can be halved before it is below 2, the floor of its binary
logarithm for `n > 0`; the first argument bounds the number of steps. -/
def floor_log2 : Nat → Nat → Nat
  | 0, _ => 0
  | fuel + 1, n => if n < 2 then 0 else floor_log2 fuel (n / 2) + 1

/-- The binary exponent of a rational `y` other than 0: the integer `e` with
`2 ^ e <= |y| < 2 ^ (e + 1)`. -/
def binary_exponent (y : ℚ) : Int :=
  let d : Int := (floor_log2 y.num.natAbs y.num.natAbs : Int) - (floor_log2 y.den y.den : Int)
  let p : ℚ := if 0 ≤ d then (2 ^ d.toNat : Nat) else 1 / ((2 ^ (-d).toNat : Nat) : ℚ)
  if |y| < p then d - 1 else d

/-- The integer nearest to `y`, the even one of the two when `y` is half way. -/
def round_half_even (y : ℚ) : Int :=
  let n : Int := ⌊y⌋
  let r : ℚ := y - n
  if r < 1 / 2 then n else if 1 / 2 < r then n + 1 else if n % 2 = 0 then n else n + 1

/-- The `float` (IEEE 754 binary32) nearest to the rational `x`, ties to even: 24 significant
bits, with the spacing `2 ^ (-149)` below `2 ^ (-126)`.  Overflow to infinity is not
modelled. -/
def binary32_round (x : ℚ) : ℚ :=
  if x = 0 then 0
  else
    let e : Int := max (binary_exponent x) (-126) - 23
    let ulp : ℚ := if 0 ≤ e then (2 ^ e.toNat : Nat) else 1 / ((2 ^ (-e).toNat : Nat) : ℚ)
    round_half_even (x / ulp) * ulp

/-- What the development assumes of the three tile types: they are different values. -/
def extPassTypes_t.TilesDistinct (X : extPassTypes_t) : Prop :=
  X.PASS_EXT_TILE_1_GRAYSCALE ≠ X.PASS_EXT_TILE_3_RGB
    ∧ X.PASS_EXT_TILE_1_GRAYSCALE ≠ X.PASS_EXT_TILE_4_RGBA
    ∧ X.PASS_EXT_TILE_3_RGB ≠ X.PASS_EXT_TILE_4_RGBA

instance (X : extPassTypes_t) : Decidable X.TilesDistinct := by
  unfold extPassTypes_t.TilesDistinct; infer_instance

/-- The function `color_t::col2bri`, on the channels R, G, B that `colorA_t` inherits. -/
def colorA_t.col2bri (c : colorA_t) : CFLOAT :=
  0.2126 * c.R + 0.7152 * c.G + 0.0722 * c.B

/-- The function `colorA_t::colorDifference`. -/
def colorA_t.colorDifference (c color2 : colorA_t) (useRGBcomponents : Bool) : CFLOAT :=
  let colorDifference : CFLOAT := |color2.col2bri - c.col2bri|
  if useRGBcomponents = true then
    let Rdiff : CFLOAT := |color2.R - c.R|
    let Gdiff : CFLOAT := |color2.G - c.G|
    let Bdiff : CFLOAT := |color2.B - c.B|
    let Adiff : CFLOAT := |color2.A - c.A|
    let d1 : CFLOAT := if colorDifference < Rdiff then Rdiff else colorDifference
    let d2 : CFLOAT := if d1 < Gdiff then Gdiff else d1
    let d3 : CFLOAT := if d2 < Bdiff then Bdiff else d2
    if d3 < Adiff then Adiff else d3
  else colorDifference

/-- The function `renderPasses_t::externalPassTypeString`: `none` stands for an index
outside `extPasses` or for the dereference of `end()`. -/
def renderPasses_t.externalPassTypeString (c : renderPasses_t) (pass_seq : Nat) :
    Option String :=
  match c.extPasses[pass_seq]? with
  | none => none
  | some e => map_find c.extPassMapIntString e.externalPassType

/-! ## The packed pixels of `image_buffers.h` -/

/-- The conversion `(uint8_t)floorf(x)`: the floor of `x` when it is one of 0..255; `none`
stands for a value that `uint8_t` cannot represent, for which the conversion is undefined. -/
def uint8_floorf (x : CFLOAT) : Option Nat :=
  if 0 ≤ ⌊x⌋ ∧ ⌊x⌋ ≤ 255 then some ⌊x⌋.toNat else none

/-- The class `rgba8888_t`: four members of type `uint8_t`, each a number below 256. -/
structure rgba8888_t where
  r : Nat
  g : Nat
  b : Nat
  a : Nat
deriving DecidableEq

/-- The values of `rgba8888_t`: every member is a byte. -/
def rgba8888_t.Bytes (p : rgba8888_t) : Prop :=
  p.r < 256 ∧ p.g < 256 ∧ p.b < 256 ∧ p.a < 256

instance (p : rgba8888_t) : Decidable p.Bytes := by
  unfold rgba8888_t.Bytes; infer_instance

/-- The function `rgba8888_t::setR`. -/
def rgba8888_t.setR (p : rgba8888_t) (red8 : Nat) : rgba8888_t := { p with r := red8 }

/-- The function `rgba8888_t::setG`. -/
def rgba8888_t.setG (p : rgba8888_t) (green8 : Nat) : rgba8888_t := { p with g := green8 }

/-- The function `rgba8888_t::setB`. -/
def rgba8888_t.setB (p : rgba8888_t) (blue8 : Nat) : rgba8888_t := { p with b := blue8 }

/-- The function `rgba8888_t::setA`. -/
def rgba8888_t.setA (p : rgba8888_t) (alpha8 : Nat) : rgba8888_t := { p with a := alpha8 }

/-- The function `rgba8888_t::getR`. -/
def rgba8888_t.getR (p : rgba8888_t) : Nat := p.r

/-- The function `rgba8888_t::getG`. -/
def rgba8888_t.getG (p : rgba8888_t) : Nat := p.g

/-- The function `rgba8888_t::getB`. -/
def rgba8888_t.getB (p : rgba8888_t) : Nat := p.b

/-- The function `rgba8888_t::getA`. -/
def rgba8888_t.getA (p : rgba8888_t) : Nat := p.a

/-- The function `rgba8888_t::setColor`. -/
def rgba8888_t.setColor (p : rgba8888_t) (col : colorA_t) : Option rgba8888_t :=
  match uint8_floorf (col.R * 255) with
  | none => none
  | some red8 =>
    match uint8_floorf (col.G * 255) with
    | none => none
    | some green8 =>
      match uint8_floorf (col.B * 255) with
      | none => none
      | some blue8 =>
        match uint8_floorf (col.A * 255) with
        | none => none
        | some alpha8 => some ((((p.setR red8).setG green8).setB blue8).setA alpha8)

/-- The function `rgba8888_t::getColor`. -/
def rgba8888_t.getColor (p : rgba8888_t) : colorA_t :=
  { R := (p.getR : CFLOAT) / 255, G := (p.getG : CFLOAT) / 255, B := (p.getB : CFLOAT) / 255,
    A := (p.getA : CFLOAT) / 255 }

/-- The class `rgb565_t`: one member of type `uint16_t`, a number below 65536. -/
structure rgb565_t where
  rgb565 : Nat
deriving DecidableEq

/-- The function `rgb565_t::setR`; the assignment to the `uint16_t` member keeps 16 bits. -/
def rgb565_t.setR (p : rgb565_t) (red8 : Nat) : rgb565_t :=
  { rgb565 := ((p.rgb565 &&& 0x07FF) ||| ((red8 &&& 0xF8) <<< 8)) % 65536 }

/-- The function `rgb565_t::setG`. -/
def rgb565_t.setG (p : rgb565_t) (green8 : Nat) : rgb565_t :=
  { rgb565 := ((p.rgb565 &&& 0xF81F) ||| ((green8 &&& 0xFC) <<< 3)) % 65536 }

/-- The function `rgb565_t::setB`. -/
def rgb565_t.setB (p : rgb565_t) (blue8 : Nat) : rgb565_t :=
  { rgb565 := ((p.rgb565 &&& 0xFFE0) ||| ((blue8 &&& 0xF8) >>> 3)) % 65536 }

/-- The function `rgb565_t::getR`; the result of type `uint8_t` keeps 8 bits. -/
def rgb565_t.getR (p : rgb565_t) : Nat :=
  ((p.rgb565 &&& 0xF800) >>> 8) % 256

/-- The function `rgb565_t::getG`. -/
def rgb565_t.getG (p : rgb565_t) : Nat :=
  ((p.rgb565 &&& 0x07E0) >>> 3) % 256

/-- The function `rgb565_t::getB`. -/
def rgb565_t.getB (p : rgb565_t) : Nat :=
  ((p.rgb565 &&& 0x001F) <<< 3) % 256

/-- The accumulator after construction, for `samplePassTypes`. -/
def sampleFresh : colorIntPasses_t :=
  { intPasses := [{ R := 0, G := 0, B := 0, A := 1 }], enabledIntPasses := [true],
    highestInternalPassUsed := 0 }

/-- The accumulator `sampleFresh` after `enable_pass(2)`. -/
def sampleGrown : colorIntPasses_t :=
  { intPasses := [{ R := 0, G := 0, B := 0, A := 1 }, { R := 0, G := 0, B := 0, A := 1 },
      { R := 0, G := 0, B := 0, A := 1 }],
    enabledIntPasses := [true, false, true],
    highestInternalPassUsed := 2 }

/-- The accumulator `sampleGrown` after `probe_set(2, (2, 3, 0, 2))`. -/
def sampleAccumulator : colorIntPasses_t :=
  { intPasses := [{ R := 0, G := 0, B := 0, A := 1 }, { R := 0, G := 0, B := 0, A := 1 },
      { R := 2, G := 3, B := 0, A := 2 }],
    enabledIntPasses := [true, false, true],
    highestInternalPassUsed := 2 }

/-- A peer accumulator with the kinds 0, 1 and 2 enabled. -/
def samplePeer : colorIntPasses_t :=
  { intPasses := [{ R := 1, G := 1, B := 1, A := 1 }, { R := 0, G := 0, B := 0, A := 1 },
      { R := 3, G := 2, B := 1, A := 5 }],
    enabledIntPasses := [true, true, true],
    highestInternalPassUsed := 2 }

/-! ## Vectors -/

theorem vector_at_isSome {α : Type} (v : List α) (i : Int) (h0 : 0 ≤ i)
    (h1 : i < (v.length : Int)) : ∃ x, vector_at v i = some x := by
  have h : i.toNat < v.length := by omega
  exact ⟨v[i.toNat], by simp [vector_at, h0, List.getElem?_eq_getElem h]⟩

theorem vector_at_some_range {α : Type} {v : List α} {i : Int} {x : α}
    (h : vector_at v i = some x) : 0 ≤ i ∧ i < (v.length : Int) := by
  unfold vector_at at h
  split at h
  · rename_i h0
    have := List.getElem?_eq_some.1 h
    obtain ⟨hlt, _⟩ := this
    omega
  · cases h

theorem vector_at_append_single {α : Type} (v : List α) (x : α) (i : Int) :
    vector_at (v ++ [x]) i = if i = (v.length : Int) then some x else vector_at v i := by
  unfold vector_at
  by_cases h0 : 0 ≤ i
  · simp only [h0, if_true]
    by_cases h1 : i.toNat < v.length
    · rw [List.getElem?_append_left h1]
      have : i ≠ (v.length : Int) := by omega
      simp [this]
    · by_cases h2 : i.toNat = v.length
      · have : i = (v.length : Int) := by omega
        simp [h2, this]
      · have h3 : i ≠ (v.length : Int) := by omega
        have h4 : v.length < i.toNat := by omega
        simp only [h3, if_false]
        rw [List.getElem?_eq_none (by simp; omega), List.getElem?_eq_none (by omega)]
  · have : i ≠ (v.length : Int) := by omega
    simp [h0, this]

theorem vector_at_set {α : Type} (v : List α) (n : Nat) (x : α) (i : Int) :
    vector_at (v.set n x) i
      = if i = (n : Int) ∧ n < v.length then some x else vector_at v i := by
  unfold vector_at
  by_cases hi : i = (n : Int)
  · subst hi
    by_cases h2 : n < v.length
    · simp [h2, List.getElem?_set]
    · simp only [h2, and_false, if_false, Int.toNat_ofNat]
      rw [List.getElem?_set]
      simp only [if_true, h2, if_false]
      rw [List.getElem?_eq_none (by omega)]
  · by_cases h0 : 0 ≤ i
    · have h1 : n ≠ i.toNat := by omega
      simp only [h0, if_true, hi, false_and, if_false]
      rw [List.getElem?_set]
      simp [h1]
    · simp [h0, hi]

theorem vector_assign_eq {α : Type} (v : List α) (i : Int) (x : α) (h0 : 0 ≤ i)
    (h1 : i < (v.length : Int)) : vector_assign v i x = some (v.set i.toNat x) := by
  have h : i.toNat < v.length := by omega
  simp [vector_assign, h0, h]

theorem vector_at_zero {α : Type} (v : List α) : vector_at v 0 = v[0]? := by
  simp [vector_at]

theorem vector_at_none_of_le {α : Type} (v : List α) (i : Int)
    (h : (v.length : Int) ≤ i) : vector_at v i = none := by
  unfold vector_at
  split
  · exact List.getElem?_eq_none (by omega)
  · rfl

/-! ## The growth loop of `enable_pass` -/

theorem enable_pass_loop_highest (E : intPassTypes_t) (pass : Int) :
    ∀ (n : Nat) (idx : Int) (s : colorIntPasses_t),
      (colorIntPasses_t.enable_pass_loop E pass n idx s).highestInternalPassUsed
        = s.highestInternalPassUsed := by
  intro n
  induction n with
  | zero => intro idx s; rfl
  | succ n ih => intro idx s; simp only [colorIntPasses_t.enable_pass_loop, ih]

theorem enable_pass_loop_length (E : intPassTypes_t) (pass : Int) :
    ∀ (n : Nat) (idx : Int) (s : colorIntPasses_t),
      (colorIntPasses_t.enable_pass_loop E pass n idx s).intPasses.length
          = s.intPasses.length + n
        ∧ (colorIntPasses_t.enable_pass_loop E pass n idx s).enabledIntPasses.length
          = s.enabledIntPasses.length + n := by
  intro n
  induction n with
  | zero => intro idx s; exact ⟨rfl, rfl⟩
  | succ n ih =>
    intro idx s
    simp only [colorIntPasses_t.enable_pass_loop]
    obtain ⟨h1, h2⟩ := ih (idx + 1)
      { s with
        intPasses := s.intPasses ++ [colorIntPasses_t.init_color E idx]
        enabledIntPasses := s.enabledIntPasses ++ [decide (idx = pass)] }
    rw [h1, h2]
    simp only [List.length_append, List.length_singleton]
    omega

theorem enable_pass_loop_color (E : intPassTypes_t) (pass : Int) :
    ∀ (n : Nat) (idx : Int) (s : colorIntPasses_t), (s.intPasses.length : Int) = idx →
      ∀ j : Int, vector_at (colorIntPasses_t.enable_pass_loop E pass n idx s).intPasses j
        = if j < idx then vector_at s.intPasses j
          else if j < idx + n then some (colorIntPasses_t.init_color E j) else none := by
  intro n
  induction n with
  | zero =>
    intro idx s hlen j
    simp only [colorIntPasses_t.enable_pass_loop]
    split_ifs with h1 h2
    · rfl
    · exfalso; simp at h2; omega
    · exact vector_at_none_of_le _ _ (by omega)
  | succ n ih =>
    intro idx s hlen j
    simp only [colorIntPasses_t.enable_pass_loop]
    rw [ih (idx + 1) _ (by simp only [List.length_append, List.length_singleton]; push_cast; omega)]
    simp only [vector_at_append_single, hlen]
    push_cast
    by_cases h1 : j < idx
    · have h2 : j < idx + 1 := by omega
      have h3 : j ≠ idx := by omega
      simp [h1, h2, h3]
    · by_cases h2 : j = idx
      · subst h2; simp
      · have h3 : ¬ j < idx + 1 := by omega
        simp only [h1, h3, if_false]
        have : (j < idx + 1 + (n : Int)) ↔ (j < idx + ((n : Int) + 1)) := by omega
        simp only [this]

theorem enable_pass_loop_bit (E : intPassTypes_t) (pass : Int) :
    ∀ (n : Nat) (idx : Int) (s : colorIntPasses_t), (s.enabledIntPasses.length : Int) = idx →
      ∀ j : Int, vector_at (colorIntPasses_t.enable_pass_loop E pass n idx s).enabledIntPasses j
        = if j < idx then vector_at s.enabledIntPasses j
          else if j < idx + n then some (decide (j = pass)) else none := by
  intro n
  induction n with
  | zero =>
    intro idx s hlen j
    simp only [colorIntPasses_t.enable_pass_loop]
    split_ifs with h1 h2
    · rfl
    · exfalso; simp at h2; omega
    · exact vector_at_none_of_le _ _ (by omega)
  | succ n ih =>
    intro idx s hlen j
    simp only [colorIntPasses_t.enable_pass_loop]
    rw [ih (idx + 1) _ (by simp only [List.length_append, List.length_singleton]; push_cast; omega)]
    simp only [vector_at_append_single, hlen]
    push_cast
    by_cases h1 : j < idx
    · have h2 : j < idx + 1 := by omega
      have h3 : j ≠ idx := by omega
      simp [h1, h2, h3]
    · by_cases h2 : j = idx
      · subst h2; simp
      · have h3 : ¬ j < idx + 1 := by omega
        simp only [h1, h3, if_false]
        have : (j < idx + 1 + (n : Int)) ↔ (j < idx + ((n : Int) + 1)) := by omega
        simp only [this]

/-! ## `enabled` and `enable_pass` -/

theorem enabled_above (s : colorIntPasses_t) (pass : Int)
    (h : s.highestInternalPassUsed < pass) : s.enabled pass = some false := by
  have : ¬ pass ≤ s.highestInternalPassUsed := by omega
  simp [colorIntPasses_t.enabled, this]

theorem enabled_below (s : colorIntPasses_t) (pass : Int)
    (h : pass ≤ s.highestInternalPassUsed) :
    s.enabled pass = vector_at s.enabledIntPasses pass := by
  simp [colorIntPasses_t.enabled, h]

theorem enabled_true_range {s : colorIntPasses_t} {pass : Int}
    (h : s.enabled pass = some true) :
    0 ≤ pass ∧ pass ≤ s.highestInternalPassUsed
      ∧ pass < (s.enabledIntPasses.length : Int)
      ∧ vector_at s.enabledIntPasses pass = some true := by
  unfold colorIntPasses_t.enabled at h
  split at h
  · rename_i hle
    have := vector_at_some_range h
    exact ⟨this.1, hle, this.2, h⟩
  · cases h

theorem enable_pass_of_enabled (E : intPassTypes_t) (s : colorIntPasses_t) (pass : Int)
    (h : s.enabled pass = some true) : s.enable_pass E pass = some s := by
  simp [colorIntPasses_t.enable_pass, h]

theorem enable_pass_above (E : intPassTypes_t) (s : colorIntPasses_t) (pass : Int)
    (hc : (s.intPasses.length : Int) = s.highestInternalPassUsed + 1)
    (hb : (s.enabledIntPasses.length : Int) = s.highestInternalPassUsed + 1)
    (hgt : s.highestInternalPassUsed < pass) (hne : pass ≠ E.PASS_INT_DISABLED) :
    ∃ t, s.enable_pass E pass = some t
      ∧ t.highestInternalPassUsed = pass
      ∧ (t.intPasses.length : Int) = pass + 1
      ∧ (t.enabledIntPasses.length : Int) = pass + 1
      ∧ (∀ j : Int, vector_at t.intPasses j
          = if j ≤ s.highestInternalPassUsed then vector_at s.intPasses j
            else if j ≤ pass then some (colorIntPasses_t.init_color E j) else none)
      ∧ (∀ j : Int, vector_at t.enabledIntPasses j
          = if j ≤ s.highestInternalPassUsed then vector_at s.enabledIntPasses j
            else if j ≤ pass then some (decide (j = pass)) else none) := by
  have hh : -1 ≤ s.highestInternalPassUsed := by omega
  have hn : (((pass - s.highestInternalPassUsed).toNat : Nat) : Int)
      = pass - s.highestInternalPassUsed := by omega
  obtain ⟨hl1, hl2⟩ := enable_pass_loop_length E pass
    (pass - s.highestInternalPassUsed).toNat (s.highestInternalPassUsed + 1) s
  have hcol := enable_pass_loop_color E pass
    (pass - s.highestInternalPassUsed).toNat (s.highestInternalPassUsed + 1) s hc
  have hbit := enable_pass_loop_bit E pass
    (pass - s.highestInternalPassUsed).toNat (s.highestInternalPassUsed + 1) s hb
  have hunf : s.enable_pass E pass
      = match vector_assign (colorIntPasses_t.enable_pass_loop E pass
          (pass - s.highestInternalPassUsed).toNat (s.highestInternalPassUsed + 1)
          s).enabledIntPasses pass true with
        | none => none
        | some bits => some
          { intPasses := (colorIntPasses_t.enable_pass_loop E pass
              (pass - s.highestInternalPassUsed).toNat (s.highestInternalPassUsed + 1)
              s).intPasses
            enabledIntPasses := bits
            highestInternalPassUsed := pass } := by
    simp only [colorIntPasses_t.enable_pass, enabled_above s pass hgt, hne, gt_iff_lt, hgt,
      if_true, or_false, Bool.false_eq_true, if_false]
  obtain ⟨L, hL⟩ : ∃ L, L = colorIntPasses_t.enable_pass_loop E pass
    (pass - s.highestInternalPassUsed).toNat (s.highestInternalPassUsed + 1) s := ⟨_, rfl⟩
  rw [← hL] at hl1 hl2 hcol hbit hunf
  have hblen : (L.enabledIntPasses.length : Int) = pass + 1 := by
    rw [hl2]; push_cast; omega
  have hassign := vector_assign_eq L.enabledIntPasses pass true (by omega) (by omega)
  rw [hassign] at hunf
  refine ⟨{ intPasses := L.intPasses, enabledIntPasses := L.enabledIntPasses.set pass.toNat true,
            highestInternalPassUsed := pass }, hunf, rfl, ?_, ?_, ?_, ?_⟩
  · show (L.intPasses.length : Int) = pass + 1
    rw [hl1]; push_cast; omega
  · show ((L.enabledIntPasses.set pass.toNat true).length : Int) = pass + 1
    rw [List.length_set]; exact hblen
  · intro j
    show vector_at L.intPasses j = _
    rw [hcol j, hn]
    by_cases h1 : j ≤ s.highestInternalPassUsed
    · have : j < s.highestInternalPassUsed + 1 := by omega
      simp [h1, this]
    · have h2 : ¬ j < s.highestInternalPassUsed + 1 := by omega
      have h3 : (j < s.highestInternalPassUsed + 1 + (pass - s.highestInternalPassUsed))
          ↔ j ≤ pass := by omega
      simp only [h1, h2, if_false, h3]
  · intro j
    show vector_at (L.enabledIntPasses.set pass.toNat true) j = _
    rw [vector_at_set, hbit j, hn]
    have hcast : ((pass.toNat : Nat) : Int) = pass := by omega
    have hlt : pass.toNat < L.enabledIntPasses.length := by omega
    simp only [hcast, hlt, and_true]
    by_cases h0 : j = pass
    · subst h0
      have h1 : ¬ j ≤ s.highestInternalPassUsed := by omega
      simp [h1]
    · by_cases h1 : j ≤ s.highestInternalPassUsed
      · have : j < s.highestInternalPassUsed + 1 := by omega
        simp [h0, h1, this]
      · have h2 : ¬ j < s.highestInternalPassUsed + 1 := by omega
        have h3 : (j < s.highestInternalPassUsed + 1 + (pass - s.highestInternalPassUsed))
            ↔ j ≤ pass := by omega
        simp only [h0, h1, h2, if_false, h3]

theorem enable_pass_below (E : intPassTypes_t) (s : colorIntPasses_t) (pass : Int)
    (hb : (s.enabledIntPasses.length : Int) = s.highestInternalPassUsed + 1)
    (h0 : 0 ≤ pass) (hle : pass ≤ s.highestInternalPassUsed)
    (hoff : s.enabled pass = some false) (hne : pass ≠ E.PASS_INT_DISABLED) :
    s.enable_pass E pass
      = some { s with enabledIntPasses := s.enabledIntPasses.set pass.toNat true } := by
  have hgt : ¬ pass > s.highestInternalPassUsed := by omega
  have hassign := vector_assign_eq s.enabledIntPasses pass true h0 (by omega)
  simp only [colorIntPasses_t.enable_pass, hoff, hne, hgt, or_false, Bool.false_eq_true,
    if_false, hassign]

theorem enable_pass_invariant (E : intPassTypes_t) {s t : colorIntPasses_t} (pass : Int)
    (hinv : s.Invariant) (h : s.enable_pass E pass = some t) : t.Invariant := by
  obtain ⟨hc, hb, h0⟩ := hinv
  rw [← vector_at_zero] at h0
  have hh : 0 ≤ s.highestInternalPassUsed := by
    have := (vector_at_some_range h0).2; omega
  cases he : s.enabled pass with
  | none => simp [colorIntPasses_t.enable_pass, he] at h
  | some e =>
    by_cases hstop : e = true ∨ pass = E.PASS_INT_DISABLED
    · simp only [colorIntPasses_t.enable_pass, he, hstop, if_true, Option.some.injEq] at h
      subst h
      exact ⟨hc, hb, by rw [← vector_at_zero]; exact h0⟩
    · have hne : pass ≠ E.PASS_INT_DISABLED := fun hp => hstop (Or.inr hp)
      have hfalse : e = false := by
        cases e
        · rfl
        · exact absurd (Or.inl rfl) hstop
      subst hfalse
      by_cases hgt : s.highestInternalPassUsed < pass
      · obtain ⟨t1, ht1, hw, hlc, hlb, _, hbits⟩ := enable_pass_above E s pass hc hb hgt hne
        rw [ht1] at h
        cases h
        refine ⟨by omega, by omega, ?_⟩
        rw [← vector_at_zero, hbits 0]
        simp [hh, h0]
      · have hle : pass ≤ s.highestInternalPassUsed := by omega
        have hp0 : 0 ≤ pass := by
          rw [enabled_below s pass hle] at he
          exact (vector_at_some_range he).1
        rw [enable_pass_below E s pass hb hp0 hle he hne] at h
        cases h
        refine ⟨hc, ?_, ?_⟩
        · show (((s.enabledIntPasses.set pass.toNat true).length : Nat) : Int) = _
          rw [List.length_set]; exact hb
        · rw [← vector_at_zero]
          show vector_at (s.enabledIntPasses.set pass.toNat true) 0 = some true
          rw [vector_at_set]
          split
          · rfl
          · exact h0

/-! ## Assignments to a slot and the bulk loops -/

theorem assign_color_some {s t : colorIntPasses_t} {pass : Int} {f : colorA_t → colorA_t}
    (h : s.assign_color pass f = some t) :
    ∃ c, vector_at s.intPasses pass = some c
      ∧ t = { s with intPasses := s.intPasses.set pass.toNat (f c) } := by
  unfold colorIntPasses_t.assign_color at h
  cases hc : vector_at s.intPasses pass with
  | none => simp [hc] at h
  | some c =>
    simp only [hc, Option.some.injEq] at h
    exact ⟨c, rfl, h.symm⟩

theorem assign_color_ok (s : colorIntPasses_t) (pass : Int) (f : colorA_t → colorA_t)
    (h0 : 0 ≤ pass) (h1 : pass < (s.intPasses.length : Int)) :
    ∃ c, vector_at s.intPasses pass = some c
      ∧ s.assign_color pass f
          = some { s with intPasses := s.intPasses.set pass.toNat (f c) } := by
  obtain ⟨c, hc⟩ := vector_at_isSome s.intPasses pass h0 h1
  exact ⟨c, hc, by simp [colorIntPasses_t.assign_color, hc]⟩

theorem assign_color_invariant {s t : colorIntPasses_t} {pass : Int} {f : colorA_t → colorA_t}
    (hinv : s.Invariant) (h : s.assign_color pass f = some t) : t.Invariant := by
  obtain ⟨c, _, rfl⟩ := assign_color_some h
  obtain ⟨hc, hb, h0⟩ := hinv
  refine ⟨?_, hb, h0⟩
  show (((s.intPasses.set pass.toNat (f c)).length : Nat) : Int) = _
  rw [List.length_set]; exact hc

theorem for_each_pass_invariant (body : Int → colorA_t → colorA_t) :
    ∀ (n : Nat) (idx : Int) (s t : colorIntPasses_t), s.Invariant →
      colorIntPasses_t.for_each_pass body n idx s = some t → t.Invariant := by
  intro n
  induction n with
  | zero =>
    intro idx s t hinv h
    simp only [colorIntPasses_t.for_each_pass, Option.some.injEq] at h
    subst h; exact hinv
  | succ n ih =>
    intro idx s t hinv h
    simp only [colorIntPasses_t.for_each_pass] at h
    cases ha : s.assign_color idx (body idx) with
    | none => simp [ha] at h
    | some s1 =>
      simp only [ha] at h
      exact ih (idx + 1) s1 t (assign_color_invariant hinv ha) h

theorem operator_add_assign_loop_invariant (a : colorIntPasses_t) :
    ∀ (n : Nat) (idx : Int) (s t : colorIntPasses_t), s.Invariant →
      colorIntPasses_t.operator_add_assign_loop a n idx s = some t → t.Invariant := by
  intro n
  induction n with
  | zero =>
    intro idx s t hinv h
    simp only [colorIntPasses_t.operator_add_assign_loop, Option.some.injEq] at h
    subst h; exact hinv
  | succ n ih =>
    intro idx s t hinv h
    simp only [colorIntPasses_t.operator_add_assign_loop] at h
    cases hx : a.color idx with
    | none => simp [hx] at h
    | some x =>
      simp only [hx] at h
      cases ha : s.assign_color idx (fun c => c.operator_add_assign x) with
      | none => simp [ha] at h
      | some s1 =>
        simp only [ha] at h
        exact ih (idx + 1) s1 t (assign_color_invariant hinv ha) h

/-- A conditional assignment to one slot, the shape of the three value-form probes. -/
theorem probe_value_invariant {s t : colorIntPasses_t} {pass : Int} {v r : colorA_t}
    {condition : Bool} {f : colorA_t → colorA_t} (hinv : s.Invariant)
    (h : (if condition = true then
            match s.enabled pass with
            | none => none
            | some true =>
              match s.assign_color pass f with
              | none => none
              | some s1 => some (v, s1)
            | some false => some (v, s)
          else some (v, s)) = some (r, t)) : t.Invariant := by
  by_cases hcnd : condition = true
  · simp only [hcnd, if_true] at h
    cases he : s.enabled pass with
    | none => simp [he] at h
    | some e =>
      cases e with
      | false =>
        simp only [he, Option.some.injEq, Prod.mk.injEq] at h
        rw [← h.2]; exact hinv
      | true =>
        simp only [he] at h
        cases ha : s.assign_color pass f with
        | none => simp [ha] at h
        | some s1 =>
          simp only [ha, Option.some.injEq, Prod.mk.injEq] at h
          rw [← h.2]; exact assign_color_invariant hinv ha
  · have hcf : condition = false := by cases condition <;> simp_all
    subst hcf
    simp only [Bool.false_eq_true, if_false, Option.some.injEq, Prod.mk.injEq] at h
    rw [← h.2]; exact hinv

theorem probe_peer_invariant {op : colorA_t → colorA_t → colorA_t} {s t peer : colorIntPasses_t}
    {pass : Int} {r : colorA_t} {condition : Bool} (hinv : s.Invariant)
    (h : colorIntPasses_t.probe_peer op s pass peer condition = some (r, t)) :
    t.Invariant := by
  unfold colorIntPasses_t.probe_peer at h
  by_cases hcnd : condition = true
  · simp only [hcnd, if_true] at h
    cases he : s.enabled pass with
    | none => simp [he] at h
    | some e =>
      cases e with
      | false =>
        simp only [he, Option.some.injEq, Prod.mk.injEq] at h
        rw [← h.2]; exact hinv
      | true =>
        simp only [he] at h
        cases hp : peer.enabled pass with
        | none => simp [hp] at h
        | some e2 =>
          cases e2 with
          | false =>
            simp only [hp, Option.some.injEq, Prod.mk.injEq] at h
            rw [← h.2]; exact hinv
          | true =>
            simp only [hp] at h
            cases hx : vector_at peer.intPasses pass with
            | none => simp [hx] at h
            | some x =>
              simp only [hx] at h
              cases ha : s.assign_color pass (fun c => op c x) with
              | none => simp [ha] at h
              | some s1 =>
                simp only [ha, Option.some.injEq, Prod.mk.injEq] at h
                rw [← h.2]; exact assign_color_invariant hinv ha
  · have hcf : condition = false := by cases condition <;> simp_all
    subst hcf
    simp only [Bool.false_eq_true, if_false, Option.some.injEq, Prod.mk.injEq] at h
    rw [← h.2]; exact hinv

/-! ## Construction and the invariant -/

theorem init_color_combined (E : intPassTypes_t) (hE : E.Valid) :
    colorIntPasses_t.init_color E 0 = { R := 0, G := 0, B := 0, A := 1 } := by
  obtain ⟨_, _, _, h1, h2, h3, h4, h5, h6, h7⟩ := hE
  have e1 : (0 : Int) ≠ E.PASS_INT_SHADOW := by omega
  have e2 : (0 : Int) ≠ E.PASS_INT_OBJ_INDEX_MASK := by omega
  have e3 : (0 : Int) ≠ E.PASS_INT_OBJ_INDEX_MASK_SHADOW := by omega
  have e4 : (0 : Int) ≠ E.PASS_INT_OBJ_INDEX_MASK_ALL := by omega
  have e5 : (0 : Int) ≠ E.PASS_INT_MAT_INDEX_MASK := by omega
  have e6 : (0 : Int) ≠ E.PASS_INT_MAT_INDEX_MASK_SHADOW := by omega
  have e7 : (0 : Int) ≠ E.PASS_INT_MAT_INDEX_MASK_ALL := by omega
  simp only [colorIntPasses_t.init_color, e1, e2, e3, e4, e5, e6, e7, or_self, if_false]

theorem ctor_eq (E : intPassTypes_t) (hE : E.Valid) :
    colorIntPasses_t.ctor E
      = some { intPasses := [{ R := 0, G := 0, B := 0, A := 1 }], enabledIntPasses := [true],
               highestInternalPassUsed := 0 } := by
  have hinit := init_color_combined E hE
  obtain ⟨hD, hC, _⟩ := hE
  simp [colorIntPasses_t.ctor, colorIntPasses_t.enable_pass, colorIntPasses_t.enabled, hD, hC,
    colorIntPasses_t.enable_pass_loop, vector_assign, hinit]

theorem ctor_invariant (E : intPassTypes_t) (hE : E.Valid) {s : colorIntPasses_t}
    (h : colorIntPasses_t.ctor E = some s) : s.Invariant := by
  rw [ctor_eq E hE] at h
  cases h
  exact ⟨rfl, rfl, rfl⟩

theorem invariant_of_reachable (E : intPassTypes_t) (hE : E.Valid) {s : colorIntPasses_t}
    (h : colorIntPasses_t.Reachable E s) : s.Invariant := by
  induction h with
  | ctor h => exact ctor_invariant E hE h
  | enable_pass pass _ h ih => exact enable_pass_invariant E pass ih h
  | probe_set pass v r condition _ h ih => exact probe_value_invariant ih h
  | probe_add pass v r condition _ h ih => exact probe_value_invariant ih h
  | probe_mult pass v r condition _ h ih => exact probe_value_invariant ih h
  | probe_set_passes pass peer r condition _ h ih => exact probe_peer_invariant ih h
  | probe_add_passes pass peer r condition _ h ih => exact probe_peer_invariant ih h
  | probe_mult_passes pass peer r condition _ h ih => exact probe_peer_invariant ih h
  | reset_colors _ h ih => exact for_each_pass_invariant _ _ _ _ _ ih h
  | multiply_colors factor _ h ih => exact for_each_pass_invariant _ _ _ _ _ ih h
  | operator_mul_assign_scalar f _ h ih => exact for_each_pass_invariant _ _ _ _ _ ih h
  | operator_mul_assign_color a _ h ih => exact for_each_pass_invariant _ _ _ _ _ ih h
  | operator_mul_assign_colorA a _ h ih => exact for_each_pass_invariant _ _ _ _ _ ih h
  | operator_add_assign peer _ h ih => exact operator_add_assign_loop_invariant _ _ _ _ _ ih h

theorem invariant_enabled_zero {s : colorIntPasses_t} (h : s.Invariant) :
    s.enabled 0 = some true := by
  obtain ⟨_, hb, h0⟩ := h
  rw [← vector_at_zero] at h0
  have := (vector_at_some_range h0).2
  rw [enabled_below s 0 (by omega)]
  exact h0

/-- C1: every accumulator reachable from construction by `enable_pass`, the value-form and
accumulator-form probes, `reset_colors`, `multiply_colors`, the `operator *=` and
`operator +=` has `intPasses.size() == enabledIntPasses.size() == highestInternalPassUsed + 1`
and has index 0 (Combined) enabled. -/
theorem reachable_accumulator_invariant (E : intPassTypes_t) (hE : E.Valid) (s : colorIntPasses_t)
    (h : colorIntPasses_t.Reachable E s) :
    s.intPasses.length = s.enabledIntPasses.length
      ∧ (s.enabledIntPasses.length : Int) = s.highestInternalPassUsed + 1
      ∧ s.enabled 0 = some true
      ∧ s.enabled E.PASS_INT_COMBINED = some true := by
  have hinv := invariant_of_reachable E hE h
  have h0 := invariant_enabled_zero hinv
  obtain ⟨hc, hb, _⟩ := hinv
  refine ⟨by omega, hb, h0, ?_⟩
  rw [hE.2.1]; exact h0

/-- C2: a freshly constructed accumulator has `highestInternalPassUsed == 0`, which is
`PASS_INT_COMBINED`, has Combined enabled, and has exactly one allocated slot, which holds
opaque black (0,0,0,1). -/
theorem ctor_fresh (E : intPassTypes_t) (hE : E.Valid) :
    ∃ s : colorIntPasses_t, colorIntPasses_t.ctor E = some s
      ∧ s.get_highest_internal_pass_used = 0
      ∧ s.get_highest_internal_pass_used = E.PASS_INT_COMBINED
      ∧ s.enabled E.PASS_INT_COMBINED = some true
      ∧ s.intPasses.length = 1
      ∧ s.enabledIntPasses.length = 1
      ∧ s.color E.PASS_INT_COMBINED = some { R := 0, G := 0, B := 0, A := 1 } := by
  refine ⟨_, ctor_eq E hE, rfl, ?_, ?_, rfl, rfl, ?_⟩
  · rw [hE.2.1]; rfl
  · rw [hE.2.1]; rfl
  · rw [hE.2.1]; rfl

/-- C3: for an accumulator with watermark `h` and a kind `k > h`, `enable_pass(k)` makes
`k` the watermark and enables `k`, leaves every index strictly between `h` and `k`
disabled, gives every index in `h+1..k` the colour `init_color`, and keeps the colours and
bits of the indices up to `h`; on a fresh accumulator `enable_pass(17)` gives watermark 17,
`enabled(17)`, and `enabled(k)` false with `color(k) == init_color(k)` for `1 <= k < 17`. -/
theorem enable_pass_above_watermark (E : intPassTypes_t) (hE : E.Valid) :
    (∀ (s : colorIntPasses_t) (k : Int), s.Invariant → s.highestInternalPassUsed < k →
      ∃ t : colorIntPasses_t, s.enable_pass E k = some t
        ∧ t.get_highest_internal_pass_used = k
        ∧ t.enabled k = some true
        ∧ (∀ j : Int, s.highestInternalPassUsed < j → j < k → t.enabled j = some false)
        ∧ (∀ j : Int, s.highestInternalPassUsed < j → j ≤ k →
            t.color j = some (colorIntPasses_t.init_color E j))
        ∧ (∀ j : Int, j ≤ s.highestInternalPassUsed →
            t.color j = s.color j ∧ t.enabled j = s.enabled j))
    ∧ (∃ s0 t : colorIntPasses_t, colorIntPasses_t.ctor E = some s0
        ∧ s0.enable_pass E 17 = some t
        ∧ t.get_highest_internal_pass_used = 17
        ∧ t.enabled 17 = some true
        ∧ (∀ k : Int, 1 ≤ k → k < 17 →
            t.enabled k = some false
              ∧ t.color k = some (colorIntPasses_t.init_color E k))) := by
  have general : ∀ (s : colorIntPasses_t) (k : Int), s.Invariant →
      s.highestInternalPassUsed < k →
      ∃ t : colorIntPasses_t, s.enable_pass E k = some t
        ∧ t.get_highest_internal_pass_used = k
        ∧ t.enabled k = some true
        ∧ (∀ j : Int, s.highestInternalPassUsed < j → j < k → t.enabled j = some false)
        ∧ (∀ j : Int, s.highestInternalPassUsed < j → j ≤ k →
            t.color j = some (colorIntPasses_t.init_color E j))
        ∧ (∀ j : Int, j ≤ s.highestInternalPassUsed →
            t.color j = s.color j ∧ t.enabled j = s.enabled j) := by
    intro s k hinv hk
    have hh : 0 ≤ s.highestInternalPassUsed :=
      (enabled_true_range (invariant_enabled_zero hinv)).2.1
    obtain ⟨hc, hb, _⟩ := hinv
    have hne : k ≠ E.PASS_INT_DISABLED := by rw [hE.1]; omega
    obtain ⟨t, ht, hw, _, _, hcol, hbit⟩ := enable_pass_above E s k hc hb hk hne
    refine ⟨t, ht, hw, ?_, ?_, ?_, ?_⟩
    · rw [enabled_below t k (by omega), hbit k]
      have : ¬ k ≤ s.highestInternalPassUsed := by omega
      simp [this]
    · intro j hj1 hj2
      rw [enabled_below t j (by omega), hbit j]
      have h1 : ¬ j ≤ s.highestInternalPassUsed := by omega
      have h2 : j ≤ k := by omega
      have h3 : j ≠ k := by omega
      simp [h1, h2, h3]
    · intro j hj1 hj2
      have h1 : ¬ j ≤ s.highestInternalPassUsed := by omega
      simp only [colorIntPasses_t.color, hcol j, h1, hj2, if_true, if_false]
    · intro j hj
      refine ⟨?_, ?_⟩
      · simp only [colorIntPasses_t.color, hcol j, hj, if_true]
      · rw [enabled_below t j (by omega), enabled_below s j hj, hbit j]
        simp [hj]
  refine ⟨general, ?_⟩
  have hfresh := ctor_eq E hE
  have hinv0 := ctor_invariant E hE hfresh
  obtain ⟨t, ht, hw, hen, hoff, hcol, _⟩ := general _ 17 hinv0 (by decide)
  refine ⟨_, t, hfresh, ht, hw, hen, ?_⟩
  intro k hk1 hk2
  exact ⟨hoff k (by show (0 : Int) < k; omega) hk2,
    hcol k (by show (0 : Int) < k; omega) (by omega)⟩

/-- C5: for a kind `k` with `0 <= k <= highestInternalPassUsed` that is allocated but not
enabled, `enable_pass(k)` only sets the enabled bit of `k`: the watermark, every stored
colour and every other enabled bit are unchanged. -/
theorem enable_pass_allocated (E : intPassTypes_t) (hE : E.Valid) (s : colorIntPasses_t)
    (k : Int) (hinv : s.Invariant) (h0 : 0 ≤ k) (hle : k ≤ s.highestInternalPassUsed)
    (hoff : s.enabled k = some false) :
    ∃ t : colorIntPasses_t, s.enable_pass E k = some t
      ∧ t.enabled k = some true
      ∧ t.highestInternalPassUsed = s.highestInternalPassUsed
      ∧ t.intPasses = s.intPasses
      ∧ t.enabledIntPasses.length = s.enabledIntPasses.length
      ∧ (∀ j : Int, j ≠ k → t.enabled j = s.enabled j) := by
  obtain ⟨_, hb, _⟩ := hinv
  have hne : k ≠ E.PASS_INT_DISABLED := by rw [hE.1]; omega
  refine ⟨_, enable_pass_below E s k hb h0 hle hoff hne, ?_, rfl, rfl, ?_, ?_⟩
  · have hlt : k.toNat < s.enabledIntPasses.length := by omega
    have hcast : ((k.toNat : Nat) : Int) = k := by omega
    simp only [colorIntPasses_t.enabled, hle, if_true, vector_at_set, hcast, hlt, and_self]
  · show (s.enabledIntPasses.set k.toNat true).length = _
    rw [List.length_set]
  · intro j hj
    have hcast : ((k.toNat : Nat) : Int) = k := by omega
    simp only [colorIntPasses_t.enabled, vector_at_set, hcast, hj, false_and, if_false]

/-- C6: `init_color(k)` is transparent black (0,0,0,0) exactly when `k` is Shadow or one of
the six object-index and material-index mask kinds, and opaque black (0,0,0,1) for every
other kind. -/
theorem init_color_mask_or_opaque (E : intPassTypes_t) (k : Int) :
    (colorIntPasses_t.init_color E k = { R := 0, G := 0, B := 0, A := 0 }
        ↔ (k = E.PASS_INT_SHADOW ∨ k = E.PASS_INT_OBJ_INDEX_MASK
            ∨ k = E.PASS_INT_OBJ_INDEX_MASK_SHADOW ∨ k = E.PASS_INT_OBJ_INDEX_MASK_ALL
            ∨ k = E.PASS_INT_MAT_INDEX_MASK ∨ k = E.PASS_INT_MAT_INDEX_MASK_SHADOW
            ∨ k = E.PASS_INT_MAT_INDEX_MASK_ALL))
    ∧ (colorIntPasses_t.init_color E k = { R := 0, G := 0, B := 0, A := 1 }
        ↔ ¬ (k = E.PASS_INT_SHADOW ∨ k = E.PASS_INT_OBJ_INDEX_MASK
            ∨ k = E.PASS_INT_OBJ_INDEX_MASK_SHADOW ∨ k = E.PASS_INT_OBJ_INDEX_MASK_ALL
            ∨ k = E.PASS_INT_MAT_INDEX_MASK ∨ k = E.PASS_INT_MAT_INDEX_MASK_SHADOW
            ∨ k = E.PASS_INT_MAT_INDEX_MASK_ALL)) := by
  unfold colorIntPasses_t.init_color
  constructor
  · constructor
    · intro h
      by_contra hn
      rw [if_neg hn] at h
      have := congrArg colorA_t.A h
      simp at this
    · intro h
      rw [if_pos h]
  · constructor
    · intro h hm
      rw [if_pos hm] at h
      have := congrArg colorA_t.A h
      simp at this
    · intro h
      rw [if_neg h]

/-! ## The conditional writes -/

theorem assign_color_enabled (s : colorIntPasses_t) (k : Int) (f : colorA_t → colorA_t)
    (hinv : s.Invariant) (hen : s.enabled k = some true) :
    ∃ (old : colorA_t) (t : colorIntPasses_t), s.color k = some old
      ∧ s.assign_color k f = some t
      ∧ t.color k = some (f old)
      ∧ (∀ j : Int, j ≠ k → t.color j = s.color j)
      ∧ t.enabledIntPasses = s.enabledIntPasses
      ∧ t.highestInternalPassUsed = s.highestInternalPassUsed := by
  obtain ⟨hk0, _, hklt, _⟩ := enabled_true_range hen
  obtain ⟨hc, hb, _⟩ := hinv
  have hlt : k < (s.intPasses.length : Int) := by omega
  obtain ⟨old, hold, hassign⟩ := assign_color_ok s k f hk0 hlt
  have hcast : ((k.toNat : Nat) : Int) = k := by omega
  have hnat : k.toNat < s.intPasses.length := by omega
  refine ⟨old, _, hold, hassign, ?_, ?_, rfl, rfl⟩
  · simp only [colorIntPasses_t.color, vector_at_set, hcast, hnat, and_self, if_true]
  · intro j hj
    simp only [colorIntPasses_t.color, vector_at_set, hcast, hj, false_and, if_false]

theorem probe_set_off (s : colorIntPasses_t) (pass : Int) (v : colorA_t) (condition : Bool)
    (h : condition = false ∨ s.enabled pass = some false) :
    s.probe_set pass v condition = some (v, s) := by
  cases condition with
  | false => simp [colorIntPasses_t.probe_set]
  | true =>
    have he : s.enabled pass = some false := by
      cases h with
      | inl h => cases h
      | inr h => exact h
    simp [colorIntPasses_t.probe_set, he]

theorem probe_add_off (s : colorIntPasses_t) (pass : Int) (v : colorA_t) (condition : Bool)
    (h : condition = false ∨ s.enabled pass = some false) :
    s.probe_add pass v condition = some (v, s) := by
  cases condition with
  | false => simp [colorIntPasses_t.probe_add]
  | true =>
    have he : s.enabled pass = some false := by
      cases h with
      | inl h => cases h
      | inr h => exact h
    simp [colorIntPasses_t.probe_add, he]

theorem probe_mult_off (s : colorIntPasses_t) (pass : Int) (v : colorA_t) (condition : Bool)
    (h : condition = false ∨ s.enabled pass = some false) :
    s.probe_mult pass v condition = some (v, s) := by
  cases condition with
  | false => simp [colorIntPasses_t.probe_mult]
  | true =>
    have he : s.enabled pass = some false := by
      cases h with
      | inl h => cases h
      | inr h => exact h
    simp [colorIntPasses_t.probe_mult, he]

theorem enabled_total (s : colorIntPasses_t) (pass : Int) (hinv : s.Invariant)
    (h0 : 0 ≤ pass) : ∃ e, s.enabled pass = some e := by
  obtain ⟨_, hb, _⟩ := hinv
  by_cases hle : pass ≤ s.highestInternalPassUsed
  · rw [enabled_below s pass hle]
    exact vector_at_isSome _ _ h0 (by omega)
  · exact ⟨false, enabled_above s pass (by omega)⟩

/-- For a kind that is not negative, the value forms of `probe_set`, `probe_add` and
`probe_mult` return exactly the colour `v` they are given, for every gate, whether or not
the write took place. -/
theorem probe_value_returns_input (s : colorIntPasses_t) (pass : Int) (v : colorA_t)
    (condition : Bool) (hinv : s.Invariant) (h0 : 0 ≤ pass) :
    (∃ t, s.probe_set pass v condition = some (v, t))
      ∧ (∃ t, s.probe_add pass v condition = some (v, t))
      ∧ (∃ t, s.probe_mult pass v condition = some (v, t)) := by
  obtain ⟨e, he⟩ := enabled_total s pass hinv h0
  cases e with
  | false =>
    exact ⟨⟨s, probe_set_off s pass v condition (Or.inr he)⟩,
      ⟨s, probe_add_off s pass v condition (Or.inr he)⟩,
      ⟨s, probe_mult_off s pass v condition (Or.inr he)⟩⟩
  | true =>
    cases condition with
    | false =>
      exact ⟨⟨s, probe_set_off s pass v false (Or.inl rfl)⟩,
        ⟨s, probe_add_off s pass v false (Or.inl rfl)⟩,
        ⟨s, probe_mult_off s pass v false (Or.inl rfl)⟩⟩
    | true =>
      obtain ⟨_, t1, _, h1, _⟩ := assign_color_enabled s pass (fun _ => v) hinv he
      obtain ⟨_, t2, _, h2, _⟩ :=
        assign_color_enabled s pass (fun c => c.operator_add_assign v) hinv he
      obtain ⟨_, t3, _, h3, _⟩ :=
        assign_color_enabled s pass (fun c => c.operator_mul_assign v) hinv he
      exact ⟨⟨t1, by simp [colorIntPasses_t.probe_set, he, h1]⟩,
        ⟨t2, by simp [colorIntPasses_t.probe_add, he, h2]⟩,
        ⟨t3, by simp [colorIntPasses_t.probe_mult, he, h3]⟩⟩

/-- C8: with the gate true and `k` enabled, `probe_set(k, v)` leaves `v` in slot `k`,
`probe_add(k, v)` leaves the old value plus `v` and `probe_mult(k, v)` the old value times
`v`, each on R, G, B and A; every other slot, every enabled bit and the watermark are
unchanged. -/
theorem probe_value_writes_slot (s : colorIntPasses_t) (k : Int) (v : colorA_t)
    (hinv : s.Invariant) (hen : s.enabled k = some true) :
    ∃ old : colorA_t, s.color k = some old
      ∧ (∃ t, s.probe_set k v true = some (v, t)
          ∧ t.color k = some v
          ∧ (∀ j : Int, j ≠ k → t.color j = s.color j)
          ∧ t.enabledIntPasses = s.enabledIntPasses
          ∧ t.highestInternalPassUsed = s.highestInternalPassUsed)
      ∧ (∃ t, s.probe_add k v true = some (v, t)
          ∧ t.color k = some
              { R := old.R + v.R, G := old.G + v.G, B := old.B + v.B, A := old.A + v.A }
          ∧ (∀ j : Int, j ≠ k → t.color j = s.color j)
          ∧ t.enabledIntPasses = s.enabledIntPasses
          ∧ t.highestInternalPassUsed = s.highestInternalPassUsed)
      ∧ (∃ t, s.probe_mult k v true = some (v, t)
          ∧ t.color k = some
              { R := old.R * v.R, G := old.G * v.G, B := old.B * v.B, A := old.A * v.A }
          ∧ (∀ j : Int, j ≠ k → t.color j = s.color j)
          ∧ t.enabledIntPasses = s.enabledIntPasses
          ∧ t.highestInternalPassUsed = s.highestInternalPassUsed) := by
  obtain ⟨old, t1, hold, h1, hk1, hf1, hb1, hw1⟩ :=
    assign_color_enabled s k (fun _ => v) hinv hen
  obtain ⟨old2, t2, hold2, h2, hk2, hf2, hb2, hw2⟩ :=
    assign_color_enabled s k (fun c => c.operator_add_assign v) hinv hen
  obtain ⟨old3, t3, hold3, h3, hk3, hf3, hb3, hw3⟩ :=
    assign_color_enabled s k (fun c => c.operator_mul_assign v) hinv hen
  have e2 : old2 = old := by rw [hold] at hold2; exact (Option.some.inj hold2).symm
  have e3 : old3 = old := by rw [hold] at hold3; exact (Option.some.inj hold3).symm
  rw [e2] at hk2
  rw [e3] at hk3
  refine ⟨old, hold, ⟨t1, ?_, hk1, hf1, hb1, hw1⟩, ⟨t2, ?_, hk2, hf2, hb2, hw2⟩,
    ⟨t3, ?_, hk3, hf3, hb3, hw3⟩⟩
  · simp [colorIntPasses_t.probe_set, hen, h1]
  · simp [colorIntPasses_t.probe_add, hen, h2]
  · simp [colorIntPasses_t.probe_mult, hen, h3]

/-- C9: with the gate false, or for a kind that is not enabled (allocated but disabled, or
above the watermark), the value forms of `probe_set`, `probe_add` and `probe_mult` leave the
whole accumulator unchanged; on a fresh accumulator `probe_set(PASS_INT_Z_DEPTH_NORM, c)`
leaves the watermark 0, Combined enabled and the only slot at opaque black, so no slot
holds `c` (for `c` other than that opaque black). -/
theorem probe_value_no_write (E : intPassTypes_t) (hE : E.Valid) :
    (∀ (s : colorIntPasses_t) (k : Int) (v : colorA_t) (condition : Bool),
      (condition = false ∨ s.enabled k = some false) →
        s.probe_set k v condition = some (v, s)
          ∧ s.probe_add k v condition = some (v, s)
          ∧ s.probe_mult k v condition = some (v, s))
    ∧ (∀ c : colorA_t, ∃ s0 : colorIntPasses_t, colorIntPasses_t.ctor E = some s0
        ∧ s0.probe_set E.PASS_INT_Z_DEPTH_NORM c true = some (c, s0)
        ∧ s0.get_highest_internal_pass_used = 0
        ∧ s0.enabled E.PASS_INT_COMBINED = some true
        ∧ (c ≠ { R := 0, G := 0, B := 0, A := 1 } → ∀ j : Int, s0.color j ≠ some c)) := by
  refine ⟨fun s k v condition h => ⟨probe_set_off s k v condition h,
    probe_add_off s k v condition h, probe_mult_off s k v condition h⟩, ?_⟩
  intro c
  refine ⟨_, ctor_eq E hE, ?_, rfl, ?_, ?_⟩
  · apply probe_set_off
    right
    apply enabled_above
    exact hE.2.2.1
  · rw [hE.2.1]; rfl
  · intro hc j hj
    have hr := vector_at_some_range hj
    have hj0 : j = 0 := by
      have : (([{ R := 0, G := 0, B := 0, A := 1 }] : List colorA_t).length : Int) = 1 := rfl
      have h2 := hr.2
      simp only [List.length_singleton] at h2
      omega
    subst hj0
    apply hc
    have : colorIntPasses_t.color
        { intPasses := [{ R := 0, G := 0, B := 0, A := 1 }], enabledIntPasses := [true],
          highestInternalPassUsed := 0 } 0 = some { R := 0, G := 0, B := 0, A := 1 } := rfl
    rw [this] at hj
    exact (Option.some.inj hj).symm

/-- C10: with the gate true and `k` enabled in the accumulator and in the peer `src`, the
accumulator forms of `probe_set`, `probe_add` and `probe_mult` leave in slot `k` the peer
slot, the old value plus the peer slot, and the old value times the peer slot, and return
the peer slot; every other slot, every bit and the watermark are unchanged (the peer is
only read). -/
theorem probe_passes_writes_slot (s src : colorIntPasses_t) (k : Int)
    (hinv : s.Invariant) (hsrc : src.Invariant)
    (hen : s.enabled k = some true) (hpeer : src.enabled k = some true) :
    ∃ old x : colorA_t, s.color k = some old ∧ src.color k = some x
      ∧ (∃ t, s.probe_set_passes k src true = some (x, t)
          ∧ t.color k = some x
          ∧ (∀ j : Int, j ≠ k → t.color j = s.color j)
          ∧ t.enabledIntPasses = s.enabledIntPasses
          ∧ t.highestInternalPassUsed = s.highestInternalPassUsed)
      ∧ (∃ t, s.probe_add_passes k src true = some (x, t)
          ∧ t.color k = some
              { R := old.R + x.R, G := old.G + x.G, B := old.B + x.B, A := old.A + x.A }
          ∧ (∀ j : Int, j ≠ k → t.color j = s.color j)
          ∧ t.enabledIntPasses = s.enabledIntPasses
          ∧ t.highestInternalPassUsed = s.highestInternalPassUsed)
      ∧ (∃ t, s.probe_mult_passes k src true = some (x, t)
          ∧ t.color k = some
              { R := old.R * x.R, G := old.G * x.G, B := old.B * x.B, A := old.A * x.A }
          ∧ (∀ j : Int, j ≠ k → t.color j = s.color j)
          ∧ t.enabledIntPasses = s.enabledIntPasses
          ∧ t.highestInternalPassUsed = s.highestInternalPassUsed) := by
  obtain ⟨hk0, _, hklt, _⟩ := enabled_true_range hpeer
  have hx : ∃ x, vector_at src.intPasses k = some x := by
    obtain ⟨hc, hb, _⟩ := hsrc
    exact vector_at_isSome _ _ hk0 (by omega)
  obtain ⟨x, hx⟩ := hx
  obtain ⟨old, t1, hold, h1, hk1, hf1, hb1, hw1⟩ :=
    assign_color_enabled s k (fun c => (fun _ x => x) c x) hinv hen
  obtain ⟨old2, t2, hold2, h2, hk2, hf2, hb2, hw2⟩ :=
    assign_color_enabled s k
      (fun c => (fun (c x : colorA_t) => c.operator_add_assign x) c x) hinv hen
  obtain ⟨old3, t3, hold3, h3, hk3, hf3, hb3, hw3⟩ :=
    assign_color_enabled s k
      (fun c => (fun (c x : colorA_t) => c.operator_mul_assign x) c x) hinv hen
  have e2 : old2 = old := by rw [hold] at hold2; exact (Option.some.inj hold2).symm
  have e3 : old3 = old := by rw [hold] at hold3; exact (Option.some.inj hold3).symm
  rw [e2] at hk2
  rw [e3] at hk3
  refine ⟨old, x, hold, hx, ⟨t1, ?_, hk1, hf1, hb1, hw1⟩, ⟨t2, ?_, hk2, hf2, hb2, hw2⟩,
    ⟨t3, ?_, hk3, hf3, hb3, hw3⟩⟩
  · simp only [colorIntPasses_t.probe_set_passes, colorIntPasses_t.probe_peer, hen, hpeer, hx,
      h1, if_true]
  · simp only [colorIntPasses_t.probe_add_passes, colorIntPasses_t.probe_peer, hen, hpeer, hx,
      h2, if_true]
  · simp only [colorIntPasses_t.probe_mult_passes, colorIntPasses_t.probe_peer, hen, hpeer, hx,
      h3, if_true]

/-! ## The sentinel `PASS_INT_DISABLED` -/

theorem vector_at_nil {α : Type} (i : Int) : vector_at ([] : List α) i = none := by
  unfold vector_at
  split <;> rfl

/-- The constructor builds an accumulator that satisfies the invariant only for the values
`PASS_INT_DISABLED = -1` and `PASS_INT_COMBINED = 0` of the enumeration. -/
theorem ctor_invariant_iff (E : intPassTypes_t) :
    (∃ s : colorIntPasses_t, colorIntPasses_t.ctor E = some s ∧ s.Invariant)
      ↔ (E.PASS_INT_DISABLED = -1 ∧ E.PASS_INT_COMBINED = 0) := by
  constructor
  · rintro ⟨t, ht, hc, hb, h0⟩
    have hgt : E.PASS_INT_DISABLED < E.PASS_INT_COMBINED := by
      by_contra hle
      have hle2 : E.PASS_INT_COMBINED ≤ E.PASS_INT_DISABLED := by omega
      simp [colorIntPasses_t.ctor, colorIntPasses_t.enable_pass, colorIntPasses_t.enabled, hle2,
        vector_at_nil] at ht
    have hne : E.PASS_INT_COMBINED ≠ E.PASS_INT_DISABLED := by omega
    obtain ⟨hl1, _⟩ := enable_pass_loop_length E E.PASS_INT_COMBINED
      (E.PASS_INT_COMBINED - E.PASS_INT_DISABLED).toNat (E.PASS_INT_DISABLED + 1)
      { intPasses := [], enabledIntPasses := [], highestInternalPassUsed := E.PASS_INT_DISABLED }
    have hD : E.PASS_INT_DISABLED = -1 := by
      unfold colorIntPasses_t.ctor colorIntPasses_t.enable_pass at ht
      rw [enabled_above _ _ hgt] at ht
      simp only [hne, gt_iff_lt, hgt, if_true, or_false, Bool.false_eq_true, if_false] at ht
      split at ht
      · cases ht
      · cases ht
        simp only [List.length_nil, Nat.zero_add] at hl1
        simp only at hc
        rw [hl1] at hc
        omega
    refine ⟨hD, ?_⟩
    obtain ⟨t1, ht1, _, _, _, _, hbit⟩ := enable_pass_above E
      { intPasses := [], enabledIntPasses := [], highestInternalPassUsed := E.PASS_INT_DISABLED }
      E.PASS_INT_COMBINED (by simp [hD]) (by simp [hD]) hgt hne
    unfold colorIntPasses_t.ctor at ht
    rw [ht1] at ht
    cases ht
    rw [← vector_at_zero, hbit 0] at h0
    simp only [hD] at h0
    by_cases hC : (0 : Int) ≤ E.PASS_INT_COMBINED
    · simp [hC] at h0
      omega
    · simp [hC] at h0
  · rintro ⟨hD, hC⟩
    refine ⟨{ intPasses := [colorIntPasses_t.init_color E 0], enabledIntPasses := [true],
              highestInternalPassUsed := 0 }, ?_, rfl, rfl, rfl⟩
    simp [colorIntPasses_t.ctor, colorIntPasses_t.enable_pass, colorIntPasses_t.enabled, hD, hC,
      colorIntPasses_t.enable_pass_loop, vector_assign]

theorem enabled_negative (s : colorIntPasses_t) (pass : Int) (hinv : s.Invariant)
    (hneg : pass < 0) : s.enabled pass = none := by
  have hh : 0 ≤ s.highestInternalPassUsed :=
    (enabled_true_range (invariant_enabled_zero hinv)).2.1
  have h1 : ¬ (0 : Int) ≤ pass := by omega
  rw [enabled_below s pass (by omega)]
  simp [vector_at, h1]

theorem enable_pass_negative (E : intPassTypes_t) (s : colorIntPasses_t) (pass : Int)
    (hinv : s.Invariant) (hneg : pass < 0) : s.enable_pass E pass = none := by
  simp [colorIntPasses_t.enable_pass, enabled_negative s pass hinv hneg]

/-- C4: on a freshly constructed accumulator `enable_pass(PASS_INT_DISABLED)` evaluates
`enabled(PASS_INT_DISABLED)` before it compares the kind with `PASS_INT_DISABLED`, and
that call reads `enabledIntPasses[-1]`, outside the vector: the call has no defined
result. -/
theorem enable_pass_disabled_out_of_range :
    ∃ s0 : colorIntPasses_t, colorIntPasses_t.ctor samplePassTypes = some s0
      ∧ samplePassTypes.PASS_INT_DISABLED ≤ s0.highestInternalPassUsed
      ∧ vector_at s0.enabledIntPasses samplePassTypes.PASS_INT_DISABLED = none
      ∧ s0.enabled samplePassTypes.PASS_INT_DISABLED = none
      ∧ s0.enable_pass samplePassTypes samplePassTypes.PASS_INT_DISABLED = none :=
  ⟨{ intPasses := [{ R := 0, G := 0, B := 0, A := 1 }], enabledIntPasses := [true],
     highestInternalPassUsed := 0 }, by decide, by decide, by decide, by decide, by decide⟩

/-! ## The theorems at concrete accumulators -/

theorem sampleAccumulator_reachable :
    colorIntPasses_t.Reachable samplePassTypes sampleAccumulator :=
  @colorIntPasses_t.Reachable.probe_set samplePassTypes sampleGrown sampleAccumulator 2
    { R := 2, G := 3, B := 0, A := 2 } { R := 2, G := 3, B := 0, A := 2 } true
    (@colorIntPasses_t.Reachable.enable_pass samplePassTypes sampleFresh sampleGrown 2
      (@colorIntPasses_t.Reachable.ctor samplePassTypes sampleFresh (by decide)) (by decide))
    (by decide)

theorem reachable_accumulator_invariant_witness :
    samplePassTypes.Valid
      ∧ colorIntPasses_t.Reachable samplePassTypes sampleAccumulator
      ∧ (sampleAccumulator.intPasses.length = sampleAccumulator.enabledIntPasses.length
        ∧ (sampleAccumulator.enabledIntPasses.length : Int)
            = sampleAccumulator.highestInternalPassUsed + 1
        ∧ sampleAccumulator.enabled 0 = some true
        ∧ sampleAccumulator.enabled samplePassTypes.PASS_INT_COMBINED = some true) :=
  ⟨by decide, sampleAccumulator_reachable,
    reachable_accumulator_invariant samplePassTypes (by decide) sampleAccumulator
      sampleAccumulator_reachable⟩

theorem ctor_fresh_witness :
    samplePassTypes.Valid
      ∧ ∃ s : colorIntPasses_t, colorIntPasses_t.ctor samplePassTypes = some s
        ∧ s.get_highest_internal_pass_used = 0
        ∧ s.get_highest_internal_pass_used = samplePassTypes.PASS_INT_COMBINED
        ∧ s.enabled samplePassTypes.PASS_INT_COMBINED = some true
        ∧ s.intPasses.length = 1
        ∧ s.enabledIntPasses.length = 1
        ∧ s.color samplePassTypes.PASS_INT_COMBINED = some { R := 0, G := 0, B := 0, A := 1 } :=
  ⟨by decide, ctor_fresh samplePassTypes (by decide)⟩

theorem enable_pass_above_watermark_witness :
    samplePassTypes.Valid ∧ sampleAccumulator.Invariant
      ∧ sampleAccumulator.highestInternalPassUsed < 5
      ∧ ∃ t : colorIntPasses_t, sampleAccumulator.enable_pass samplePassTypes 5 = some t
        ∧ t.get_highest_internal_pass_used = 5
        ∧ t.enabled 5 = some true
        ∧ (∀ j : Int, sampleAccumulator.highestInternalPassUsed < j → j < 5 →
            t.enabled j = some false)
        ∧ (∀ j : Int, sampleAccumulator.highestInternalPassUsed < j → j ≤ 5 →
            t.color j = some (colorIntPasses_t.init_color samplePassTypes j))
        ∧ (∀ j : Int, j ≤ sampleAccumulator.highestInternalPassUsed →
            t.color j = sampleAccumulator.color j ∧ t.enabled j = sampleAccumulator.enabled j) :=
  ⟨by decide, by decide, by decide,
    (enable_pass_above_watermark samplePassTypes (by decide)).1 sampleAccumulator 5
      (by decide) (by decide)⟩

theorem enable_pass_allocated_witness :
    samplePassTypes.Valid ∧ sampleAccumulator.Invariant
      ∧ (0 : Int) ≤ 1 ∧ 1 ≤ sampleAccumulator.highestInternalPassUsed
      ∧ sampleAccumulator.enabled 1 = some false
      ∧ ∃ t : colorIntPasses_t, sampleAccumulator.enable_pass samplePassTypes 1 = some t
        ∧ t.enabled 1 = some true
        ∧ t.highestInternalPassUsed = sampleAccumulator.highestInternalPassUsed
        ∧ t.intPasses = sampleAccumulator.intPasses
        ∧ t.enabledIntPasses.length = sampleAccumulator.enabledIntPasses.length
        ∧ (∀ j : Int, j ≠ 1 → t.enabled j = sampleAccumulator.enabled j) :=
  ⟨by decide, by decide, by decide, by decide, by decide,
    enable_pass_allocated samplePassTypes (by decide) sampleAccumulator 1 (by decide)
      (by decide) (by decide) (by decide)⟩

theorem probe_value_returns_input_witness :
    sampleAccumulator.Invariant ∧ (0 : Int) ≤ 2
      ∧ (∃ t, sampleAccumulator.probe_set 2 { R := 1, G := 2, B := 3, A := 4 } true
          = some ({ R := 1, G := 2, B := 3, A := 4 }, t))
      ∧ (∃ t, sampleAccumulator.probe_add 2 { R := 1, G := 2, B := 3, A := 4 } true
          = some ({ R := 1, G := 2, B := 3, A := 4 }, t))
      ∧ (∃ t, sampleAccumulator.probe_mult 2 { R := 1, G := 2, B := 3, A := 4 } true
          = some ({ R := 1, G := 2, B := 3, A := 4 }, t)) :=
  ⟨by decide, by decide,
    probe_value_returns_input sampleAccumulator 2 { R := 1, G := 2, B := 3, A := 4 } true
      (by decide) (by decide)⟩

theorem probe_value_writes_slot_witness :
    sampleAccumulator.Invariant ∧ sampleAccumulator.enabled 2 = some true
      ∧ ∃ t, sampleAccumulator.probe_add 2 { R := 1, G := 2, B := 3, A := 4 } true
          = some ({ R := 1, G := 2, B := 3, A := 4 }, t)
        ∧ t.color 2 = some { R := 3, G := 5, B := 3, A := 6 } := by
  refine ⟨by decide, by decide, ?_⟩
  obtain ⟨old, hold, _, ⟨t, ht, hk, _⟩, _⟩ :=
    probe_value_writes_slot sampleAccumulator 2 { R := 1, G := 2, B := 3, A := 4 }
      (by decide) (by decide)
  have hold2 : sampleAccumulator.color 2 = some { R := 2, G := 3, B := 0, A := 2 } := by
    decide
  rw [hold2] at hold
  cases hold
  refine ⟨t, ht, ?_⟩
  rw [hk]
  norm_num

theorem probe_value_no_write_witness :
    samplePassTypes.Valid ∧ sampleAccumulator.enabled 1 = some false
      ∧ sampleAccumulator.probe_set 1 { R := 1, G := 2, B := 3, A := 4 } true
          = some ({ R := 1, G := 2, B := 3, A := 4 }, sampleAccumulator)
      ∧ sampleAccumulator.probe_add 1 { R := 1, G := 2, B := 3, A := 4 } true
          = some ({ R := 1, G := 2, B := 3, A := 4 }, sampleAccumulator)
      ∧ sampleAccumulator.probe_mult 1 { R := 1, G := 2, B := 3, A := 4 } true
          = some ({ R := 1, G := 2, B := 3, A := 4 }, sampleAccumulator) :=
  ⟨by decide, by decide,
    (probe_value_no_write samplePassTypes (by decide)).1 sampleAccumulator 1
      { R := 1, G := 2, B := 3, A := 4 } true (Or.inr (by decide))⟩

theorem probe_passes_writes_slot_witness :
    sampleAccumulator.Invariant ∧ samplePeer.Invariant
      ∧ sampleAccumulator.enabled 2 = some true ∧ samplePeer.enabled 2 = some true
      ∧ ∃ t, sampleAccumulator.probe_mult_passes 2 samplePeer true
          = some ({ R := 3, G := 2, B := 1, A := 5 }, t)
        ∧ t.color 2 = some { R := 6, G := 6, B := 0, A := 10 } := by
  refine ⟨by decide, by decide, by decide, by decide, ?_⟩
  obtain ⟨old, x, hold, hx, _, _, ⟨t, ht, hk, _⟩⟩ :=
    probe_passes_writes_slot sampleAccumulator samplePeer 2
      (by decide) (by decide) (by decide) (by decide)
  have hold2 : sampleAccumulator.color 2 = some { R := 2, G := 3, B := 0, A := 2 } := by
    decide
  have hx2 : samplePeer.color 2 = some { R := 3, G := 2, B := 1, A := 5 } := by decide
  rw [hold2] at hold
  rw [hx2] at hx
  cases hold
  cases hx
  refine ⟨t, ht, ?_⟩
  rw [hk]
  norm_num

/-! ## The accumulator forms of the probes without a write -/

theorem probe_peer_off (op : colorA_t → colorA_t → colorA_t) (s src : colorIntPasses_t)
    (k : Int) (condition : Bool)
    (h : condition = false ∨ s.enabled k = some false
      ∨ (s.enabled k = some true ∧ src.enabled k = some false)) :
    colorIntPasses_t.probe_peer op s k src condition
      = some ({ R := 0, G := 0, B := 0, A := 0 }, s) := by
  cases condition with
  | false => simp [colorIntPasses_t.probe_peer, colorA_t.of_gray]
  | true =>
    rcases h with h | h | ⟨h1, h2⟩
    · cases h
    · simp [colorIntPasses_t.probe_peer, h, colorA_t.of_gray]
    · simp [colorIntPasses_t.probe_peer, h1, h2, colorA_t.of_gray]

/-- Without a write: if the gate is false, for every kind, or `enabled(k)` is false in the
accumulator, or `enabled(k)` is true in the accumulator and false in the peer `src`, the
accumulator forms of `probe_set`, `probe_add` and `probe_mult` return the zero colour
(0,0,0,0) and leave the accumulator unchanged. -/
theorem probe_passes_no_write (s src : colorIntPasses_t) (k : Int) (condition : Bool)
    (h : condition = false ∨ s.enabled k = some false
      ∨ (s.enabled k = some true ∧ src.enabled k = some false)) :
    s.probe_set_passes k src condition = some ({ R := 0, G := 0, B := 0, A := 0 }, s)
      ∧ s.probe_add_passes k src condition = some ({ R := 0, G := 0, B := 0, A := 0 }, s)
      ∧ s.probe_mult_passes k src condition = some ({ R := 0, G := 0, B := 0, A := 0 }, s) :=
  ⟨probe_peer_off _ s src k condition h, probe_peer_off _ s src k condition h,
    probe_peer_off _ s src k condition h⟩

theorem probe_passes_no_write_witness :
    sampleAccumulator.enabled 1 = some false
      ∧ sampleAccumulator.probe_set_passes 1 samplePeer true
          = some ({ R := 0, G := 0, B := 0, A := 0 }, sampleAccumulator)
      ∧ sampleAccumulator.probe_add_passes 1 samplePeer true
          = some ({ R := 0, G := 0, B := 0, A := 0 }, sampleAccumulator)
      ∧ sampleAccumulator.probe_mult_passes 1 samplePeer true
          = some ({ R := 0, G := 0, B := 0, A := 0 }, sampleAccumulator) :=
  ⟨by decide,
    probe_passes_no_write sampleAccumulator samplePeer 1 true (Or.inr (Or.inl (by decide)))⟩

/-! ## The bulk operations -/

theorem for_each_pass_spec (body : Int → colorA_t → colorA_t) :
    ∀ (n : Nat) (idx : Int) (s : colorIntPasses_t), 0 ≤ idx →
      idx + n ≤ (s.intPasses.length : Int) →
      ∃ t : colorIntPasses_t, colorIntPasses_t.for_each_pass body n idx s = some t
        ∧ t.enabledIntPasses = s.enabledIntPasses
        ∧ t.highestInternalPassUsed = s.highestInternalPassUsed
        ∧ t.intPasses.length = s.intPasses.length
        ∧ ∀ j : Int, vector_at t.intPasses j
            = if idx ≤ j ∧ j < idx + n then (vector_at s.intPasses j).map (body j)
              else vector_at s.intPasses j := by
  intro n
  induction n with
  | zero =>
    intro idx s _ _
    refine ⟨s, rfl, rfl, rfl, rfl, ?_⟩
    intro j
    have : ¬ (idx ≤ j ∧ j < idx + ((0 : Nat) : Int)) := by
      simp only [Nat.cast_zero, add_zero]; omega
    simp only [this, if_false]
  | succ n ih =>
    intro idx s h0 hlen
    push_cast at hlen
    obtain ⟨c, hc, hassign⟩ := assign_color_ok s idx (body idx) h0 (by omega)
    have hnat : idx.toNat < s.intPasses.length := by omega
    have hcast : ((idx.toNat : Nat) : Int) = idx := by omega
    obtain ⟨t, ht, hb, hw, hl, hcol⟩ :=
      ih (idx + 1) { s with intPasses := s.intPasses.set idx.toNat (body idx c) } (by omega)
        (by
          show idx + 1 + (n : Int) ≤ (((s.intPasses.set idx.toNat (body idx c)).length : Nat) : Int)
          rw [List.length_set]; omega)
    refine ⟨t, ?_, hb, hw, ?_, ?_⟩
    · simp only [colorIntPasses_t.for_each_pass, hassign]
      exact ht
    · rw [hl]
      show (s.intPasses.set idx.toNat (body idx c)).length = _
      rw [List.length_set]
    · intro j
      rw [hcol j]
      show (if idx + 1 ≤ j ∧ j < idx + 1 + (n : Int)
          then (vector_at (s.intPasses.set idx.toNat (body idx c)) j).map (body j)
          else vector_at (s.intPasses.set idx.toNat (body idx c)) j) = _
      rw [vector_at_set, hcast]
      push_cast
      by_cases hj : j = idx
      · subst hj
        have h1 : ¬ (j + 1 ≤ j ∧ j < j + 1 + (n : Int)) := by omega
        have h2 : j ≤ j ∧ j < j + ((n : Int) + 1) := by omega
        simp [h1, h2, hnat, hc]
      · have h3 : (idx + 1 ≤ j ∧ j < idx + 1 + (n : Int))
            ↔ (idx ≤ j ∧ j < idx + ((n : Int) + 1)) := by omega
        simp only [hj, false_and, if_false, h3]

theorem operator_add_assign_loop_spec (a : colorIntPasses_t) :
    ∀ (n : Nat) (idx : Int) (s : colorIntPasses_t), 0 ≤ idx →
      idx + n ≤ (s.intPasses.length : Int) → idx + n ≤ (a.intPasses.length : Int) →
      ∃ t : colorIntPasses_t, colorIntPasses_t.operator_add_assign_loop a n idx s = some t
        ∧ t.enabledIntPasses = s.enabledIntPasses
        ∧ t.highestInternalPassUsed = s.highestInternalPassUsed
        ∧ t.intPasses.length = s.intPasses.length
        ∧ ∀ j : Int, vector_at t.intPasses j
            = if idx ≤ j ∧ j < idx + n then
                (vector_at s.intPasses j).bind
                  (fun c => (vector_at a.intPasses j).map (fun x => c.operator_add_assign x))
              else vector_at s.intPasses j := by
  intro n
  induction n with
  | zero =>
    intro idx s _ _ _
    refine ⟨s, rfl, rfl, rfl, rfl, ?_⟩
    intro j
    have : ¬ (idx ≤ j ∧ j < idx + ((0 : Nat) : Int)) := by
      simp only [Nat.cast_zero, add_zero]; omega
    simp only [this, if_false]
  | succ n ih =>
    intro idx s h0 hlen halen
    push_cast at hlen halen
    obtain ⟨x, hx⟩ := vector_at_isSome a.intPasses idx h0 (by omega)
    obtain ⟨c, hc, hassign⟩ :=
      assign_color_ok s idx (fun c => c.operator_add_assign x) h0 (by omega)
    have hnat : idx.toNat < s.intPasses.length := by omega
    have hcast : ((idx.toNat : Nat) : Int) = idx := by omega
    obtain ⟨t, ht, hb, hw, hl, hcol⟩ :=
      ih (idx + 1)
        { s with intPasses := s.intPasses.set idx.toNat (c.operator_add_assign x) } (by omega)
        (by
          show idx + 1 + (n : Int)
            ≤ (((s.intPasses.set idx.toNat (c.operator_add_assign x)).length : Nat) : Int)
          rw [List.length_set]; omega)
        (by omega)
    refine ⟨t, ?_, hb, hw, ?_, ?_⟩
    · simp only [colorIntPasses_t.operator_add_assign_loop, colorIntPasses_t.color, hx, hassign]
      exact ht
    · rw [hl]
      show (s.intPasses.set idx.toNat (c.operator_add_assign x)).length = _
      rw [List.length_set]
    · intro j
      rw [hcol j]
      show (if idx + 1 ≤ j ∧ j < idx + 1 + (n : Int)
          then (vector_at (s.intPasses.set idx.toNat (c.operator_add_assign x)) j).bind
            (fun c => (vector_at a.intPasses j).map (fun x => c.operator_add_assign x))
          else vector_at (s.intPasses.set idx.toNat (c.operator_add_assign x)) j) = _
      rw [vector_at_set, hcast]
      push_cast
      by_cases hj : j = idx
      · subst hj
        have h1 : ¬ (j + 1 ≤ j ∧ j < j + 1 + (n : Int)) := by omega
        have h2 : j ≤ j ∧ j < j + ((n : Int) + 1) := by omega
        simp [h1, h2, hnat, hc, hx]
      · have h3 : (idx + 1 ≤ j ∧ j < idx + 1 + (n : Int))
            ↔ (idx ≤ j ∧ j < idx + ((n : Int) + 1)) := by omega
        simp only [hj, false_and, if_false, h3]

theorem invariant_watermark_nonneg {s : colorIntPasses_t} (hinv : s.Invariant) :
    0 ≤ s.highestInternalPassUsed :=
  (enabled_true_range (invariant_enabled_zero hinv)).2.1

theorem pass_count_eq (E : intPassTypes_t) (hE : E.Valid) (s : colorIntPasses_t)
    (hinv : s.Invariant) : ((s.pass_count E : Nat) : Int) = s.highestInternalPassUsed + 1 := by
  have hh := invariant_watermark_nonneg hinv
  unfold colorIntPasses_t.pass_count
  rw [hE.2.1]
  omega

theorem bulk_spec (E : intPassTypes_t) (hE : E.Valid) (body : Int → colorA_t → colorA_t)
    (s : colorIntPasses_t) (hinv : s.Invariant) :
    ∃ t : colorIntPasses_t,
      colorIntPasses_t.for_each_pass body (s.pass_count E) E.PASS_INT_COMBINED s = some t
        ∧ (∀ i : Int, 0 ≤ i → i ≤ s.highestInternalPassUsed →
            ∃ old : colorA_t, s.color i = some old ∧ t.color i = some (body i old))
        ∧ t.enabledIntPasses = s.enabledIntPasses
        ∧ t.highestInternalPassUsed = s.highestInternalPassUsed
        ∧ t.intPasses.length = s.intPasses.length := by
  have hcount := pass_count_eq E hE s hinv
  obtain ⟨hc, _, _⟩ := hinv
  rw [hE.2.1]
  obtain ⟨t, ht, hb, hw, hl, hcol⟩ :=
    for_each_pass_spec body (s.pass_count E) 0 s (le_refl 0) (by omega)
  refine ⟨t, ht, ?_, hb, hw, hl⟩
  intro i hi0 hi1
  obtain ⟨old, hold⟩ := vector_at_isSome s.intPasses i hi0 (by omega)
  refine ⟨old, hold, ?_⟩
  have hin : (0 : Int) ≤ i ∧ i < 0 + ((s.pass_count E : Nat) : Int) := by omega
  simp only [colorIntPasses_t.color, hcol i, hin, and_self, if_true, hold, Option.map_some']

/-- C13: after `reset_colors()` every allocated slot `i` in `0..highestInternalPassUsed`
holds `init_color(i)`, and the enabled bits and the watermark are unchanged. -/
theorem reset_colors_spec (E : intPassTypes_t) (hE : E.Valid) (s : colorIntPasses_t)
    (hinv : s.Invariant) :
    ∃ t : colorIntPasses_t, s.reset_colors E = some t
      ∧ (∀ i : Int, 0 ≤ i → i ≤ s.highestInternalPassUsed →
          t.color i = some (colorIntPasses_t.init_color E i))
      ∧ t.enabledIntPasses = s.enabledIntPasses
      ∧ t.highestInternalPassUsed = s.highestInternalPassUsed := by
  obtain ⟨t, ht, hslots, hb, hw, _⟩ :=
    bulk_spec E hE (fun idx _ => colorIntPasses_t.init_color E idx) s hinv
  refine ⟨t, ht, ?_, hb, hw⟩
  intro i hi0 hi1
  obtain ⟨_, _, h⟩ := hslots i hi0 hi1
  exact h

theorem reset_colors_spec_witness :
    samplePassTypes.Valid ∧ sampleAccumulator.Invariant
      ∧ ∃ t : colorIntPasses_t, sampleAccumulator.reset_colors samplePassTypes = some t
        ∧ (∀ i : Int, 0 ≤ i → i ≤ sampleAccumulator.highestInternalPassUsed →
            t.color i = some (colorIntPasses_t.init_color samplePassTypes i))
        ∧ t.enabledIntPasses = sampleAccumulator.enabledIntPasses
        ∧ t.highestInternalPassUsed = sampleAccumulator.highestInternalPassUsed :=
  ⟨by decide, by decide, reset_colors_spec samplePassTypes (by decide) sampleAccumulator
    (by decide)⟩

/-- C14: after `operator *=(f)`, and likewise after `multiply_colors(f)`, every allocated
slot `i` in `0..highestInternalPassUsed`, enabled or not, holds its old value with R, G, B
and A multiplied by `f`; the enabled bits and the watermark are unchanged. -/
theorem scale_spec (E : intPassTypes_t) (hE : E.Valid) (s : colorIntPasses_t) (f : CFLOAT)
    (hinv : s.Invariant) :
    ∃ t : colorIntPasses_t, s.operator_mul_assign_scalar E f = some t
      ∧ s.multiply_colors E f = some t
      ∧ (∀ i : Int, 0 ≤ i → i ≤ s.highestInternalPassUsed →
          ∃ old : colorA_t, s.color i = some old
            ∧ t.color i
                = some { R := old.R * f, G := old.G * f, B := old.B * f, A := old.A * f })
      ∧ t.enabledIntPasses = s.enabledIntPasses
      ∧ t.highestInternalPassUsed = s.highestInternalPassUsed := by
  obtain ⟨t, ht, hslots, hb, hw, _⟩ :=
    bulk_spec E hE (fun _ c => c.operator_mul_assign_scalar f) s hinv
  exact ⟨t, ht, ht, hslots, hb, hw⟩

theorem scale_spec_witness :
    samplePassTypes.Valid ∧ sampleAccumulator.Invariant
      ∧ ∃ t : colorIntPasses_t, sampleAccumulator.operator_mul_assign_scalar samplePassTypes 3
          = some t
        ∧ sampleAccumulator.multiply_colors samplePassTypes 3 = some t
        ∧ (∀ i : Int, 0 ≤ i → i ≤ sampleAccumulator.highestInternalPassUsed →
            ∃ old : colorA_t, sampleAccumulator.color i = some old
              ∧ t.color i
                  = some { R := old.R * 3, G := old.G * 3, B := old.B * 3, A := old.A * 3 })
        ∧ t.enabledIntPasses = sampleAccumulator.enabledIntPasses
        ∧ t.highestInternalPassUsed = sampleAccumulator.highestInternalPassUsed :=
  ⟨by decide, by decide, scale_spec samplePassTypes (by decide) sampleAccumulator 3
    (by decide)⟩

theorem bulk_invariant (E : intPassTypes_t) (body : Int → colorA_t → colorA_t)
    {s t : colorIntPasses_t} (hinv : s.Invariant)
    (h : colorIntPasses_t.for_each_pass body (s.pass_count E) E.PASS_INT_COMBINED s = some t) :
    t.Invariant :=
  for_each_pass_invariant body _ _ s t hinv h

/-- C15: scaling by 0.5 and then by 2.0 with `operator *=(CFLOAT)` restores every allocated
slot to the value it had before the two calls, in exact arithmetic. -/
theorem scale_half_then_double (E : intPassTypes_t) (hE : E.Valid) (s : colorIntPasses_t)
    (hinv : s.Invariant) :
    ∃ t1 t2 : colorIntPasses_t, s.operator_mul_assign_scalar E (1 / 2) = some t1
      ∧ t1.operator_mul_assign_scalar E 2 = some t2
      ∧ (∀ i : Int, 0 ≤ i → i ≤ s.highestInternalPassUsed →
          ∃ old : colorA_t, s.color i = some old ∧ t2.color i = some old)
      ∧ t2.enabledIntPasses = s.enabledIntPasses
      ∧ t2.highestInternalPassUsed = s.highestInternalPassUsed := by
  obtain ⟨t1, ht1, hslots1, hb1, hw1, _⟩ :=
    bulk_spec E hE (fun _ c => c.operator_mul_assign_scalar (1 / 2)) s hinv
  have hinv1 : t1.Invariant := bulk_invariant E _ hinv ht1
  obtain ⟨t2, ht2, hslots2, hb2, hw2, _⟩ :=
    bulk_spec E hE (fun _ c => c.operator_mul_assign_scalar 2) t1 hinv1
  refine ⟨t1, t2, ht1, ht2, ?_, by rw [hb2, hb1], by rw [hw2, hw1]⟩
  intro i hi0 hi1
  obtain ⟨old, hold, hmid⟩ := hslots1 i hi0 hi1
  obtain ⟨mid, hmid2, hnew⟩ := hslots2 i hi0 (by rw [hw1]; exact hi1)
  refine ⟨old, hold, ?_⟩
  rw [hmid] at hmid2
  cases hmid2
  rw [hnew]
  cases old with
  | mk r g b a =>
    simp only [colorA_t.operator_mul_assign_scalar, Option.some.injEq, colorA_t.mk.injEq]
    refine ⟨?_, ?_, ?_, ?_⟩ <;> ring

theorem scale_half_then_double_witness :
    samplePassTypes.Valid ∧ sampleAccumulator.Invariant
      ∧ ∃ t1 t2 : colorIntPasses_t,
        sampleAccumulator.operator_mul_assign_scalar samplePassTypes (1 / 2) = some t1
        ∧ t1.operator_mul_assign_scalar samplePassTypes 2 = some t2
        ∧ (∀ i : Int, 0 ≤ i → i ≤ sampleAccumulator.highestInternalPassUsed →
            ∃ old : colorA_t, sampleAccumulator.color i = some old ∧ t2.color i = some old)
        ∧ t2.enabledIntPasses = sampleAccumulator.enabledIntPasses
        ∧ t2.highestInternalPassUsed = sampleAccumulator.highestInternalPassUsed :=
  ⟨by decide, by decide, scale_half_then_double samplePassTypes (by decide) sampleAccumulator
    (by decide)⟩

/-- C16: for an accumulator and a peer `other` with the same watermark, after
`self += other` every slot `i` in `0..watermark` holds the old slot plus the slot of
`other` on R, G, B and A; the enabled bits and the watermark are unchanged (the peer is only
read). -/
theorem operator_add_assign_spec (E : intPassTypes_t) (hE : E.Valid)
    (s other : colorIntPasses_t) (hinv : s.Invariant) (hother : other.Invariant)
    (hsame : other.highestInternalPassUsed = s.highestInternalPassUsed) :
    ∃ t : colorIntPasses_t, s.operator_add_assign E other = some t
      ∧ (∀ i : Int, 0 ≤ i → i ≤ s.highestInternalPassUsed →
          ∃ a b : colorA_t, s.color i = some a ∧ other.color i = some b
            ∧ t.color i
                = some { R := a.R + b.R, G := a.G + b.G, B := a.B + b.B, A := a.A + b.A })
      ∧ t.enabledIntPasses = s.enabledIntPasses
      ∧ t.highestInternalPassUsed = s.highestInternalPassUsed := by
  have hcount := pass_count_eq E hE s hinv
  obtain ⟨hc, _, _⟩ := hinv
  obtain ⟨hoc, _, _⟩ := hother
  unfold colorIntPasses_t.operator_add_assign
  rw [hE.2.1]
  obtain ⟨t, ht, hb, hw, _, hcol⟩ :=
    operator_add_assign_loop_spec other (s.pass_count E) 0 s (le_refl 0) (by omega) (by omega)
  refine ⟨t, ht, ?_, hb, hw⟩
  intro i hi0 hi1
  obtain ⟨a, ha⟩ := vector_at_isSome s.intPasses i hi0 (by omega)
  obtain ⟨b, hb2⟩ := vector_at_isSome other.intPasses i hi0 (by omega)
  refine ⟨a, b, ha, hb2, ?_⟩
  have hin : (0 : Int) ≤ i ∧ i < 0 + ((s.pass_count E : Nat) : Int) := by omega
  simp only [colorIntPasses_t.color, hcol i, hin, and_self, if_true, ha, hb2, Option.some_bind,
    Option.map_some']
  rfl

theorem operator_add_assign_spec_witness :
    samplePassTypes.Valid ∧ sampleAccumulator.Invariant ∧ samplePeer.Invariant
      ∧ samplePeer.highestInternalPassUsed = sampleAccumulator.highestInternalPassUsed
      ∧ ∃ t : colorIntPasses_t, sampleAccumulator.operator_add_assign samplePassTypes samplePeer
          = some t
        ∧ (∀ i : Int, 0 ≤ i → i ≤ sampleAccumulator.highestInternalPassUsed →
            ∃ a b : colorA_t, sampleAccumulator.color i = some a ∧ samplePeer.color i = some b
              ∧ t.color i
                  = some { R := a.R + b.R, G := a.G + b.G, B := a.B + b.B, A := a.A + b.A })
        ∧ t.enabledIntPasses = sampleAccumulator.enabledIntPasses
        ∧ t.highestInternalPassUsed = sampleAccumulator.highestInternalPassUsed :=
  ⟨by decide, by decide, by decide, by decide,
    operator_add_assign_spec samplePassTypes (by decide) sampleAccumulator samplePeer
      (by decide) (by decide) (by decide)⟩

/-! ## The whole internal enumeration -/

theorem kinds_distinct (E : intPassTypes_t) (hE : E.Enumerated) (i j : Nat)
    (hi : i < E.kinds.length) (hj : j < E.kinds.length) (hij : i ≠ j) :
    E.kinds[i] ≠ E.kinds[j] := by
  intro h
  exact hij ((hE.2.2.2.getElem_inj_iff).1 h)

theorem kinds_positive (E : intPassTypes_t) (hE : E.Enumerated) (i : Nat)
    (hi : i < E.kinds.length) (hpos : 0 < i) : 0 < E.kinds[i] := by
  have h0 : 0 ≤ E.kinds[i] := hE.2.2.1 _ (List.getElem_mem _)
  have hlen : 0 < E.kinds.length := by omega
  have hne : E.kinds[i] ≠ E.kinds[0] := kinds_distinct E hE i 0 hi hlen (by omega)
  have hc : E.kinds[0] = 0 := hE.2.1
  omega

theorem enumerated_valid (E : intPassTypes_t) (hE : E.Enumerated) : E.Valid := by
  have hlen : E.kinds.length = 54 := rfl
  refine ⟨hE.1, hE.2.1, ?_, ?_, ?_, ?_, ?_, ?_, ?_, ?_⟩
  · exact kinds_positive E hE 1 (by omega) (by omega)
  · exact kinds_positive E hE 16 (by omega) (by omega)
  · exact kinds_positive E hE 24 (by omega) (by omega)
  · exact kinds_positive E hE 25 (by omega) (by omega)
  · exact kinds_positive E hE 26 (by omega) (by omega)
  · exact kinds_positive E hE 30 (by omega) (by omega)
  · exact kinds_positive E hE 31 (by omega) (by omega)
  · exact kinds_positive E hE 32 (by omega) (by omega)

theorem init_color_glossy (E : intPassTypes_t) (hE : E.Enumerated) :
    colorIntPasses_t.init_color E E.PASS_INT_GLOSSY = { R := 0, G := 0, B := 0, A := 1 } := by
  have hlen : E.kinds.length = 54 := rfl
  have e1 : E.PASS_INT_GLOSSY ≠ E.PASS_INT_SHADOW :=
    kinds_distinct E hE 35 16 (by omega) (by omega) (by omega)
  have e2 : E.PASS_INT_GLOSSY ≠ E.PASS_INT_OBJ_INDEX_MASK :=
    kinds_distinct E hE 35 24 (by omega) (by omega) (by omega)
  have e3 : E.PASS_INT_GLOSSY ≠ E.PASS_INT_OBJ_INDEX_MASK_SHADOW :=
    kinds_distinct E hE 35 25 (by omega) (by omega) (by omega)
  have e4 : E.PASS_INT_GLOSSY ≠ E.PASS_INT_OBJ_INDEX_MASK_ALL :=
    kinds_distinct E hE 35 26 (by omega) (by omega) (by omega)
  have e5 : E.PASS_INT_GLOSSY ≠ E.PASS_INT_MAT_INDEX_MASK :=
    kinds_distinct E hE 35 30 (by omega) (by omega) (by omega)
  have e6 : E.PASS_INT_GLOSSY ≠ E.PASS_INT_MAT_INDEX_MASK_SHADOW :=
    kinds_distinct E hE 35 31 (by omega) (by omega) (by omega)
  have e7 : E.PASS_INT_GLOSSY ≠ E.PASS_INT_MAT_INDEX_MASK_ALL :=
    kinds_distinct E hE 35 32 (by omega) (by omega) (by omega)
  simp only [colorIntPasses_t.init_color, e1, e2, e3, e4, e5, e6, e7, or_self, if_false]

/-- The scenario of two additions into the adv-glossy slot, for every enumeration. -/
theorem glossy_two_adds (E : intPassTypes_t) (hE : E.Enumerated) :
    ∃ s0 s1 s2 s3 : colorIntPasses_t, colorIntPasses_t.ctor E = some s0
      ∧ s0.enable_pass E E.PASS_INT_GLOSSY = some s1
      ∧ s1.probe_add E.PASS_INT_GLOSSY { R := 1 / 10, G := 1 / 10, B := 1 / 10, A := 1 } true
          = some ({ R := 1 / 10, G := 1 / 10, B := 1 / 10, A := 1 }, s2)
      ∧ s2.probe_add E.PASS_INT_GLOSSY { R := 1 / 10, G := 1 / 10, B := 1 / 10, A := 1 } true
          = some ({ R := 1 / 10, G := 1 / 10, B := 1 / 10, A := 1 }, s3)
      ∧ s3.color E.PASS_INT_GLOSSY = some { R := 1 / 5, G := 1 / 5, B := 1 / 5, A := 3 } := by
  have hV := enumerated_valid E hE
  have hlen : E.kinds.length = 54 := rfl
  have hpos : 0 < E.PASS_INT_GLOSSY := kinds_positive E hE 35 (by omega) (by omega)
  have hfresh := ctor_eq E hV
  have hinv0 := ctor_invariant E hV hfresh
  have hne : E.PASS_INT_GLOSSY ≠ E.PASS_INT_DISABLED := by rw [hV.1]; omega
  obtain ⟨s1, hs1, hw1, _, _, hcol1, hbit1⟩ :=
    enable_pass_above E _ E.PASS_INT_GLOSSY hinv0.1 hinv0.2.1 hpos hne
  have hinv1 : s1.Invariant := enable_pass_invariant E _ hinv0 hs1
  have hnle : ¬ E.PASS_INT_GLOSSY ≤ 0 := by omega
  have hen1 : s1.enabled E.PASS_INT_GLOSSY = some true := by
    rw [enabled_below s1 _ (by omega), hbit1]
    simp [hnle]
  have hslot1 : s1.color E.PASS_INT_GLOSSY = some { R := 0, G := 0, B := 0, A := 1 } := by
    simp only [colorIntPasses_t.color, hcol1, hnle, if_false, le_refl, if_true,
      init_color_glossy E hE]
  obtain ⟨old1, s2, hold1, ha1, hk1, _, hb2, hw2⟩ :=
    assign_color_enabled s1 E.PASS_INT_GLOSSY
      (fun c => c.operator_add_assign { R := 1 / 10, G := 1 / 10, B := 1 / 10, A := 1 })
      hinv1 hen1
  have hinv2 : s2.Invariant := assign_color_invariant hinv1 ha1
  have hen2 : s2.enabled E.PASS_INT_GLOSSY = some true := by
    simp only [colorIntPasses_t.enabled, hb2, hw2] at hen1 ⊢
    exact hen1
  obtain ⟨old2, s3, hold2, ha2, hk2, _⟩ :=
    assign_color_enabled s2 E.PASS_INT_GLOSSY
      (fun c => c.operator_add_assign { R := 1 / 10, G := 1 / 10, B := 1 / 10, A := 1 })
      hinv2 hen2
  rw [hslot1] at hold1
  cases hold1
  rw [hk1] at hold2
  cases hold2
  refine ⟨_, s1, s2, s3, hfresh, hs1, ?_, ?_, ?_⟩
  · simp only [colorIntPasses_t.probe_add, hen1, ha1, if_true]
  · simp only [colorIntPasses_t.probe_add, hen2, ha2, if_true]
  · rw [hk2]
    simp only [colorA_t.operator_add_assign, Option.some.injEq, colorA_t.mk.injEq]
    norm_num

/-- C12: on a fresh accumulator on which `PASS_INT_GLOSSY` has been enabled, after two
calls `probe_add(PASS_INT_GLOSSY, (0.1, 0.1, 0.1, 1))` the adv-glossy slot holds
(0.2, 0.2, 0.2, 3): the alpha 1 of the opaque black default plus 1 twice. -/
theorem glossy_two_adds_alpha_three (E : intPassTypes_t) (hE : E.Enumerated) :
    ∃ s0 s1 s2 s3 : colorIntPasses_t, colorIntPasses_t.ctor E = some s0
      ∧ s0.enable_pass E E.PASS_INT_GLOSSY = some s1
      ∧ s1.color E.PASS_INT_GLOSSY = some { R := 0, G := 0, B := 0, A := 1 }
      ∧ s1.probe_add E.PASS_INT_GLOSSY { R := 1 / 10, G := 1 / 10, B := 1 / 10, A := 1 } true
          = some ({ R := 1 / 10, G := 1 / 10, B := 1 / 10, A := 1 }, s2)
      ∧ s2.probe_add E.PASS_INT_GLOSSY { R := 1 / 10, G := 1 / 10, B := 1 / 10, A := 1 } true
          = some ({ R := 1 / 10, G := 1 / 10, B := 1 / 10, A := 1 }, s3)
      ∧ s3.color E.PASS_INT_GLOSSY = some { R := 1 / 5, G := 1 / 5, B := 1 / 5, A := 3 } := by
  obtain ⟨s0, s1, s2, s3, h0, h1, h2, h3, h4⟩ := glossy_two_adds E hE
  refine ⟨s0, s1, s2, s3, h0, h1, ?_, h2, h3, h4⟩
  have hV := enumerated_valid E hE
  have hlen : E.kinds.length = 54 := rfl
  have hpos : 0 < E.PASS_INT_GLOSSY := kinds_positive E hE 35 (by omega) (by omega)
  have hfresh := ctor_eq E hV
  rw [hfresh] at h0
  cases h0
  have hinv0 := ctor_invariant E hV hfresh
  have hne : E.PASS_INT_GLOSSY ≠ E.PASS_INT_DISABLED := by rw [hV.1]; omega
  obtain ⟨t, ht, _, _, _, hcol, _⟩ :=
    enable_pass_above E _ E.PASS_INT_GLOSSY hinv0.1 hinv0.2.1 hpos hne
  rw [ht] at h1
  cases h1
  have hnle : ¬ E.PASS_INT_GLOSSY ≤ 0 := by omega
  simp only [colorIntPasses_t.color, hcol, hnle, if_false, le_refl, if_true,
    init_color_glossy E hE]

theorem glossy_two_adds_alpha_three_witness :
    samplePassTypes.Enumerated
      ∧ ∃ s0 s1 s2 s3 : colorIntPasses_t, colorIntPasses_t.ctor samplePassTypes = some s0
        ∧ s0.enable_pass samplePassTypes samplePassTypes.PASS_INT_GLOSSY = some s1
        ∧ s1.color samplePassTypes.PASS_INT_GLOSSY = some { R := 0, G := 0, B := 0, A := 1 }
        ∧ s1.probe_add samplePassTypes.PASS_INT_GLOSSY
              { R := 1 / 10, G := 1 / 10, B := 1 / 10, A := 1 } true
            = some ({ R := 1 / 10, G := 1 / 10, B := 1 / 10, A := 1 }, s2)
        ∧ s2.probe_add samplePassTypes.PASS_INT_GLOSSY
              { R := 1 / 10, G := 1 / 10, B := 1 / 10, A := 1 } true
            = some ({ R := 1 / 10, G := 1 / 10, B := 1 / 10, A := 1 }, s3)
        ∧ s3.color samplePassTypes.PASS_INT_GLOSSY
            = some { R := 1 / 5, G := 1 / 5, B := 1 / 5, A := 3 } :=
  ⟨by decide, glossy_two_adds_alpha_three samplePassTypes (by decide)⟩

/-- C12, as stated: the scenario does not leave (0.2, 0.2, 0.2, 2.0) in the adv-glossy
slot. -/
theorem glossy_two_adds_alpha_not_two :
    ¬ ∃ (s0 s1 s2 s3 : colorIntPasses_t) (r1 r2 : colorA_t),
      colorIntPasses_t.ctor samplePassTypes = some s0
        ∧ s0.enable_pass samplePassTypes samplePassTypes.PASS_INT_GLOSSY = some s1
        ∧ s1.probe_add samplePassTypes.PASS_INT_GLOSSY
              { R := 1 / 10, G := 1 / 10, B := 1 / 10, A := 1 } true = some (r1, s2)
        ∧ s2.probe_add samplePassTypes.PASS_INT_GLOSSY
              { R := 1 / 10, G := 1 / 10, B := 1 / 10, A := 1 } true = some (r2, s3)
        ∧ s3.color samplePassTypes.PASS_INT_GLOSSY
            = some { R := 1 / 5, G := 1 / 5, B := 1 / 5, A := 2 } := by
  rintro ⟨s0, s1, s2, s3, r1, r2, h0, h1, h2, h3, h4⟩
  obtain ⟨t0, t1, t2, t3, g0, g1, g2, g3, g4⟩ := glossy_two_adds samplePassTypes (by decide)
  rw [h0] at g0
  cases g0
  rw [h1] at g1
  cases g1
  rw [h2] at g2
  cases g2
  rw [h3] at g3
  cases g3
  rw [h4] at g4
  have hA := congrArg colorA_t.A (Option.some.inj g4)
  norm_num at hA

/-! ## Kinds below 0 -/

theorem enable_pass_total (E : intPassTypes_t) (s : colorIntPasses_t) (pass : Int)
    (hinv : s.Invariant) (h0 : 0 ≤ pass) : ∃ t, s.enable_pass E pass = some t := by
  obtain ⟨e, he⟩ := enabled_total s pass hinv h0
  by_cases hstop : e = true ∨ pass = E.PASS_INT_DISABLED
  · exact ⟨s, by simp only [colorIntPasses_t.enable_pass, he, hstop, if_true]⟩
  · have hne : pass ≠ E.PASS_INT_DISABLED := fun hp => hstop (Or.inr hp)
    have hfalse : e = false := by
      cases e
      · rfl
      · exact absurd (Or.inl rfl) hstop
    subst hfalse
    obtain ⟨hc, hb, _⟩ := hinv
    by_cases hgt : s.highestInternalPassUsed < pass
    · obtain ⟨t, ht, _⟩ := enable_pass_above E s pass hc hb hgt hne
      exact ⟨t, ht⟩
    · exact ⟨_, enable_pass_below E s pass hb h0 (by omega) he hne⟩

theorem probe_value_negative (s : colorIntPasses_t) (pass : Int) (v : colorA_t)
    (hinv : s.Invariant) (hneg : pass < 0) :
    s.probe_set pass v true = none ∧ s.probe_add pass v true = none
      ∧ s.probe_mult pass v true = none := by
  have he := enabled_negative s pass hinv hneg
  simp [colorIntPasses_t.probe_set, colorIntPasses_t.probe_add, colorIntPasses_t.probe_mult, he]

/-- C17: on the accumulator that the constructor and `enable_pass(2)` produce, the calls
`enabled(PASS_INT_DISABLED)`, `enable_pass(PASS_INT_DISABLED)` and the value forms of
`probe_set`, `probe_add` and `probe_mult` with the kind `PASS_INT_DISABLED` and the gate
true read `enabledIntPasses[-1]`, an index outside `0..highestInternalPassUsed`. -/
theorem disabled_kind_reads_out_of_range :
    colorIntPasses_t.ctor samplePassTypes = some sampleFresh
      ∧ sampleFresh.enable_pass samplePassTypes 2 = some sampleGrown
      ∧ samplePassTypes.PASS_INT_DISABLED = -1
      ∧ samplePassTypes.PASS_INT_DISABLED ≤ sampleGrown.highestInternalPassUsed
      ∧ vector_at sampleGrown.enabledIntPasses samplePassTypes.PASS_INT_DISABLED = none
      ∧ sampleGrown.enabled samplePassTypes.PASS_INT_DISABLED = none
      ∧ sampleGrown.enable_pass samplePassTypes samplePassTypes.PASS_INT_DISABLED = none
      ∧ sampleGrown.probe_set samplePassTypes.PASS_INT_DISABLED
          { R := 1, G := 2, B := 3, A := 4 } true = none
      ∧ sampleGrown.probe_add samplePassTypes.PASS_INT_DISABLED
          { R := 1, G := 2, B := 3, A := 4 } true = none
      ∧ sampleGrown.probe_mult samplePassTypes.PASS_INT_DISABLED
          { R := 1, G := 2, B := 3, A := 4 } true = none :=
  ⟨by decide, by decide, by decide, by decide, by decide, by decide, by decide, by decide,
    by decide, by decide⟩

/-- C7: on the freshly constructed accumulator, the value forms of `probe_set`, `probe_add`
and `probe_mult` with the kind `PASS_INT_DISABLED` and the gate true evaluate
`enabled(pass)`, which reads `enabledIntPasses[-1]`, outside the vector, before the
`return`: no colour is returned.  With the gate false the same calls return `v`. -/
theorem probe_value_disabled_kind_faults :
    colorIntPasses_t.ctor samplePassTypes = some sampleFresh
      ∧ samplePassTypes.PASS_INT_DISABLED = -1
      ∧ samplePassTypes.PASS_INT_DISABLED ≤ sampleFresh.highestInternalPassUsed
      ∧ vector_at sampleFresh.enabledIntPasses samplePassTypes.PASS_INT_DISABLED = none
      ∧ sampleFresh.enabled samplePassTypes.PASS_INT_DISABLED = none
      ∧ sampleFresh.probe_set samplePassTypes.PASS_INT_DISABLED
          { R := 1, G := 2, B := 3, A := 4 } true = none
      ∧ sampleFresh.probe_add samplePassTypes.PASS_INT_DISABLED
          { R := 1, G := 2, B := 3, A := 4 } true = none
      ∧ sampleFresh.probe_mult samplePassTypes.PASS_INT_DISABLED
          { R := 1, G := 2, B := 3, A := 4 } true = none
      ∧ sampleFresh.probe_set samplePassTypes.PASS_INT_DISABLED
          { R := 1, G := 2, B := 3, A := 4 } false
        = some ({ R := 1, G := 2, B := 3, A := 4 }, sampleFresh) :=
  ⟨by decide, by decide, by decide, by decide, by decide, by decide, by decide, by decide,
    by decide⟩

/-- C11: on the accumulator that the constructor and `enable_pass(2)` produce, with any
peer, the accumulator forms of `probe_set`, `probe_add` and `probe_mult` with the kind
`PASS_INT_DISABLED`, which is not enabled, and the gate true evaluate `enabled(pass)`, which
reads `enabledIntPasses[-1]`, outside the vector: the zero colour is not returned.  With the
gate false the same calls return the zero colour and leave the accumulator unchanged. -/
theorem probe_passes_disabled_kind_faults :
    colorIntPasses_t.ctor samplePassTypes = some sampleFresh
      ∧ sampleFresh.enable_pass samplePassTypes 2 = some sampleGrown
      ∧ samplePassTypes.PASS_INT_DISABLED = -1
      ∧ sampleGrown.enabled samplePassTypes.PASS_INT_DISABLED = none
      ∧ (∀ src : colorIntPasses_t,
          sampleGrown.probe_set_passes samplePassTypes.PASS_INT_DISABLED src true = none
            ∧ sampleGrown.probe_add_passes samplePassTypes.PASS_INT_DISABLED src true = none
            ∧ sampleGrown.probe_mult_passes samplePassTypes.PASS_INT_DISABLED src true = none)
      ∧ (∀ src : colorIntPasses_t,
          sampleGrown.probe_set_passes samplePassTypes.PASS_INT_DISABLED src false
            = some ({ R := 0, G := 0, B := 0, A := 0 }, sampleGrown)) := by
  have he : sampleGrown.enabled samplePassTypes.PASS_INT_DISABLED = none := by decide
  refine ⟨by decide, by decide, by decide, he, ?_, ?_⟩
  · intro src
    simp [colorIntPasses_t.probe_set_passes, colorIntPasses_t.probe_add_passes,
      colorIntPasses_t.probe_mult_passes, colorIntPasses_t.probe_peer, he]
  · intro src
    simp [colorIntPasses_t.probe_set_passes, colorIntPasses_t.probe_peer, colorA_t.of_gray]

/-! ## The maps of names -/

theorem map_find_assign {K V : Type} [DecidableEq K] (less : K → K → Bool) :
    ∀ (m : List (K × V)) (k : K) (v : V) (q : K),
      map_find (map_assign less m k v) q = if q = k then some v else map_find m q := by
  intro m
  induction m with
  | nil => intro k v q; simp [map_assign, map_find]
  | cons p rest ih =>
    intro k v q
    obtain ⟨k1, v1⟩ := p
    simp only [map_assign]
    by_cases h1 : k = k1
    · subst h1
      simp only [if_true, map_find]
      split_ifs <;> rfl
    · simp only [h1, if_false]
      by_cases h2 : less k k1 = true
      · simp only [h2, if_true, map_find]
      · simp only [h2, if_false, map_find, ih]
        by_cases h3 : q = k1
        · have h4 : q ≠ k := fun h => h1 (h ▸ h3)
          simp only [h3, if_true]
          rw [if_neg (fun h => h1 h.symm)]
        · simp only [h3, if_false]

theorem map_find_assign_all_some :
    ∀ (l m : List (String × Int)) (n : String) (k : Int),
      map_find (map_assign_all m l) n = some k → (n, k) ∈ l ∨ map_find m n = some k := by
  intro l
  induction l with
  | nil => intro m n k h; exact Or.inr h
  | cons p rest ih =>
    intro m n k h
    simp only [map_assign_all, List.foldl_cons] at h
    rcases ih (map_assign string_less m p.1 p.2) n k h with h1 | h1
    · exact Or.inl (List.mem_cons_of_mem _ h1)
    · rw [map_find_assign] at h1
      by_cases hn : n = p.1
      · simp only [hn, if_true, Option.some.injEq] at h1
        left
        rw [hn, ← h1]
        exact List.mem_cons_self _ _
      · simp only [hn, if_false] at h1
        exact Or.inr h1

theorem map_find_assign_all_none :
    ∀ (l m : List (String × Int)) (n : String),
      map_find (map_assign_all m l) n = none
        ↔ (map_find m n = none ∧ ∀ p ∈ l, p.1 ≠ n) := by
  intro l
  induction l with
  | nil => intro m n; simp [map_assign_all]
  | cons p rest ih =>
    intro m n
    simp only [map_assign_all, List.foldl_cons]
    have := ih (map_assign string_less m p.1 p.2) n
    simp only [map_assign_all] at this
    rw [this, map_find_assign]
    by_cases hn : n = p.1
    · subst hn
      simp
    · have hn2 : p.1 ≠ n := fun h => hn h.symm
      simp [hn, hn2]

/-! ## The catalog -/

theorem pass_add_maps (X : extPassTypes_t) (E : intPassTypes_t) (c : renderPasses_t)
    (sExternalPass sInternalPass : String) :
    (c.pass_add X E sExternalPass sInternalPass).extPassMapStringInt = c.extPassMapStringInt
      ∧ (c.pass_add X E sExternalPass sInternalPass).extPassMapIntString
          = c.extPassMapIntString
      ∧ (c.pass_add X E sExternalPass sInternalPass).intPassMapStringInt
          = c.intPassMapStringInt
      ∧ (c.pass_add X E sExternalPass sInternalPass).intPassMapIntString
          = c.intPassMapIntString := by
  unfold renderPasses_t.pass_add
  simp only
  split <;> exact ⟨rfl, rfl, rfl, rfl⟩

theorem generate_pass_maps_fields (X : extPassTypes_t) (E : intPassTypes_t)
    (c : renderPasses_t) :
    (c.generate_pass_maps X E).extPasses = c.extPasses
      ∧ (c.generate_pass_maps X E).extPassMapStringInt
          = map_assign_all c.extPassMapStringInt (renderPasses_t.ext_assignments X)
      ∧ (c.generate_pass_maps X E).intPassMapStringInt
          = map_assign_all c.intPassMapStringInt (renderPasses_t.int_assignments E) := by
  simp only [renderPasses_t.generate_pass_maps, and_self]

theorem reachable_maps (X : extPassTypes_t) (E : intPassTypes_t) {c : renderPasses_t}
    (h : renderPasses_t.Reachable X E c) :
    c.extPassMapStringInt = map_assign_all [] (renderPasses_t.ext_assignments X)
      ∧ c.intPassMapStringInt = map_assign_all [] (renderPasses_t.int_assignments E) := by
  induction h with
  | ctor =>
    unfold renderPasses_t.ctor
    obtain ⟨_, h2, h3⟩ := generate_pass_maps_fields X E
      { extPasses := [extPass_t.ctor X X.PASS_EXT_COMBINED E.PASS_INT_COMBINED]
        extPassMapStringInt := []
        extPassMapIntString := []
        intPassMapStringInt := []
        intPassMapIntString := [] }
    rw [h2, h3]
    simp only [and_self]
  | pass_add sExternalPass sInternalPass _ ih =>
    obtain ⟨h1, _, h3, _⟩ := pass_add_maps X E _ sExternalPass sInternalPass
    rw [h1, h3]
    exact ih

theorem ext_names_closed (X : extPassTypes_t) :
    (renderPasses_t.ext_assignments X).map Prod.fst
      = (renderPasses_t.ext_assignments sampleExtPassTypes).map Prod.fst := rfl

theorem ext_find_mem (X : extPassTypes_t) (n : String) (k : Int)
    (h : map_find (map_assign_all [] (renderPasses_t.ext_assignments X)) n = some k) :
    (n, k) ∈ renderPasses_t.ext_assignments X := by
  rcases map_find_assign_all_some _ _ n k h with h1 | h1
  · exact h1
  · simp [map_find] at h1

theorem ext_find_kind (X : extPassTypes_t) (n : String) (k : Int)
    (h : map_find (map_assign_all [] (renderPasses_t.ext_assignments X)) n = some k) :
    k ∈ X.kinds := by
  have hmem := ext_find_mem X n k h
  have : k ∈ (renderPasses_t.ext_assignments X).map Prod.snd :=
    List.mem_map.2 ⟨(n, k), hmem, rfl⟩
  exact this

theorem ext_find_combined (X : extPassTypes_t) (hX : X.Enumerated) (n : String) (k : Int)
    (h : map_find (map_assign_all [] (renderPasses_t.ext_assignments X)) n = some k) :
    k = X.PASS_EXT_COMBINED ↔ n = "Combined" := by
  have hmem := ext_find_mem X n k h
  have hlist : renderPasses_t.ext_assignments X
      = ("Combined", X.PASS_EXT_COMBINED) :: (renderPasses_t.ext_assignments X).tail := rfl
  have hkinds : X.kinds = X.PASS_EXT_COMBINED :: X.kinds.tail := rfl
  have hnotin : X.PASS_EXT_COMBINED ∉ X.kinds.tail := by
    have hN := hX.2
    rw [hkinds] at hN
    exact (List.nodup_cons.1 hN).1
  rw [hlist] at hmem
  rcases List.mem_cons.1 hmem with h1 | h1
  · have hn : n = "Combined" := congrArg Prod.fst h1
    have hk : k = X.PASS_EXT_COMBINED := congrArg Prod.snd h1
    exact ⟨fun _ => hn, fun _ => hk⟩
  · have hk : k ∈ X.kinds.tail := by
      have : k ∈ ((renderPasses_t.ext_assignments X).tail).map Prod.snd :=
        List.mem_map.2 ⟨(n, k), h1, rfl⟩
      exact this
    have hn : n ∈ ((renderPasses_t.ext_assignments sampleExtPassTypes).tail).map Prod.fst := by
      have : n ∈ ((renderPasses_t.ext_assignments X).tail).map Prod.fst :=
        List.mem_map.2 ⟨(n, k), h1, rfl⟩
      exact this
    constructor
    · intro hkc
      rw [hkc] at hk
      exact absurd hk hnotin
    · intro hnc
      rw [hnc] at hn
      exact absurd hn (by decide)

theorem ext_find_injective (X : extPassTypes_t) (hX : X.Enumerated) (n1 n2 : String) (k : Int)
    (h1 : map_find (map_assign_all [] (renderPasses_t.ext_assignments X)) n1 = some k)
    (h2 : map_find (map_assign_all [] (renderPasses_t.ext_assignments X)) n2 = some k) :
    n1 = n2 := by
  have hm1 := ext_find_mem X n1 k h1
  have hm2 := ext_find_mem X n2 k h2
  have hN : ((renderPasses_t.ext_assignments X).map Prod.snd).Nodup := hX.2
  have := List.inj_on_of_nodup_map hN hm1 hm2 rfl
  exact congrArg Prod.fst this

theorem int_assigned_kinds (E : intPassTypes_t) :
    (renderPasses_t.int_assignments E).map Prod.snd
      = E.kinds.take 44 ++ ([E.PASS_INT_NORMAL_SMOOTH, E.PASS_INT_NORMAL_GEOM]
          ++ E.kinds.drop 44) := rfl

theorem int_find_kind (E : intPassTypes_t) (n : String) (k : Int)
    (h : map_find (map_assign_all [] (renderPasses_t.int_assignments E)) n = some k) :
    k ∈ E.kinds := by
  rcases map_find_assign_all_some _ _ n k h with h1 | h1
  · have h2 : k ∈ (renderPasses_t.int_assignments E).map Prod.snd :=
      List.mem_map.2 ⟨(n, k), h1, rfl⟩
    rw [int_assigned_kinds] at h2
    have hlen : E.kinds.length = 54 := rfl
    rcases List.mem_append.1 h2 with h3 | h3
    · exact List.mem_of_mem_take h3
    · rcases List.mem_append.1 h3 with h4 | h4
      · rcases List.mem_cons.1 h4 with h5 | h5
        · rw [h5]
          exact List.getElem_mem (by omega : 3 < E.kinds.length)
        · rw [List.mem_singleton.1 h5]
          exact List.getElem_mem (by omega : 4 < E.kinds.length)
      · exact List.mem_of_mem_drop h4
  · simp [map_find] at h1

theorem pass_add_append (X : extPassTypes_t) (E : intPassTypes_t) (c : renderPasses_t)
    (sExternalPass sInternalPass : String) (ek ik : Int)
    (h1 : map_find c.extPassMapStringInt sExternalPass = some ek)
    (h2 : map_find c.intPassMapStringInt sInternalPass = some ik)
    (hc : ek ≠ X.PASS_EXT_COMBINED) (hd : ek ≠ X.PASS_EXT_DISABLED)
    (hi : ik ≠ E.PASS_INT_DISABLED) :
    c.pass_add X E sExternalPass sInternalPass
      = { c with extPasses := c.extPasses ++ [extPass_t.ctor X ek ik] } := by
  simp only [renderPasses_t.pass_add, h1, h2, ne_eq, hc, hd, hi, not_false_eq_true, and_self,
    if_true]

theorem pass_add_ignored (X : extPassTypes_t) (E : intPassTypes_t) (c : renderPasses_t)
    (sExternalPass sInternalPass : String)
    (h : map_find c.extPassMapStringInt sExternalPass = none
      ∨ map_find c.extPassMapStringInt sExternalPass = some X.PASS_EXT_COMBINED
      ∨ map_find c.intPassMapStringInt sInternalPass = none) :
    c.pass_add X E sExternalPass sInternalPass = c := by
  rcases h with h | h | h
  · simp [renderPasses_t.pass_add, h]
  · simp [renderPasses_t.pass_add, h]
  · simp [renderPasses_t.pass_add, h]

theorem pass_add_extPasses (X : extPassTypes_t) (E : intPassTypes_t) (c : renderPasses_t)
    (sExternalPass sInternalPass : String) :
    (c.pass_add X E sExternalPass sInternalPass).extPasses = c.extPasses
      ∨ ∃ ek ik : Int, map_find c.extPassMapStringInt sExternalPass = some ek
          ∧ ek ≠ X.PASS_EXT_COMBINED
          ∧ (c.pass_add X E sExternalPass sInternalPass).extPasses
              = c.extPasses ++ [extPass_t.ctor X ek ik] := by
  cases h1 : map_find c.extPassMapStringInt sExternalPass with
  | none => left; rw [pass_add_ignored X E c _ _ (Or.inl h1)]
  | some ek =>
    by_cases hc : ek = X.PASS_EXT_COMBINED
    · left; rw [pass_add_ignored X E c _ _ (Or.inr (Or.inl (hc ▸ h1)))]
    · by_cases hcond : ek ≠ X.PASS_EXT_DISABLED
          ∧ (match map_find c.intPassMapStringInt sInternalPass with
              | some k => k
              | none => E.PASS_INT_DISABLED) ≠ E.PASS_INT_DISABLED
      · right
        refine ⟨ek, (match map_find c.intPassMapStringInt sInternalPass with
              | some k => k
              | none => E.PASS_INT_DISABLED), rfl, hc, ?_⟩
        simp only [renderPasses_t.pass_add, h1, ne_eq, hc, not_false_eq_true, true_and]
        rw [if_pos hcond]
      · left
        simp only [renderPasses_t.pass_add, h1, ne_eq, hc, not_false_eq_true, true_and]
        rw [if_neg hcond]

theorem combined_entry (X : extPassTypes_t) (E : intPassTypes_t) (hX : X.Enumerated) :
    extPass_t.ctor X X.PASS_EXT_COMBINED E.PASS_INT_COMBINED
      = { externalPassType := X.PASS_EXT_COMBINED, internalYafPassType := E.PASS_INT_COMBINED,
          externalTyleType := X.PASS_EXT_TILE_4_RGBA, enabled := true } := by
  have hmem : X.PASS_EXT_COMBINED ∈ X.kinds := List.mem_cons_self _ _
  obtain ⟨h1, h2⟩ := hX.1 _ hmem
  have hne : ¬ (X.PASS_EXT_COMBINED = X.PASS_EXT_DISABLED
      ∨ X.PASS_EXT_COMBINED ≥ X.PASS_EXT_TOTAL_PASSES) := by omega
  simp only [extPass_t.ctor, if_true, hne, if_false]

theorem reachable_extPasses (X : extPassTypes_t) (E : intPassTypes_t) {c : renderPasses_t}
    (h : renderPasses_t.Reachable X E c) :
    ∃ rest : List extPass_t,
      c.extPasses = extPass_t.ctor X X.PASS_EXT_COMBINED E.PASS_INT_COMBINED :: rest
        ∧ ∀ e ∈ rest, e.externalPassType ≠ X.PASS_EXT_COMBINED := by
  induction h with
  | ctor =>
    refine ⟨[], ?_, by simp⟩
    unfold renderPasses_t.ctor
    rw [(generate_pass_maps_fields X E _).1]
  | pass_add sExternalPass sInternalPass _ ih =>
    obtain ⟨rest, hrest, hne⟩ := ih
    rcases pass_add_extPasses X E _ sExternalPass sInternalPass with h1 | ⟨ek, ik, _, hc, h1⟩
    · exact ⟨rest, by rw [h1, hrest], hne⟩
    · refine ⟨rest ++ [extPass_t.ctor X ek ik], by rw [h1, hrest]; rfl, ?_⟩
      intro e he
      rcases List.mem_append.1 he with h2 | h2
      · exact hne e h2
      · rw [List.mem_singleton.1 h2]
        exact hc

/-- C18: every catalog that the constructor and calls of `pass_add` produce has at least
one external pass, its entry 0 is (external Combined, internal Combined, the 4-channel RGBA
tile, enabled), and no other entry has the external kind Combined. -/
theorem catalog_combined_first (X : extPassTypes_t) (E : intPassTypes_t) (hX : X.Enumerated)
    (c : renderPasses_t) (h : renderPasses_t.Reachable X E c) :
    1 ≤ c.numExtPasses
      ∧ c.extPasses[0]?
          = some { externalPassType := X.PASS_EXT_COMBINED
                   internalYafPassType := E.PASS_INT_COMBINED
                   externalTyleType := X.PASS_EXT_TILE_4_RGBA
                   enabled := true }
      ∧ c.externalPassType 0 = some X.PASS_EXT_COMBINED
      ∧ c.internalYafPassType 0 = some E.PASS_INT_COMBINED
      ∧ c.externalTyleType 0 = some X.PASS_EXT_TILE_4_RGBA
      ∧ (∀ (i : Nat) (e : extPass_t), 1 ≤ i → c.extPasses[i]? = some e →
          e.externalPassType ≠ X.PASS_EXT_COMBINED) := by
  obtain ⟨rest, hrest, hne⟩ := reachable_extPasses X E h
  have h0 := combined_entry X E hX
  refine ⟨?_, ?_, ?_, ?_, ?_, ?_⟩
  · simp [renderPasses_t.numExtPasses, hrest]
  · rw [hrest, ← h0]; simp
  · simp [renderPasses_t.externalPassType, hrest, h0]
  · simp [renderPasses_t.internalYafPassType, vector_at, hrest, h0]
  · simp [renderPasses_t.externalTyleType, hrest, h0]
  · intro i e hi he
    rw [hrest] at he
    obtain ⟨j, rfl⟩ : ∃ j, i = j + 1 := ⟨i - 1, by omega⟩
    rw [List.getElem?_cons_succ] at he
    exact hne e (List.getElem?_mem he)

theorem catalog_combined_first_witness :
    sampleExtPassTypes.Enumerated
      ∧ renderPasses_t.Reachable sampleExtPassTypes samplePassTypes
          ((renderPasses_t.ctor sampleExtPassTypes samplePassTypes).pass_add sampleExtPassTypes
            samplePassTypes "Depth" "z-depth-norm")
      ∧ 1 ≤ ((renderPasses_t.ctor sampleExtPassTypes samplePassTypes).pass_add
            sampleExtPassTypes samplePassTypes "Depth" "z-depth-norm").numExtPasses
      ∧ ((renderPasses_t.ctor sampleExtPassTypes samplePassTypes).pass_add
            sampleExtPassTypes samplePassTypes "Depth" "z-depth-norm").extPasses[0]?
          = some { externalPassType := 0, internalYafPassType := 0, externalTyleType := 4,
                   enabled := true } :=
  ⟨by decide, renderPasses_t.Reachable.pass_add "Depth" "z-depth-norm"
      renderPasses_t.Reachable.ctor,
    (catalog_combined_first sampleExtPassTypes samplePassTypes (by decide) _
      (renderPasses_t.Reachable.pass_add "Depth" "z-depth-norm"
        renderPasses_t.Reachable.ctor)).1,
    (catalog_combined_first sampleExtPassTypes samplePassTypes (by decide) _
      (renderPasses_t.Reachable.pass_add "Depth" "z-depth-norm"
        renderPasses_t.Reachable.ctor)).2.1⟩

/-- C19: `pass_add(extName, intName)` appends one entry, which carries the external kind
registered for `extName` and the internal kind registered for `intName`, at the end of the
list, if and only if `extName` is a registered external name other than "Combined" and
`intName` is a registered internal name; in every other case the catalog is unchanged.  The
call always returns and never changes the maps. -/
theorem pass_add_registered (X : extPassTypes_t) (E : intPassTypes_t) (hX : X.Enumerated)
    (hE : E.Enumerated) (c : renderPasses_t) (hc : renderPasses_t.Reachable X E c)
    (extName intName : String) :
    (((∃ k, map_find c.extPassMapStringInt extName = some k) ∧ extName ≠ "Combined"
        ∧ (∃ k, map_find c.intPassMapStringInt intName = some k)) →
      ∃ ek ik : Int, map_find c.extPassMapStringInt extName = some ek
        ∧ map_find c.intPassMapStringInt intName = some ik
        ∧ (c.pass_add X E extName intName).extPasses
            = c.extPasses ++ [extPass_t.ctor X ek ik]
        ∧ (extPass_t.ctor X ek ik).externalPassType = ek
        ∧ (extPass_t.ctor X ek ik).internalYafPassType = ik)
    ∧ (¬ ((∃ k, map_find c.extPassMapStringInt extName = some k) ∧ extName ≠ "Combined"
        ∧ (∃ k, map_find c.intPassMapStringInt intName = some k)) →
      c.pass_add X E extName intName = c)
    ∧ ((∃ e : extPass_t, (c.pass_add X E extName intName).extPasses = c.extPasses ++ [e])
      ↔ ((∃ k, map_find c.extPassMapStringInt extName = some k) ∧ extName ≠ "Combined"
        ∧ (∃ k, map_find c.intPassMapStringInt intName = some k)))
    ∧ (c.pass_add X E extName intName).extPassMapStringInt = c.extPassMapStringInt
    ∧ (c.pass_add X E extName intName).extPassMapIntString = c.extPassMapIntString
    ∧ (c.pass_add X E extName intName).intPassMapStringInt = c.intPassMapStringInt
    ∧ (c.pass_add X E extName intName).intPassMapIntString = c.intPassMapIntString := by
  obtain ⟨hme, hmi⟩ := reachable_maps X E hc
  have happ : ((∃ k, map_find c.extPassMapStringInt extName = some k) ∧ extName ≠ "Combined"
        ∧ (∃ k, map_find c.intPassMapStringInt intName = some k)) →
      ∃ ek ik : Int, map_find c.extPassMapStringInt extName = some ek
        ∧ map_find c.intPassMapStringInt intName = some ik
        ∧ c.pass_add X E extName intName
            = { c with extPasses := c.extPasses ++ [extPass_t.ctor X ek ik] } := by
    rintro ⟨⟨ek, hek⟩, hname, ⟨ik, hik⟩⟩
    have hek2 := hek
    have hik2 := hik
    rw [hme] at hek2
    rw [hmi] at hik2
    have h1 : ek ≠ X.PASS_EXT_COMBINED := fun h =>
      hname ((ext_find_combined X hX extName ek hek2).1 h)
    have h2 : ek ≠ X.PASS_EXT_DISABLED := by
      have := (hX.1 ek (ext_find_kind X extName ek hek2)).1
      omega
    have h3 : ik ≠ E.PASS_INT_DISABLED := by
      have := hE.2.2.1 ik (int_find_kind E intName ik hik2)
      rw [hE.1]
      omega
    exact ⟨ek, ik, hek, hik, pass_add_append X E c extName intName ek ik hek hik h1 h2 h3⟩
  have hign : ¬ ((∃ k, map_find c.extPassMapStringInt extName = some k) ∧ extName ≠ "Combined"
        ∧ (∃ k, map_find c.intPassMapStringInt intName = some k)) →
      c.pass_add X E extName intName = c := by
    intro hnot
    apply pass_add_ignored
    cases hek : map_find c.extPassMapStringInt extName with
    | none => exact Or.inl rfl
    | some ek =>
      cases hik : map_find c.intPassMapStringInt intName with
      | none => exact Or.inr (Or.inr rfl)
      | some ik =>
        right; left
        have hname : extName = "Combined" := by
          by_contra hne
          exact hnot ⟨⟨ek, hek⟩, hne, ⟨ik, hik⟩⟩
        have hek2 := hek
        rw [hme] at hek2
        rw [(ext_find_combined X hX extName ek hek2).2 hname]
  refine ⟨?_, hign, ?_, (pass_add_maps X E c extName intName).1,
    (pass_add_maps X E c extName intName).2.1, (pass_add_maps X E c extName intName).2.2.1,
    (pass_add_maps X E c extName intName).2.2.2⟩
  · intro hcond
    obtain ⟨ek, ik, hek, hik, hadd⟩ := happ hcond
    exact ⟨ek, ik, hek, hik, by rw [hadd], rfl, rfl⟩
  · constructor
    · rintro ⟨e, he⟩
      by_contra hnot
      rw [hign hnot] at he
      have := congrArg List.length he
      simp at this
    · intro hcond
      obtain ⟨ek, ik, _, _, hadd⟩ := happ hcond
      exact ⟨extPass_t.ctor X ek ik, by rw [hadd]⟩

theorem pass_add_registered_witness :
    sampleExtPassTypes.Enumerated ∧ samplePassTypes.Enumerated
      ∧ renderPasses_t.Reachable sampleExtPassTypes samplePassTypes
          (renderPasses_t.ctor sampleExtPassTypes samplePassTypes)
      ∧ ((∃ e : extPass_t,
            ((renderPasses_t.ctor sampleExtPassTypes samplePassTypes).pass_add
                sampleExtPassTypes samplePassTypes "Depth" "z-depth-norm").extPasses
              = (renderPasses_t.ctor sampleExtPassTypes samplePassTypes).extPasses ++ [e])
        ↔ ((∃ k, map_find (renderPasses_t.ctor sampleExtPassTypes
                samplePassTypes).extPassMapStringInt "Depth" = some k)
            ∧ "Depth" ≠ "Combined"
            ∧ (∃ k, map_find (renderPasses_t.ctor sampleExtPassTypes
                samplePassTypes).intPassMapStringInt "z-depth-norm" = some k)))
      ∧ map_find (renderPasses_t.ctor sampleExtPassTypes samplePassTypes).extPassMapStringInt
          "Depth" = some 1
      ∧ map_find (renderPasses_t.ctor sampleExtPassTypes samplePassTypes).intPassMapStringInt
          "z-depth-norm" = some 1 :=
  ⟨by decide, by decide, renderPasses_t.Reachable.ctor,
    (pass_add_registered sampleExtPassTypes samplePassTypes (by decide) (by decide) _
      renderPasses_t.Reachable.ctor "Depth" "z-depth-norm").2.2.1,
    by decide, by decide⟩

/-! ## External kinds in the list of passes -/

theorem pass_add_all_cons (X : extPassTypes_t) (E : intPassTypes_t) (c : renderPasses_t)
    (p : String × String) (rest : List (String × String)) :
    renderPasses_t.pass_add_all X E c (p :: rest)
      = renderPasses_t.pass_add_all X E (c.pass_add X E p.1 p.2) rest := rfl

theorem pass_add_kinds_step (X : extPassTypes_t) (E : intPassTypes_t) (hX : X.Enumerated)
    (c : renderPasses_t) (seen : List String) (n i : String)
    (hr : renderPasses_t.Reachable X E c)
    (hnodup : (c.extPasses.map extPass_t.externalPassType).Nodup)
    (hseen : ∀ e ∈ c.extPasses, e.externalPassType = X.PASS_EXT_COMBINED
      ∨ ∃ m ∈ seen, map_find c.extPassMapStringInt m = some e.externalPassType)
    (hn : n ∉ seen) :
    ((c.pass_add X E n i).extPasses.map extPass_t.externalPassType).Nodup
      ∧ ∀ e ∈ (c.pass_add X E n i).extPasses, e.externalPassType = X.PASS_EXT_COMBINED
          ∨ ∃ m ∈ n :: seen,
              map_find (c.pass_add X E n i).extPassMapStringInt m = some e.externalPassType := by
  have hmaps := (pass_add_maps X E c n i).1
  have hgen := (reachable_maps X E hr).1
  have hold : ∀ e ∈ c.extPasses, e.externalPassType = X.PASS_EXT_COMBINED
      ∨ ∃ m ∈ n :: seen,
          map_find (c.pass_add X E n i).extPassMapStringInt m = some e.externalPassType := by
    intro e he
    rcases hseen e he with h | ⟨m, hm, hfind⟩
    · exact Or.inl h
    · exact Or.inr ⟨m, List.mem_cons_of_mem _ hm, by rw [hmaps]; exact hfind⟩
  rcases pass_add_extPasses X E c n i with h1 | ⟨ek, ik, hek, hc, h1⟩
  · rw [h1]
    exact ⟨hnodup, hold⟩
  · rw [h1]
    constructor
    · rw [List.map_append, List.map_singleton]
      refine List.Nodup.append hnodup (List.nodup_singleton _) ?_
      rw [List.disjoint_singleton]
      intro hmem
      obtain ⟨e, he, hke⟩ := List.mem_map.1 hmem
      have hke2 : e.externalPassType = ek := hke
      rcases hseen e he with h | ⟨m, hm, hfind⟩
      · exact hc (hke2 ▸ h)
      · rw [hke2, hgen] at hfind
        rw [hgen] at hek
        have := ext_find_injective X hX m n ek hfind hek
        exact hn (this ▸ hm)
    · intro e he
      rcases List.mem_append.1 he with h2 | h2
      · exact hold e h2
      · right
        rw [List.mem_singleton.1 h2]
        exact ⟨n, List.mem_cons_self _ _, by rw [hmaps]; exact hek⟩

theorem pass_add_all_kinds (X : extPassTypes_t) (E : intPassTypes_t) (hX : X.Enumerated) :
    ∀ (calls : List (String × String)) (c : renderPasses_t) (seen : List String),
      renderPasses_t.Reachable X E c →
      (c.extPasses.map extPass_t.externalPassType).Nodup →
      (∀ e ∈ c.extPasses, e.externalPassType = X.PASS_EXT_COMBINED
        ∨ ∃ m ∈ seen, map_find c.extPassMapStringInt m = some e.externalPassType) →
      (calls.map Prod.fst).Nodup → (∀ n ∈ calls.map Prod.fst, n ∉ seen) →
      ((renderPasses_t.pass_add_all X E c calls).extPasses.map
        extPass_t.externalPassType).Nodup := by
  intro calls
  induction calls with
  | nil => intro c seen _ hnodup _ _ _; exact hnodup
  | cons p rest ih =>
    intro c seen hr hnodup hseen hnames hfresh
    rw [pass_add_all_cons]
    rw [List.map_cons, List.nodup_cons] at hnames
    have hp : p.1 ∉ seen := hfresh p.1 (by simp)
    obtain ⟨h1, h2⟩ := pass_add_kinds_step X E hX c seen p.1 p.2 hr hnodup hseen hp
    refine ih _ (p.1 :: seen) (renderPasses_t.Reachable.pass_add p.1 p.2 hr) h1 h2 hnames.2 ?_
    intro n hn hmem
    rcases List.mem_cons.1 hmem with h3 | h3
    · exact hnames.1 (h3 ▸ hn)
    · exact hfresh n (by rw [List.map_cons]; exact List.mem_cons_of_mem _ hn) h3

/-- C20, as stated: two calls of `pass_add` with the external name "Depth" on a fresh
catalog leave two entries with the same external kind in the list. -/
theorem pass_add_twice_repeats_kind :
    ((renderPasses_t.pass_add_all sampleExtPassTypes samplePassTypes
        (renderPasses_t.ctor sampleExtPassTypes samplePassTypes)
        [("Depth", "z-depth-norm"), ("Depth", "z-depth-abs")]).extPasses.map
      extPass_t.externalPassType) = [0, 1, 1]
    ∧ ¬ ((renderPasses_t.pass_add_all sampleExtPassTypes samplePassTypes
        (renderPasses_t.ctor sampleExtPassTypes samplePassTypes)
        [("Depth", "z-depth-norm"), ("Depth", "z-depth-abs")]).extPasses.map
      extPass_t.externalPassType).Nodup :=
  ⟨by decide, by decide⟩

/-- C20: for every sequence of `pass_add` calls with pairwise different external names
applied to a freshly constructed catalog, the list of external passes does not contain two
entries with the same external kind. -/
theorem pass_add_distinct_names (X : extPassTypes_t) (E : intPassTypes_t) (hX : X.Enumerated)
    (calls : List (String × String)) (hnames : (calls.map Prod.fst).Nodup) :
    ((renderPasses_t.pass_add_all X E (renderPasses_t.ctor X E) calls).extPasses.map
      extPass_t.externalPassType).Nodup := by
  have hfields := (generate_pass_maps_fields X E
    { extPasses := [extPass_t.ctor X X.PASS_EXT_COMBINED E.PASS_INT_COMBINED]
      extPassMapStringInt := []
      extPassMapIntString := []
      intPassMapStringInt := []
      intPassMapIntString := [] }).1
  have hctor : (renderPasses_t.ctor X E).extPasses
      = [extPass_t.ctor X X.PASS_EXT_COMBINED E.PASS_INT_COMBINED] := hfields
  refine pass_add_all_kinds X E hX calls (renderPasses_t.ctor X E) []
    renderPasses_t.Reachable.ctor ?_ ?_ hnames (fun _ _ h => by cases h)
  · rw [hctor]
    exact List.nodup_singleton _
  · intro e he
    rw [hctor] at he
    left
    rw [List.mem_singleton.1 he]
    rfl

theorem pass_add_distinct_names_witness :
    sampleExtPassTypes.Enumerated
      ∧ ([("Depth", "z-depth-norm"), ("Spec", "adv-glossy"), ("Combined", "combined"),
          ("Nothing", "mist")].map Prod.fst).Nodup
      ∧ ((renderPasses_t.pass_add_all sampleExtPassTypes samplePassTypes
          (renderPasses_t.ctor sampleExtPassTypes samplePassTypes)
          [("Depth", "z-depth-norm"), ("Spec", "adv-glossy"), ("Combined", "combined"),
            ("Nothing", "mist")]).extPasses.map extPass_t.externalPassType).Nodup :=
  ⟨by decide, by decide,
    pass_add_distinct_names sampleExtPassTypes samplePassTypes (by decide) _ (by decide)⟩

/-! ## The tile type of an external pass -/

theorem ext_kinds_distinct (X : extPassTypes_t) (hX : X.Enumerated) (i j : Nat)
    (hi : i < X.kinds.length) (hj : j < X.kinds.length) (hij : i ≠ j) :
    X.kinds[i] ≠ X.kinds[j] := by
  intro h
  exact hij ((hX.2.getElem_inj_iff).1 h)

theorem tile_labels_distinct (X : extPassTypes_t) (hX : X.Enumerated) :
    X.PASS_EXT_COMBINED ≠ X.PASS_EXT_Z_DEPTH ∧ X.PASS_EXT_COMBINED ≠ X.PASS_EXT_MIST
      ∧ X.PASS_EXT_COMBINED ≠ X.PASS_EXT_OBJ_INDEX ∧ X.PASS_EXT_COMBINED ≠ X.PASS_EXT_MAT_INDEX
      ∧ X.PASS_EXT_Z_DEPTH ≠ X.PASS_EXT_VECTOR ∧ X.PASS_EXT_Z_DEPTH ≠ X.PASS_EXT_COLOR
      ∧ X.PASS_EXT_VECTOR ≠ X.PASS_EXT_MIST ∧ X.PASS_EXT_VECTOR ≠ X.PASS_EXT_OBJ_INDEX
      ∧ X.PASS_EXT_VECTOR ≠ X.PASS_EXT_MAT_INDEX ∧ X.PASS_EXT_COLOR ≠ X.PASS_EXT_MIST
      ∧ X.PASS_EXT_COLOR ≠ X.PASS_EXT_OBJ_INDEX ∧ X.PASS_EXT_COLOR ≠ X.PASS_EXT_MAT_INDEX := by
  have hlen : X.kinds.length = 30 := rfl
  exact ⟨ext_kinds_distinct X hX 0 1 (by omega) (by omega) (by omega),
    ext_kinds_distinct X hX 0 7 (by omega) (by omega) (by omega),
    ext_kinds_distinct X hX 0 16 (by omega) (by omega) (by omega),
    ext_kinds_distinct X hX 0 17 (by omega) (by omega) (by omega),
    ext_kinds_distinct X hX 1 2 (by omega) (by omega) (by omega),
    ext_kinds_distinct X hX 1 5 (by omega) (by omega) (by omega),
    ext_kinds_distinct X hX 2 7 (by omega) (by omega) (by omega),
    ext_kinds_distinct X hX 2 16 (by omega) (by omega) (by omega),
    ext_kinds_distinct X hX 2 17 (by omega) (by omega) (by omega),
    ext_kinds_distinct X hX 5 7 (by omega) (by omega) (by omega),
    ext_kinds_distinct X hX 5 16 (by omega) (by omega) (by omega),
    ext_kinds_distinct X hX 5 17 (by omega) (by omega) (by omega)⟩

set_option maxHeartbeats 2000000 in
/-- C21: the tile type of `extPass_t(extKind, intKind)` depends on `extKind` alone: it is the
1-channel grayscale tile exactly for Depth, Mist, ObjectIndex and MaterialIndex, the
4-channel RGBA tile exactly for Combined, Vector and Color, and the 3-channel RGB tile for
every other external kind. -/
theorem tile_type_table (X : extPassTypes_t) (hX : X.Enumerated) (hT : X.TilesDistinct)
    (extKind intKind : Int) :
    ((extPass_t.ctor X extKind intKind).externalTyleType = X.PASS_EXT_TILE_1_GRAYSCALE
        ↔ (extKind = X.PASS_EXT_Z_DEPTH ∨ extKind = X.PASS_EXT_MIST
            ∨ extKind = X.PASS_EXT_OBJ_INDEX ∨ extKind = X.PASS_EXT_MAT_INDEX))
      ∧ ((extPass_t.ctor X extKind intKind).externalTyleType = X.PASS_EXT_TILE_4_RGBA
        ↔ (extKind = X.PASS_EXT_COMBINED ∨ extKind = X.PASS_EXT_VECTOR
            ∨ extKind = X.PASS_EXT_COLOR))
      ∧ ((extPass_t.ctor X extKind intKind).externalTyleType = X.PASS_EXT_TILE_3_RGB
        ↔ ¬ (extKind = X.PASS_EXT_Z_DEPTH ∨ extKind = X.PASS_EXT_MIST
            ∨ extKind = X.PASS_EXT_OBJ_INDEX ∨ extKind = X.PASS_EXT_MAT_INDEX
            ∨ extKind = X.PASS_EXT_COMBINED ∨ extKind = X.PASS_EXT_VECTOR
            ∨ extKind = X.PASS_EXT_COLOR))
      ∧ (∀ otherIntKind : Int, (extPass_t.ctor X extKind otherIntKind).externalTyleType
          = (extPass_t.ctor X extKind intKind).externalTyleType) := by
  obtain ⟨d01, d07, d016, d017, d12, d15, d27, d216, d217, d57, d516, d517⟩ :=
    tile_labels_distinct X hX
  obtain ⟨t13, t14, t34⟩ := hT
  clear hX
  have s01 := d01.symm
  have s07 := d07.symm
  have s016 := d016.symm
  have s017 := d017.symm
  have s12 := d12.symm
  have s15 := d15.symm
  have s27 := d27.symm
  have s216 := d216.symm
  have s217 := d217.symm
  have s57 := d57.symm
  have s516 := d516.symm
  have s517 := d517.symm
  have u13 := t13.symm
  have u14 := t14.symm
  have u34 := t34.symm
  refine ⟨?_, ?_, ?_, fun _ => rfl⟩
  · simp only [extPass_t.ctor]
    split_ifs <;> simp_all
  · simp only [extPass_t.ctor]
    split_ifs <;> simp_all
  · simp only [extPass_t.ctor]
    split_ifs <;> simp_all

theorem tile_type_table_witness :
    sampleExtPassTypes.Enumerated ∧ sampleExtPassTypes.TilesDistinct
      ∧ ((extPass_t.ctor sampleExtPassTypes 7 35).externalTyleType
            = sampleExtPassTypes.PASS_EXT_TILE_1_GRAYSCALE
          ↔ ((7 : Int) = sampleExtPassTypes.PASS_EXT_Z_DEPTH
              ∨ (7 : Int) = sampleExtPassTypes.PASS_EXT_MIST
              ∨ (7 : Int) = sampleExtPassTypes.PASS_EXT_OBJ_INDEX
              ∨ (7 : Int) = sampleExtPassTypes.PASS_EXT_MAT_INDEX)) :=
  ⟨by decide, by decide,
    (tile_type_table sampleExtPassTypes (by decide) (by decide) 7 35).1⟩

/-! ## Division of a colour by a scalar -/

/-- C24: for `maxValue > 0` and `L = max(R,G,B) > maxValue`, `clampProportionalRGB(maxValue)`
multiplies every channel by `maxValue / L` in exact arithmetic: the channel that was
largest becomes exactly `maxValue`, the largest channel of the result is `maxValue`, and the
ratio between any two channels is unchanged. -/
theorem clampProportionalRGB_scales {F : Type} [LinearOrderedField F] (c : colorOf F)
    (maxValue : F) (hpos : 0 < maxValue) (hL : maxValue < max c.R (max c.G c.B)) :
    (color_t.clampProportionalRGB c maxValue).R = c.R * (maxValue / max c.R (max c.G c.B))
      ∧ (color_t.clampProportionalRGB c maxValue).G
          = c.G * (maxValue / max c.R (max c.G c.B))
      ∧ (color_t.clampProportionalRGB c maxValue).B
          = c.B * (maxValue / max c.R (max c.G c.B))
      ∧ (c.R = max c.R (max c.G c.B) → (color_t.clampProportionalRGB c maxValue).R = maxValue)
      ∧ (c.G = max c.R (max c.G c.B) → (color_t.clampProportionalRGB c maxValue).G = maxValue)
      ∧ (c.B = max c.R (max c.G c.B) → (color_t.clampProportionalRGB c maxValue).B = maxValue)
      ∧ max (color_t.clampProportionalRGB c maxValue).R
          (max (color_t.clampProportionalRGB c maxValue).G
            (color_t.clampProportionalRGB c maxValue).B) = maxValue
      ∧ (color_t.clampProportionalRGB c maxValue).R * c.G
          = (color_t.clampProportionalRGB c maxValue).G * c.R
      ∧ (color_t.clampProportionalRGB c maxValue).R * c.B
          = (color_t.clampProportionalRGB c maxValue).B * c.R
      ∧ (color_t.clampProportionalRGB c maxValue).G * c.B
          = (color_t.clampProportionalRGB c maxValue).B * c.G := by
  obtain ⟨L, hLdef⟩ : ∃ L, L = max c.R (max c.G c.B) := ⟨_, rfl⟩
  rw [← hLdef] at hL ⊢
  have hLpos : 0 < L := lt_trans hpos hL
  have hLne : L ≠ 0 := ne_of_gt hLpos
  have hmul : L * (maxValue / L) = maxValue := by field_simp
  have hadj : 0 < maxValue / L := div_pos hpos hLpos
  have hRle : c.R ≤ L := by rw [hLdef]; exact le_max_left _ _
  have hGle : c.G ≤ L := by rw [hLdef]; exact le_trans (le_max_left _ _) (le_max_right _ _)
  have hBle : c.B ≤ L := by rw [hLdef]; exact le_trans (le_max_right _ _) (le_max_right _ _)
  have hscaled : (color_t.clampProportionalRGB c maxValue).R = c.R * (maxValue / L)
      ∧ (color_t.clampProportionalRGB c maxValue).G = c.G * (maxValue / L)
      ∧ (color_t.clampProportionalRGB c maxValue).B = c.B * (maxValue / L) := by
    unfold color_t.clampProportionalRGB
    simp only [gt_iff_lt, hpos, if_true, ← hLdef, hL, ge_iff_le]
    by_cases hR : L ≤ c.R
    · have hR2 : c.R = L := le_antisymm hRle hR
      rw [if_pos hR]
      exact ⟨by show maxValue = c.R * (maxValue / L); rw [hR2, hmul], rfl, rfl⟩
    · rw [if_neg hR]
      by_cases hG : L ≤ c.G
      · have hG2 : c.G = L := le_antisymm hGle hG
        rw [if_pos hG]
        exact ⟨rfl, by show maxValue = c.G * (maxValue / L); rw [hG2, hmul], rfl⟩
      · have hB : c.B = L := by
          rcases max_choice c.R (max c.G c.B) with h1 | h1
          · exact absurd (le_of_eq (hLdef.trans h1)) hR
          · rcases max_choice c.G c.B with h2 | h2
            · exact absurd (le_of_eq (hLdef.trans (h1.trans h2))) hG
            · exact (hLdef.trans (h1.trans h2)).symm
        rw [if_neg hG]
        exact ⟨rfl, rfl, by show maxValue = c.B * (maxValue / L); rw [hB, hmul]⟩
  obtain ⟨hR', hG', hB'⟩ := hscaled
  refine ⟨hR', hG', hB', ?_, ?_, ?_, ?_, ?_, ?_, ?_⟩
  · intro h; rw [hR', h, hmul]
  · intro h; rw [hG', h, hmul]
  · intro h; rw [hB', h, hmul]
  · rw [hR', hG', hB', ← max_mul_of_nonneg _ _ (le_of_lt hadj),
      ← max_mul_of_nonneg _ _ (le_of_lt hadj), ← hLdef, hmul]
  · rw [hR', hG']; ring
  · rw [hR', hB']; ring
  · rw [hG', hB']; ring

theorem clampProportionalRGB_scales_witness :
    (0 : CFLOAT) < 1 ∧ (1 : CFLOAT) < max 4 (max 2 1)
      ∧ (color_t.clampProportionalRGB ({ R := 4, G := 2, B := 1 } : colorOf CFLOAT) 1).R
          = 4 * (1 / max 4 (max 2 1))
      ∧ (color_t.clampProportionalRGB ({ R := 4, G := 2, B := 1 } : colorOf CFLOAT) 1).G
          = 2 * (1 / max 4 (max 2 1)) :=
  ⟨by norm_num, by norm_num,
    (clampProportionalRGB_scales ({ R := 4, G := 2, B := 1 } : colorOf CFLOAT) 1
      (by norm_num) (by norm_num)).1,
    (clampProportionalRGB_scales ({ R := 4, G := 2, B := 1 } : colorOf CFLOAT) 1
      (by norm_num) (by norm_num)).2.1⟩

/-- C25: `clampProportionalRGB(maxValue)` leaves R, G and B unchanged when `maxValue <= 0`,
and when `maxValue > 0` and `max(R,G,B) <= maxValue`, also for `max(R,G,B) == 0`, where the
quotient by the largest channel is computed but not used. -/
theorem clampProportionalRGB_unchanged {F : Type} [LinearOrderedField F] (c : colorOf F)
    (maxValue : F) (h : maxValue ≤ 0 ∨ (0 < maxValue ∧ max c.R (max c.G c.B) ≤ maxValue)) :
    color_t.clampProportionalRGB c maxValue = c := by
  unfold color_t.clampProportionalRGB
  rcases h with h | ⟨h1, h2⟩
  · have : ¬ maxValue > 0 := not_lt.2 h
    simp only [this, if_false]
  · have : ¬ max c.R (max c.G c.B) > maxValue := not_lt.2 h2
    simp only [gt_iff_lt, h1, if_true, this, if_false]

theorem clampProportionalRGB_unchanged_witness :
    ((1 : CFLOAT) ≤ 0 ∨ ((0 : CFLOAT) < 1 ∧ max (0 : CFLOAT) (max 0 0) ≤ 1))
      ∧ color_t.clampProportionalRGB ({ R := 0, G := 0, B := 0 } : colorOf CFLOAT) 1
          = { R := 0, G := 0, B := 0 } :=
  ⟨Or.inr ⟨by norm_num, by norm_num⟩,
    clampProportionalRGB_unchanged ({ R := 0, G := 0, B := 0 } : colorOf CFLOAT) 1
      (Or.inr ⟨by norm_num, by norm_num⟩)⟩

/-! ## Colour spaces: XYZ D65 and manual gamma -/

theorem xyz_round_trip_channels {F : Type} [LinearOrderedField F] (fPow : F → F → F)
    (c : colorOf F) (g1 g2 : F) :
    (color_t.linearRGB_from_ColorSpace fPow
        (color_t.ColorSpace_from_linearRGB fPow c colorSpaces_t.XYZ_D65 g1)
        colorSpaces_t.XYZ_D65 g2).R - c.R
        = (171 / 50000000000) * c.R + (-149 / 12500000000) * c.G + (17 / 20000000000) * c.B
      ∧ (color_t.linearRGB_from_ColorSpace fPow
        (color_t.ColorSpace_from_linearRGB fPow c colorSpaces_t.XYZ_D65 g1)
        colorSpaces_t.XYZ_D65 g2).G - c.G
        = (1393 / 100000000000) * c.R + (19 / 625000000) * c.G + (-859 / 50000000000) * c.B
      ∧ (color_t.linearRGB_from_ColorSpace fPow
        (color_t.ColorSpace_from_linearRGB fPow c colorSpaces_t.XYZ_D65 g1)
        colorSpaces_t.XYZ_D65 g2).B - c.B
        = (-79 / 4000000000) * c.R + (-149 / 3125000000) * c.G
          + (-2371 / 50000000000) * c.B := by
  simp only [color_t.linearRGB_from_ColorSpace, color_t.ColorSpace_from_linearRGB,
    linearRGB_from_XYZ_D65, XYZ_D65_from_linearRGB, reduceCtorEq, if_false, if_true]
  simp only [Matrix.of_apply, Matrix.cons_val', Matrix.cons_val_zero, Matrix.cons_val_one,
    Matrix.cons_val_two, Matrix.head_cons, Matrix.empty_val', Matrix.cons_val_fin_one,
    Matrix.tail_cons, Matrix.vecHead, Matrix.vecTail, Function.comp]
  refine ⟨?_, ?_, ?_⟩ <;> norm_num <;> ring

/-- C27: the product `linearRGB_from_XYZ_D65` times `XYZ_D65_from_linearRGB` is the 3x3
identity within 1e-6 per entry, in exact arithmetic, and for every colour
`ColorSpace_from_linearRGB(XYZ_D65)` followed by `linearRGB_from_ColorSpace(XYZ_D65)` gives
back each channel up to 1e-6 times the largest absolute value of the three channels. -/
theorem xyz_matrices_inverse :
    (∀ i j : Fin 3,
      |(@linearRGB_from_XYZ_D65 ℚ _ * @XYZ_D65_from_linearRGB ℚ _ : Matrix (Fin 3) (Fin 3) ℚ) i j
          - (1 : Matrix (Fin 3) (Fin 3) ℚ) i j| ≤ 1 / 1000000)
      ∧ (∀ (fPow : ℚ → ℚ → ℚ) (c : colorOf ℚ) (g1 g2 : ℚ),
          |(color_t.linearRGB_from_ColorSpace fPow
              (color_t.ColorSpace_from_linearRGB fPow c colorSpaces_t.XYZ_D65 g1)
              colorSpaces_t.XYZ_D65 g2).R - c.R|
              ≤ 1 / 1000000 * max |c.R| (max |c.G| |c.B|)
            ∧ |(color_t.linearRGB_from_ColorSpace fPow
              (color_t.ColorSpace_from_linearRGB fPow c colorSpaces_t.XYZ_D65 g1)
              colorSpaces_t.XYZ_D65 g2).G - c.G|
              ≤ 1 / 1000000 * max |c.R| (max |c.G| |c.B|)
            ∧ |(color_t.linearRGB_from_ColorSpace fPow
              (color_t.ColorSpace_from_linearRGB fPow c colorSpaces_t.XYZ_D65 g1)
              colorSpaces_t.XYZ_D65 g2).B - c.B|
              ≤ 1 / 1000000 * max |c.R| (max |c.G| |c.B|)) := by
  constructor
  · intro i j
    fin_cases i <;> fin_cases j <;>
      simp [Matrix.mul_apply, Fin.sum_univ_three, linearRGB_from_XYZ_D65,
        XYZ_D65_from_linearRGB, Matrix.vecHead, Matrix.vecTail] <;>
      norm_num [abs_le]
  · intro fPow c g1 g2
    obtain ⟨hR, hG, hB⟩ := xyz_round_trip_channels fPow c g1 g2
    rw [hR, hG, hB]
    obtain ⟨M, hM⟩ : ∃ M, M = max |c.R| (max |c.G| |c.B|) := ⟨_, rfl⟩
    rw [← hM]
    have h1 : |c.R| ≤ M := by rw [hM]; exact le_max_left _ _
    have h2 : |c.G| ≤ M := by rw [hM]; exact le_trans (le_max_left _ _) (le_max_right _ _)
    have h3 : |c.B| ≤ M := by rw [hM]; exact le_trans (le_max_right _ _) (le_max_right _ _)
    obtain ⟨r1, r2⟩ := abs_le.1 h1
    obtain ⟨g1', g2'⟩ := abs_le.1 h2
    obtain ⟨b1, b2⟩ := abs_le.1 h3
    refine ⟨abs_le.2 ⟨?_, ?_⟩, abs_le.2 ⟨?_, ?_⟩, abs_le.2 ⟨?_, ?_⟩⟩ <;> linarith

/-- C28: with `fPow` the real power function, a gamma in (0, 5] and a colour with
non-negative channels, `ColorSpace_from_linearRGB` for `RAW_MANUAL_GAMMA` followed by
`linearRGB_from_ColorSpace` for `RAW_MANUAL_GAMMA` with the same gamma returns the original
colour; for gamma different from 1 the first raises every channel to `1 / gamma` and the
second raises every channel to `gamma`, and for gamma equal to 1 both leave the colour
unchanged. -/
theorem manual_gamma_round_trip (c : colorOf ℝ) (gamma : ℝ) (hg : 0 < gamma)
    (_hg5 : gamma ≤ 5) (hR : 0 ≤ c.R) (hG : 0 ≤ c.G) (hB : 0 ≤ c.B) :
    color_t.linearRGB_from_ColorSpace (fun x y : ℝ => x ^ y)
        (color_t.ColorSpace_from_linearRGB (fun x y : ℝ => x ^ y) c
          colorSpaces_t.RAW_MANUAL_GAMMA gamma)
        colorSpaces_t.RAW_MANUAL_GAMMA gamma = c
      ∧ (gamma ≠ 1 →
          color_t.ColorSpace_from_linearRGB (fun x y : ℝ => x ^ y) c
              colorSpaces_t.RAW_MANUAL_GAMMA gamma
            = { R := c.R ^ (1 / gamma), G := c.G ^ (1 / gamma), B := c.B ^ (1 / gamma) }
          ∧ color_t.linearRGB_from_ColorSpace (fun x y : ℝ => x ^ y) c
              colorSpaces_t.RAW_MANUAL_GAMMA gamma
            = { R := c.R ^ gamma, G := c.G ^ gamma, B := c.B ^ gamma })
      ∧ (gamma = 1 →
          color_t.ColorSpace_from_linearRGB (fun x y : ℝ => x ^ y) c
              colorSpaces_t.RAW_MANUAL_GAMMA gamma = c
          ∧ color_t.linearRGB_from_ColorSpace (fun x y : ℝ => x ^ y) c
              colorSpaces_t.RAW_MANUAL_GAMMA gamma = c) := by
  have hne : gamma ≠ 0 := ne_of_gt hg
  have hpos : ¬ gamma ≤ 0 := not_le.2 hg
  have hrt : ∀ x : ℝ, 0 ≤ x → (x ^ (1 / gamma)) ^ gamma = x := by
    intro x hx
    rw [← Real.rpow_mul hx, one_div, inv_mul_cancel₀ hne, Real.rpow_one]
  refine ⟨?_, ?_, ?_⟩
  · by_cases h1 : gamma = 1
    · simp only [color_t.linearRGB_from_ColorSpace, color_t.ColorSpace_from_linearRGB,
        reduceCtorEq, if_false, h1, ne_eq, not_true_eq_false, and_false]
    · simp only [color_t.linearRGB_from_ColorSpace, color_t.ColorSpace_from_linearRGB,
        reduceCtorEq, if_false, ne_eq, h1, not_false_eq_true, and_self, if_true, hpos,
        color_t.gammaAdjust, hrt c.R hR, hrt c.G hG, hrt c.B hB]
  · intro h1
    constructor
    · simp only [color_t.ColorSpace_from_linearRGB, reduceCtorEq, if_false, ne_eq, h1,
        not_false_eq_true, and_self, if_true, hpos, color_t.gammaAdjust]
    · simp only [color_t.linearRGB_from_ColorSpace, reduceCtorEq, if_false, ne_eq, h1,
        not_false_eq_true, and_self, if_true, color_t.gammaAdjust]
  · intro h1
    constructor
    · simp only [color_t.ColorSpace_from_linearRGB, reduceCtorEq, if_false, h1, ne_eq,
        not_true_eq_false, and_false]
    · simp only [color_t.linearRGB_from_ColorSpace, reduceCtorEq, if_false, h1, ne_eq,
        not_true_eq_false, and_false]

theorem manual_gamma_round_trip_witness :
    color_t.linearRGB_from_ColorSpace (fun x y : ℝ => x ^ y)
        (color_t.ColorSpace_from_linearRGB (fun x y : ℝ => x ^ y) { R := 4, G := 1, B := 0 }
          colorSpaces_t.RAW_MANUAL_GAMMA 2)
        colorSpaces_t.RAW_MANUAL_GAMMA 2 = { R := 4, G := 1, B := 0 } :=
  (manual_gamma_round_trip { R := 4, G := 1, B := 0 } 2 (by norm_num) (by norm_num)
    (by norm_num) (by norm_num) (by norm_num)).1

/-- C29: for every colour, every `fPow` and every gamma that is zero or negative,
`ColorSpace_from_linearRGB` for `RAW_MANUAL_GAMMA` gives the same result as with gamma 0.01:
every channel is raised to `1 / 0.01`, and the divisor 0.01 is not zero. -/
theorem manual_gamma_nonpositive_clamped {F : Type} [LinearOrderedField F]
    (fPow : F → F → F) (c : colorOf F) (gamma : F) (hg : gamma ≤ 0) :
    color_t.ColorSpace_from_linearRGB fPow c colorSpaces_t.RAW_MANUAL_GAMMA gamma
        = color_t.ColorSpace_from_linearRGB fPow c colorSpaces_t.RAW_MANUAL_GAMMA 0.01
      ∧ color_t.ColorSpace_from_linearRGB fPow c colorSpaces_t.RAW_MANUAL_GAMMA gamma
        = color_t.gammaAdjust fPow c (1 / 0.01)
      ∧ (0.01 : F) ≠ 0 := by
  have h1 : gamma ≠ 1 := by
    intro h
    rw [h] at hg
    exact absurd hg (not_le.2 one_pos)
  have h01 : (0.01 : F) ≠ 1 := by norm_num
  have hp : ¬ (0.01 : F) ≤ 0 := by norm_num
  have hz : (0.01 : F) ≠ 0 := by norm_num
  refine ⟨?_, ?_, hz⟩
  · simp only [color_t.ColorSpace_from_linearRGB, reduceCtorEq, if_false, ne_eq, h1,
      not_false_eq_true, and_self, if_true, hg, h01, hp]
  · simp only [color_t.ColorSpace_from_linearRGB, reduceCtorEq, if_false, ne_eq, h1,
      not_false_eq_true, and_self, if_true, hg]

theorem manual_gamma_nonpositive_clamped_witness :
    color_t.ColorSpace_from_linearRGB (fun x y : ℚ => x * y) { R := 1, G := 2, B := 3 }
        colorSpaces_t.RAW_MANUAL_GAMMA (-1)
      = color_t.ColorSpace_from_linearRGB (fun x y : ℚ => x * y) { R := 1, G := 2, B := 3 }
        colorSpaces_t.RAW_MANUAL_GAMMA 0.01 :=
  (manual_gamma_nonpositive_clamped (fun x y : ℚ => x * y) { R := 1, G := 2, B := 3 } (-1)
    (by norm_num)).1

/-! ## Exposure and gamma adjustment -/

/-- C30, counterexample: with `fExp` the real exponential, exposure 1 and gamma 1, the
channel 1 of the colour (1, 1, 1) becomes `1 - exp (1 * 1)`, which is not
`1 - exp (-(max 1 0) * 1)`. -/
theorem expgam_Adjust_exponent_not_negated :
    (color_t.expgam_Adjust Real.exp (fun x y : ℝ => x ^ y) { R := 1, G := 1, B := 1 } 1 1
        false).R
      ≠ 1 - Real.exp (-(max 1 0) * 1) := by
  have hR : (color_t.expgam_Adjust Real.exp (fun x y : ℝ => x ^ y)
      { R := 1, G := 1, B := 1 } 1 1 false).R = 1 - Real.exp (1 * 1) := by
    simp [color_t.expgam_Adjust, color_t.clampRGB0]
  rw [hR]
  intro h
  have h2 : Real.exp (1 * 1) = Real.exp (-(max 1 0) * 1) := by linarith
  have h3 := Real.exp_injective h2
  norm_num at h3

/-- C30, amended: for every colour, every exposure `e` different from 0 and gamma 1, whatever
the clamp flag, `expgam_Adjust` turns each channel `v` into `1 - fExp (max v 0 * e)`: the
negative channels are first set to 0, and `fExp` is applied to the product of the channel and
the exposure, without a change of sign. -/
theorem expgam_Adjust_exposure_only {F : Type} [LinearOrderedField F] (fExp : F → F)
    (fPow : F → F → F) (c : colorOf F) (e : F) (clamp_rgb : Bool) (he : e ≠ 0) :
    color_t.expgam_Adjust fExp fPow c e 1 clamp_rgb
      = { R := 1 - fExp (max c.R 0 * e)
          G := 1 - fExp (max c.G 0 * e)
          B := 1 - fExp (max c.B 0 * e) } := by
  have hmax : ∀ v : F, (if v < 0 then 0 else v) = max v 0 := by
    intro v
    by_cases hv : v < 0
    · rw [if_pos hv, max_eq_right (le_of_lt hv)]
    · rw [if_neg hv, max_eq_left (not_lt.1 hv)]
  simp only [color_t.expgam_Adjust, color_t.clampRGB0, he, false_and, if_false, ne_eq,
    not_false_eq_true, if_true, not_true_eq_false, hmax]

theorem expgam_Adjust_exposure_only_witness :
    color_t.expgam_Adjust (fun x : ℚ => x + 1) (fun x y : ℚ => x * y)
        { R := 2, G := -1, B := 0 } 3 1 true
      = { R := 1 - (max 2 0 * 3 + 1), G := 1 - (max (-1) 0 * 3 + 1),
          B := 1 - (max 0 0 * 3 + 1) } :=
  expgam_Adjust_exposure_only (fun x : ℚ => x + 1) (fun x y : ℚ => x * y)
    { R := 2, G := -1, B := 0 } 3 true (by norm_num)

/-! ## The reverse maps of names -/

theorem map_find_mem {K V : Type} [DecidableEq K] :
    ∀ (m : List (K × V)) (k : K) (v : V), map_find m k = some v → (k, v) ∈ m := by
  intro m
  induction m with
  | nil => intro k v h; simp [map_find] at h
  | cons p rest ih =>
    intro k v h
    obtain ⟨k1, v1⟩ := p
    simp only [map_find] at h
    by_cases hk : k = k1
    · rw [if_pos hk] at h
      have hv : v1 = v := Option.some.inj h
      rw [hk, ← hv]
      exact List.mem_cons_self _ _
    · rw [if_neg hk] at h
      exact List.mem_cons_of_mem _ (ih k v h)

theorem map_mem_find {K V : Type} [DecidableEq K] :
    ∀ (m : List (K × V)), (m.map Prod.fst).Nodup →
      ∀ (k : K) (v : V), (k, v) ∈ m → map_find m k = some v := by
  intro m
  induction m with
  | nil => intro _ k v h; simp at h
  | cons p rest ih =>
    intro hN k v h
    obtain ⟨k1, v1⟩ := p
    simp only [List.map_cons, List.nodup_cons] at hN
    simp only [map_find]
    rcases List.mem_cons.1 h with h1 | h1
    · have hk : k = k1 := congrArg Prod.fst h1
      have hv : v = v1 := congrArg Prod.snd h1
      rw [if_pos hk, hv]
    · have hk : k ≠ k1 := by
        intro hk
        apply hN.1
        rw [← hk]
        exact List.mem_map.2 ⟨(k, v), h1, rfl⟩
      rw [if_neg hk]
      exact ih hN.2 k v h1

theorem map_assign_keys {K V W : Type} [DecidableEq K] (less : K → K → Bool) :
    ∀ (m1 : List (K × V)) (m2 : List (K × W)) (k : K) (v : V) (w : W),
      m1.map Prod.fst = m2.map Prod.fst →
      (map_assign less m1 k v).map Prod.fst = (map_assign less m2 k w).map Prod.fst := by
  intro m1
  induction m1 with
  | nil =>
    intro m2 k v w h
    cases m2 with
    | nil => rfl
    | cons q r => simp at h
  | cons p rest ih =>
    intro m2 k v w h
    cases m2 with
    | nil => simp at h
    | cons q r =>
      obtain ⟨k1, v1⟩ := p
      obtain ⟨k2, w2⟩ := q
      simp only [List.map_cons, List.cons.injEq] at h
      obtain ⟨hk, hr⟩ := h
      rw [← hk]
      simp only [map_assign]
      by_cases h1 : k = k1
      · simp only [h1, if_true, List.map_cons, hr]
      · simp only [h1, if_false]
        by_cases h2 : less k k1 = true
        · rw [if_pos h2, if_pos h2]
          simp only [List.map_cons, hr]
        · rw [if_neg h2, if_neg h2]
          simp only [List.map_cons, ih r k v w hr]

theorem map_assign_all_keys :
    ∀ (l1 l2 m1 m2 : List (String × Int)), l1.map Prod.fst = l2.map Prod.fst →
      m1.map Prod.fst = m2.map Prod.fst →
      (map_assign_all m1 l1).map Prod.fst = (map_assign_all m2 l2).map Prod.fst := by
  intro l1
  induction l1 with
  | nil =>
    intro l2 m1 m2 hl hm
    cases l2 with
    | nil => exact hm
    | cons q r => simp at hl
  | cons p rest ih =>
    intro l2 m1 m2 hl hm
    cases l2 with
    | nil => simp at hl
    | cons q r =>
      simp only [List.map_cons, List.cons.injEq] at hl
      obtain ⟨hk, hr⟩ := hl
      simp only [map_assign_all, List.foldl_cons]
      have h := ih r (map_assign string_less m1 p.1 p.2) (map_assign string_less m2 q.1 q.2) hr
        (by rw [hk]; exact map_assign_keys string_less m1 m2 q.1 p.2 q.2 hm)
      simp only [map_assign_all] at h
      exact h

theorem map_reverse_into_some :
    ∀ (m : List (String × Int)) (r : List (Int × String)) (k : Int) (n : String),
      map_find (map_reverse_into r m) k = some n → (n, k) ∈ m ∨ map_find r k = some n := by
  intro m
  induction m with
  | nil => intro r k n h; exact Or.inr h
  | cons p rest ih =>
    intro r k n h
    simp only [map_reverse_into, List.foldl_cons] at h
    rcases ih (map_assign int_less r p.2 p.1) k n h with h1 | h1
    · exact Or.inl (List.mem_cons_of_mem _ h1)
    · rw [map_find_assign] at h1
      by_cases hk : k = p.2
      · simp only [hk, if_true, Option.some.injEq] at h1
        left
        rw [hk, ← h1]
        exact List.mem_cons_self _ _
      · simp only [hk, if_false] at h1
        exact Or.inr h1

theorem map_reverse_into_isSome :
    ∀ (m : List (String × Int)) (r : List (Int × String)) (k : Int),
      (k ∈ m.map Prod.snd ∨ (map_find r k).isSome = true) →
      (map_find (map_reverse_into r m) k).isSome = true := by
  intro m
  induction m with
  | nil =>
    intro r k h
    rcases h with h | h
    · simp at h
    · exact h
  | cons p rest ih =>
    intro r k h
    simp only [map_reverse_into, List.foldl_cons]
    apply ih (map_assign int_less r p.2 p.1) k
    rw [map_find_assign]
    by_cases hk : k = p.2
    · right
      simp only [hk, if_true, Option.isSome_some]
    · simp only [hk, if_false]
      rcases h with h | h
      · simp only [List.map_cons, List.mem_cons] at h
        rcases h with h | h
        · exact absurd h hk
        · exact Or.inl h
      · exact Or.inr h

theorem reverse_map_inverse (m : List (String × Int)) (hN : (m.map Prod.fst).Nodup)
    (hinj : ∀ (n1 n2 : String) (k : Int),
      map_find m n1 = some k → map_find m n2 = some k → n1 = n2) :
    (∀ (n : String) (k : Int),
        map_find m n = some k → map_find (map_reverse_into [] m) k = some n)
      ∧ (∀ (k : Int) (n : String),
        map_find (map_reverse_into [] m) k = some n → map_find m n = some k) := by
  have hback : ∀ (k : Int) (n : String),
      map_find (map_reverse_into [] m) k = some n → map_find m n = some k := by
    intro k n h
    rcases map_reverse_into_some m [] k n h with h1 | h1
    · exact map_mem_find m hN n k h1
    · simp [map_find] at h1
  refine ⟨?_, hback⟩
  intro n k h
  have hmem : k ∈ m.map Prod.snd := List.mem_map.2 ⟨(n, k), map_find_mem m n k h, rfl⟩
  have hsome := map_reverse_into_isSome m [] k (Or.inl hmem)
  obtain ⟨n1, hn1⟩ := Option.isSome_iff_exists.1 hsome
  have h1 := hback k n1 hn1
  rw [hn1, hinj n1 n k h1 h]

theorem int_names_closed (E : intPassTypes_t) :
    (renderPasses_t.int_assignments E).map Prod.fst
      = (renderPasses_t.int_assignments samplePassTypes).map Prod.fst := rfl

set_option maxRecDepth 100000 in
theorem ext_map_keys_nodup (X : extPassTypes_t) :
    ((map_assign_all [] (renderPasses_t.ext_assignments X)).map Prod.fst).Nodup := by
  rw [map_assign_all_keys _ (renderPasses_t.ext_assignments sampleExtPassTypes) [] []
    (ext_names_closed X) rfl]
  decide

set_option maxRecDepth 100000 in
theorem int_map_keys_nodup (E : intPassTypes_t) :
    ((map_assign_all [] (renderPasses_t.int_assignments E)).map Prod.fst).Nodup := by
  rw [map_assign_all_keys _ (renderPasses_t.int_assignments samplePassTypes) [] []
    (int_names_closed E) rfl]
  decide

theorem int_find_injective (E : intPassTypes_t) (hE : E.Enumerated) (n1 n2 : String) (k : Int)
    (h1 : map_find (map_assign_all [] (renderPasses_t.int_assignments E)) n1 = some k)
    (h2 : map_find (map_assign_all [] (renderPasses_t.int_assignments E)) n2 = some k) :
    n1 = n2 := by
  have hsplit : renderPasses_t.int_assignments E
      = (renderPasses_t.int_assignments E).take 44
        ++ ([("debug-normal-smooth", E.PASS_INT_NORMAL_SMOOTH),
              ("debug-normal-geom", E.PASS_INT_NORMAL_GEOM)]
          ++ (renderPasses_t.int_assignments E).drop 46) := rfl
  have hkinds : ((renderPasses_t.int_assignments E).take 44
      ++ (renderPasses_t.int_assignments E).drop 46).map Prod.snd = E.kinds := rfl
  have h3 : ("debug-normal-smooth", E.PASS_INT_NORMAL_SMOOTH)
      ∈ (renderPasses_t.int_assignments E).take 44 := by
    simp [renderPasses_t.int_assignments]
  have h4 : ("debug-normal-geom", E.PASS_INT_NORMAL_GEOM)
      ∈ (renderPasses_t.int_assignments E).take 44 := by
    simp [renderPasses_t.int_assignments]
  have hmem : ∀ n : String, map_find (map_assign_all [] (renderPasses_t.int_assignments E)) n
      = some k → (n, k) ∈ (renderPasses_t.int_assignments E).take 44
        ++ (renderPasses_t.int_assignments E).drop 46 := by
    intro n h
    rcases map_find_assign_all_some _ _ n k h with h5 | h5
    · rw [hsplit] at h5
      rcases List.mem_append.1 h5 with h6 | h6
      · exact List.mem_append_left _ h6
      · rcases List.mem_append.1 h6 with h7 | h7
        · rcases List.mem_cons.1 h7 with h8 | h8
          · rw [h8]
            exact List.mem_append_left _ h3
          · rw [List.mem_singleton.1 h8]
            exact List.mem_append_left _ h4
        · exact List.mem_append_right _ h7
    · simp [map_find] at h5
  have hN : (((renderPasses_t.int_assignments E).take 44
      ++ (renderPasses_t.int_assignments E).drop 46).map Prod.snd).Nodup := by
    rw [hkinds]
    exact hE.2.2.2
  have := List.inj_on_of_nodup_map hN (hmem n1 h1) (hmem n2 h2) rfl
  exact congrArg Prod.fst this

theorem generate_pass_maps_reverse_fields (X : extPassTypes_t) (E : intPassTypes_t)
    (c : renderPasses_t) :
    (c.generate_pass_maps X E).extPassMapIntString
        = map_reverse_into c.extPassMapIntString
            (map_assign_all c.extPassMapStringInt (renderPasses_t.ext_assignments X))
      ∧ (c.generate_pass_maps X E).intPassMapIntString
        = map_reverse_into c.intPassMapIntString
            (map_assign_all c.intPassMapStringInt (renderPasses_t.int_assignments E)) := by
  simp only [renderPasses_t.generate_pass_maps, and_self]

theorem reachable_reverse_maps (X : extPassTypes_t) (E : intPassTypes_t) {c : renderPasses_t}
    (h : renderPasses_t.Reachable X E c) :
    c.extPassMapIntString
        = map_reverse_into [] (map_assign_all [] (renderPasses_t.ext_assignments X))
      ∧ c.intPassMapIntString
        = map_reverse_into [] (map_assign_all [] (renderPasses_t.int_assignments E)) := by
  induction h with
  | ctor =>
    unfold renderPasses_t.ctor
    obtain ⟨h2, h3⟩ := generate_pass_maps_reverse_fields X E
      { extPasses := [extPass_t.ctor X X.PASS_EXT_COMBINED E.PASS_INT_COMBINED]
        extPassMapStringInt := []
        extPassMapIntString := []
        intPassMapStringInt := []
        intPassMapIntString := [] }
    rw [h2, h3]
    simp only [and_self]
  | pass_add sExternalPass sInternalPass _ ih =>
    obtain ⟨_, h2, _, h4⟩ := pass_add_maps X E _ sExternalPass sInternalPass
    rw [h2, h4]
    exact ih

/-- C22: in every catalog that the constructor and calls of `pass_add` produce, the maps built
by `generate_pass_maps` are mutually inverse: a name that the external (respectively internal)
map of names sends to a kind `k` is what the reverse map gives for `k`, every kind of the
reverse map has a name that the map of names sends back to that kind, and no two registered
names share a kind. -/
theorem name_kind_maps_inverse (X : extPassTypes_t) (E : intPassTypes_t) (hX : X.Enumerated)
    (hE : E.Enumerated) (c : renderPasses_t) (hc : renderPasses_t.Reachable X E c) :
    (∀ (n : String) (k : Int),
        map_find c.extPassMapStringInt n = some k → map_find c.extPassMapIntString k = some n)
      ∧ (∀ (k : Int) (n : String),
        map_find c.extPassMapIntString k = some n → map_find c.extPassMapStringInt n = some k)
      ∧ (∀ (n : String) (k : Int),
        map_find c.intPassMapStringInt n = some k → map_find c.intPassMapIntString k = some n)
      ∧ (∀ (k : Int) (n : String),
        map_find c.intPassMapIntString k = some n → map_find c.intPassMapStringInt n = some k)
      ∧ (∀ (n1 n2 : String) (k : Int), map_find c.extPassMapStringInt n1 = some k →
        map_find c.extPassMapStringInt n2 = some k → n1 = n2)
      ∧ (∀ (n1 n2 : String) (k : Int), map_find c.intPassMapStringInt n1 = some k →
        map_find c.intPassMapStringInt n2 = some k → n1 = n2) := by
  obtain ⟨he, hi⟩ := reachable_maps X E hc
  obtain ⟨hre, hri⟩ := reachable_reverse_maps X E hc
  rw [he, hi, hre, hri]
  obtain ⟨h1, h2⟩ := reverse_map_inverse _ (ext_map_keys_nodup X) (ext_find_injective X hX)
  obtain ⟨h3, h4⟩ := reverse_map_inverse _ (int_map_keys_nodup E) (int_find_injective E hE)
  exact ⟨h1, h2, h3, h4, ext_find_injective X hX, int_find_injective E hE⟩

theorem name_kind_maps_inverse_witness :
    sampleExtPassTypes.Enumerated ∧ samplePassTypes.Enumerated
      ∧ (∀ (n : String) (k : Int),
        map_find (renderPasses_t.ctor sampleExtPassTypes samplePassTypes).extPassMapStringInt n
            = some k →
          map_find (renderPasses_t.ctor sampleExtPassTypes samplePassTypes).extPassMapIntString k
            = some n) :=
  ⟨by decide, by decide,
    (name_kind_maps_inverse sampleExtPassTypes samplePassTypes (by decide) (by decide)
      (renderPasses_t.ctor sampleExtPassTypes samplePassTypes)
      renderPasses_t.Reachable.ctor).1⟩

/-! ## Colour spaces: sRGB -/

theorem exp_neg_six_le : Real.exp (-6) ≤ 26 / 10000 := by
  have h1 : (27 / 10 : ℝ) ≤ Real.exp 1 := by
    have := Real.exp_one_gt_d9
    norm_num at this
    linarith
  have h6 : Real.exp 6 = Real.exp 1 ^ 6 := by
    rw [← Real.exp_nat_mul]
    norm_num
  have h2 : (27 / 10 : ℝ) ^ 6 ≤ Real.exp 6 := by
    rw [h6]
    exact pow_le_pow_left₀ (by norm_num) h1 6
  have h3 : (385 : ℝ) ≤ Real.exp 6 := le_trans (by norm_num) h2
  rw [Real.exp_neg]
  have h4 : (Real.exp 6)⁻¹ ≤ (385 : ℝ)⁻¹ := inv_anti₀ (by norm_num) h3
  exact le_trans h4 (by norm_num)

theorem rpow_srgb_lower (x c : ℝ) (hc : 0 ≤ c) (hx : 26 / 10000 ≤ x) (h : c ^ 12 ≤ x ^ 5) :
    c * (1 - 2 / 1000000) ≤ x ^ (0.416667 : ℝ) := by
  have hx0 : 0 < x := lt_of_lt_of_le (by norm_num) hx
  have hsplit : (0.416667 : ℝ) = 5 * (12 : ℝ)⁻¹ + 1 / 3000000 := by norm_num
  rw [hsplit, Real.rpow_add hx0, Real.rpow_mul (le_of_lt hx0)]
  have h5 : x ^ (5 : ℝ) = x ^ (5 : ℕ) := by exact_mod_cast Real.rpow_natCast x 5
  have hA : c ≤ (x ^ (5 : ℝ)) ^ ((12 : ℝ)⁻¹) := by
    calc c = (c ^ (12 : ℕ)) ^ (((12 : ℕ) : ℝ)⁻¹) :=
          (Real.pow_rpow_inv_natCast hc (by norm_num)).symm
      _ ≤ (x ^ (5 : ℕ)) ^ (((12 : ℕ) : ℝ)⁻¹) :=
          Real.rpow_le_rpow (by positivity) h (by positivity)
      _ = (x ^ (5 : ℝ)) ^ ((12 : ℝ)⁻¹) := by rw [h5]; norm_num
  have hlog : -6 ≤ Real.log x := by
    rw [Real.le_log_iff_exp_le hx0]
    exact le_trans exp_neg_six_le hx
  have hB : 1 - 2 / 1000000 ≤ x ^ ((1 : ℝ) / 3000000) := by
    rw [Real.rpow_def_of_pos hx0]
    have := Real.add_one_le_exp (Real.log x * (1 / 3000000))
    linarith
  exact mul_le_mul hA hB (by norm_num) (le_trans hc hA)

theorem rpow_srgb_near_one (x : ℝ) (hx0 : 0 < x) (hx1 : x ≤ 1) :
    |x ^ ((0.416667 : ℝ) * 2.4) - x| ≤ 1 / 1000000 := by
  have e2 : (0.416667 : ℝ) * 2.4 = 1 + 8 / 10000000 := by norm_num
  rw [e2, Real.rpow_add hx0, Real.rpow_one]
  have hle : x ^ ((8 : ℝ) / 10000000) ≤ 1 :=
    Real.rpow_le_one (le_of_lt hx0) hx1 (by norm_num)
  have hge : 1 + Real.log x * (8 / 10000000) ≤ x ^ ((8 : ℝ) / 10000000) := by
    rw [Real.rpow_def_of_pos hx0]
    have := Real.add_one_le_exp (Real.log x * (8 / 10000000))
    linarith
  have hlog : 1 - x⁻¹ ≤ Real.log x := Real.one_sub_inv_le_log_of_pos hx0
  have hxinv : x * x⁻¹ = 1 := mul_inv_cancel₀ (ne_of_gt hx0)
  have h1 : x * (1 - x⁻¹) ≤ x * Real.log x := mul_le_mul_of_nonneg_left hlog (le_of_lt hx0)
  have h2 : x * (1 + Real.log x * (8 / 10000000)) ≤ x * x ^ ((8 : ℝ) / 10000000) :=
    mul_le_mul_of_nonneg_left hge (le_of_lt hx0)
  have h3 : x * x ^ ((8 : ℝ) / 10000000) ≤ x * 1 := mul_le_mul_of_nonneg_left hle (le_of_lt hx0)
  rw [abs_le]
  constructor
  · nlinarith
  · linarith

theorem sRGB_round_trip_value (x : ℝ) (_h0 : 0 ≤ x) (h1 : x ≤ 1) :
    |color_t.linearRGB_from_sRGB (fun x y : ℝ => x ^ y)
        (color_t.sRGB_from_linearRGB (fun x y : ℝ => x ^ y) x) - x| ≤ 1 / 1000000 := by
  unfold color_t.sRGB_from_linearRGB
  by_cases hA : x ≤ 0.0031308
  · rw [if_pos hA]
    unfold color_t.linearRGB_from_sRGB
    have hv : x * 12.92 ≤ 0.04045 := by
      norm_num at hA ⊢
      linarith
    rw [if_pos hv]
    have hx : x * 12.92 / 12.92 = x := by norm_num
    rw [hx, sub_self, abs_zero]
    norm_num
  · rw [if_neg hA]
    have hA1 : (31308 / 10000000 : ℝ) < x := by
      norm_num at hA
      linarith
    have hx0 : 0 < x := lt_trans (by norm_num) hA1
    unfold color_t.linearRGB_from_sRGB
    by_cases hB : (1.055 * (fun x y : ℝ => x ^ y) x 0.416667 - 0.055 : ℝ) ≤ 0.04045
    · rw [if_pos hB]
      simp only [] at hB ⊢
      have h5 : (31308 / 10000000 : ℝ) ^ 5 ≤ x ^ 5 :=
        pow_le_pow_left₀ (by norm_num) (le_of_lt hA1) 5
      have hp := rpow_srgb_lower x (9047 / 100000) (by norm_num)
        (le_trans (by norm_num) (le_of_lt hA1)) (le_trans (by norm_num) h5)
      have hX1 : x ≤ 31312 / 10000000 := by
        by_contra hcon
        have hlt : (31312 / 10000000 : ℝ) < x := not_le.1 hcon
        have h6 : (31312 / 10000000 : ℝ) ^ 5 ≤ x ^ 5 :=
          pow_le_pow_left₀ (by norm_num) (le_of_lt hlt) 5
        have hq := rpow_srgb_lower x (90478 / 1000000) (by norm_num)
          (le_trans (by norm_num) (le_of_lt hlt)) (le_trans (by norm_num) h6)
        norm_num at hB hq
        linarith
      rw [abs_le]
      norm_num at hB hp ⊢
      constructor <;> linarith
    · rw [if_neg hB]
      simp only []
      have e1 : ((1.055 : ℝ) * x ^ (0.416667 : ℝ) - 0.055 + 0.055) / 1.055
          = x ^ (0.416667 : ℝ) := by
        rw [sub_add_cancel, mul_comm, mul_div_assoc, div_self (by norm_num), mul_one]
      rw [e1, ← Real.rpow_mul (le_of_lt hx0)]
      exact rpow_srgb_near_one x hx0 h1

/-- C26: with `fPow` the real power function, for every `x` in [0, 1] the value
`linearRGB_from_sRGB (sRGB_from_linearRGB x)` differs from `x` by at most 1e-6 in exact real
arithmetic, and for every colour with its three channels in [0, 1],
`ColorSpace_from_linearRGB` for `SRGB` followed by `linearRGB_from_ColorSpace` for `SRGB`
restores every channel within that bound. -/
theorem sRGB_round_trip (x : ℝ) (c : colorOf ℝ) (gamma1 gamma2 : ℝ) (hx0 : 0 ≤ x)
    (hx1 : x ≤ 1) (hR0 : 0 ≤ c.R) (hR1 : c.R ≤ 1) (hG0 : 0 ≤ c.G) (hG1 : c.G ≤ 1)
    (hB0 : 0 ≤ c.B) (hB1 : c.B ≤ 1) :
    |color_t.linearRGB_from_sRGB (fun x y : ℝ => x ^ y)
        (color_t.sRGB_from_linearRGB (fun x y : ℝ => x ^ y) x) - x| ≤ 1 / 1000000
      ∧ |(color_t.linearRGB_from_ColorSpace (fun x y : ℝ => x ^ y)
          (color_t.ColorSpace_from_linearRGB (fun x y : ℝ => x ^ y) c colorSpaces_t.SRGB
            gamma1) colorSpaces_t.SRGB gamma2).R - c.R| ≤ 1 / 1000000
      ∧ |(color_t.linearRGB_from_ColorSpace (fun x y : ℝ => x ^ y)
          (color_t.ColorSpace_from_linearRGB (fun x y : ℝ => x ^ y) c colorSpaces_t.SRGB
            gamma1) colorSpaces_t.SRGB gamma2).G - c.G| ≤ 1 / 1000000
      ∧ |(color_t.linearRGB_from_ColorSpace (fun x y : ℝ => x ^ y)
          (color_t.ColorSpace_from_linearRGB (fun x y : ℝ => x ^ y) c colorSpaces_t.SRGB
            gamma1) colorSpaces_t.SRGB gamma2).B - c.B| ≤ 1 / 1000000 := by
  simp only [color_t.linearRGB_from_ColorSpace, color_t.ColorSpace_from_linearRGB, if_true]
  exact ⟨sRGB_round_trip_value x hx0 hx1, sRGB_round_trip_value c.R hR0 hR1,
    sRGB_round_trip_value c.G hG0 hG1, sRGB_round_trip_value c.B hB0 hB1⟩

theorem sRGB_round_trip_witness :
    |color_t.linearRGB_from_sRGB (fun x y : ℝ => x ^ y)
        (color_t.sRGB_from_linearRGB (fun x y : ℝ => x ^ y) (1 / 2)) - 1 / 2| ≤ 1 / 1000000
      ∧ |(color_t.linearRGB_from_ColorSpace (fun x y : ℝ => x ^ y)
          (color_t.ColorSpace_from_linearRGB (fun x y : ℝ => x ^ y)
            { R := 0, G := 1 / 2, B := 1 } colorSpaces_t.SRGB 1) colorSpaces_t.SRGB 1).R - 0|
        ≤ 1 / 1000000 :=
  have h := sRGB_round_trip (1 / 2) { R := 0, G := 1 / 2, B := 1 } 1 1 (by norm_num)
    (by norm_num) (by norm_num) (by norm_num) (by norm_num) (by norm_num) (by norm_num)
    (by norm_num)
  ⟨h.1, h.2.1⟩

/-! ## The colour difference -/

theorem if_lt_eq_max {F : Type} [LinearOrder F] (x y : F) :
    (if x < y then y else x) = max x y := by
  by_cases h : x < y
  · rw [if_pos h, max_eq_right (le_of_lt h)]
  · rw [if_neg h, max_eq_left (not_lt.1 h)]

/-- C31: for all `colorA_t` values `a` and `b`, `a.colorDifference(b, false)` is
`|luminance(b) - luminance(a)|` with luminance `0.2126 R + 0.7152 G + 0.0722 B`, and
`a.colorDifference(b, true)` is the maximum of that luminance delta and the absolute
per-channel deltas of R, G, B and A. -/
theorem colorDifference_spec (a b : colorA_t) :
    a.colorDifference b false
        = |(0.2126 * b.R + 0.7152 * b.G + 0.0722 * b.B)
            - (0.2126 * a.R + 0.7152 * a.G + 0.0722 * a.B)|
      ∧ a.colorDifference b true
        = max |(0.2126 * b.R + 0.7152 * b.G + 0.0722 * b.B)
              - (0.2126 * a.R + 0.7152 * a.G + 0.0722 * a.B)|
            (max |b.R - a.R| (max |b.G - a.G| (max |b.B - a.B| |b.A - a.A|))) := by
  constructor
  · simp only [colorA_t.colorDifference, colorA_t.col2bri, Bool.false_eq_true, if_false]
  · simp only [colorA_t.colorDifference, colorA_t.col2bri, if_true, if_lt_eq_max]
    simp only [max_assoc]

/-- C32: `rgba8888_t::setColor` stores the floor of 255 times the channel for each channel
in [0, 1], `getColor` returns the stored bytes divided by 255, and for every `rgba8888_t`
value `p` (any four bytes) `setColor(p.getColor())` leaves the four stored bytes unchanged,
in exact arithmetic. -/
theorem rgba8888_round_trip (p q : rgba8888_t) (col : colorA_t) (hp : p.Bytes)
    (hR : 0 ≤ col.R ∧ col.R ≤ 1) (hG : 0 ≤ col.G ∧ col.G ≤ 1) (hB : 0 ≤ col.B ∧ col.B ≤ 1)
    (hA : 0 ≤ col.A ∧ col.A ≤ 1) :
    q.setColor col
        = some { r := ⌊255 * col.R⌋.toNat, g := ⌊255 * col.G⌋.toNat, b := ⌊255 * col.B⌋.toNat,
                 a := ⌊255 * col.A⌋.toNat }
      ∧ p.getColor = { R := (p.r : CFLOAT) / 255, G := (p.g : CFLOAT) / 255,
                       B := (p.b : CFLOAT) / 255, A := (p.a : CFLOAT) / 255 }
      ∧ p.setColor p.getColor = some p
      ∧ q.setColor p.getColor = some p := by
  have hcast : ∀ c : CFLOAT, 0 ≤ c → c ≤ 1 →
      uint8_floorf (c * 255) = some ⌊255 * c⌋.toNat := by
    intro c h0 h1
    have h2 : (0 : Int) ≤ ⌊c * 255⌋ := Int.floor_nonneg.2 (by positivity)
    have h3 : ⌊c * 255⌋ ≤ 255 := by
      have : c * 255 ≤ ((255 : Int) : CFLOAT) := by push_cast; linarith
      exact Int.cast_le.1 (le_trans (Int.floor_le _) this)
    simp only [uint8_floorf, h2, h3, and_self, if_true, mul_comm]
  have hbyte : ∀ n : Nat, n < 256 → uint8_floorf ((n : CFLOAT) / 255 * 255) = some n := by
    intro n hn
    have h1 : (n : CFLOAT) / 255 * 255 = ((n : Int) : CFLOAT) := by
      rw [div_mul_cancel₀ _ (by norm_num : (255 : CFLOAT) ≠ 0)]
      norm_cast
    rw [h1]
    have h2 : ⌊((n : Int) : CFLOAT)⌋ = (n : Int) := Int.floor_intCast _
    have h3 : (n : Int) ≤ 255 := by omega
    have h4 : (0 : Int) ≤ (n : Int) := Int.natCast_nonneg n
    simp only [uint8_floorf, h2, h3, h4, and_self, if_true, Int.toNat_ofNat]
  obtain ⟨hr, hg, hb, ha⟩ := hp
  have hround : ∀ q : rgba8888_t, q.setColor p.getColor = some p := by
    intro q
    simp only [rgba8888_t.setColor, rgba8888_t.getColor, rgba8888_t.getR, rgba8888_t.getG,
      rgba8888_t.getB, rgba8888_t.getA, hbyte p.r hr, hbyte p.g hg, hbyte p.b hb,
      hbyte p.a ha, rgba8888_t.setR, rgba8888_t.setG, rgba8888_t.setB, rgba8888_t.setA]
  refine ⟨?_, rfl, hround p, hround q⟩
  simp only [rgba8888_t.setColor, hcast col.R hR.1 hR.2, hcast col.G hG.1 hG.2,
    hcast col.B hB.1 hB.2, hcast col.A hA.1 hA.2, rgba8888_t.setR, rgba8888_t.setG,
    rgba8888_t.setB, rgba8888_t.setA]

theorem rgba8888_round_trip_witness :
    ({ r := 255, g := 128, b := 0, a := 1 } : rgba8888_t).Bytes
      ∧ ({ r := 255, g := 128, b := 0, a := 1 } : rgba8888_t).setColor
          ({ r := 255, g := 128, b := 0, a := 1 } : rgba8888_t).getColor
        = some { r := 255, g := 128, b := 0, a := 1 } :=
  ⟨by decide,
    (rgba8888_round_trip { r := 255, g := 128, b := 0, a := 1 }
      { r := 0, g := 0, b := 0, a := 1 } { R := 0, G := 1 / 2, B := 1, A := 1 } (by decide)
      ⟨by norm_num, by norm_num⟩ ⟨by norm_num, by norm_num⟩ ⟨by norm_num, by norm_num⟩
      ⟨by norm_num, by norm_num⟩).2.2.1⟩

/-! ## The packed pixels -/

/-- C39: for every `rgb565_t` value and every byte `v`: after `setR(v)`, `getR()` is
`v & 0xF8` and `getG()`, `getB()` are unchanged; after `setG(v)`, `getG()` is `v & 0xFC` and
`getR()`, `getB()` are unchanged; after `setB(v)`, `getB()` is `v & 0xF8` and `getR()`,
`getG()` are unchanged. -/
theorem rgb565_channels_independent (p : rgb565_t) (v : Nat) :
    ((p.setR v).getR = v &&& 0xF8 ∧ (p.setR v).getG = p.getG ∧ (p.setR v).getB = p.getB)
      ∧ ((p.setG v).getG = v &&& 0xFC ∧ (p.setG v).getR = p.getR ∧ (p.setG v).getB = p.getB)
      ∧ ((p.setB v).getB = v &&& 0xF8 ∧ (p.setB v).getR = p.getR
        ∧ (p.setB v).getG = p.getG) := by
  obtain ⟨x⟩ := p
  have e16 : (65536 : Nat) = 2 ^ 16 := by norm_num
  have e8 : (256 : Nat) = 2 ^ 8 := by norm_num
  have hconst : ∀ (c i : Nat), c < 256 → ¬ i < 8 → Nat.testBit c i = false := by
    intro c i hc hi
    exact Nat.testBit_lt_two_pow (lt_of_lt_of_le hc (by
      calc 256 = 2 ^ 8 := by norm_num
        _ ≤ 2 ^ i := Nat.pow_le_pow_right (by norm_num) (not_lt.1 hi)))
  simp only [rgb565_t.setR, rgb565_t.setG, rgb565_t.setB, rgb565_t.getR, rgb565_t.getG,
    rgb565_t.getB]
  refine ⟨⟨?_, ?_, ?_⟩, ⟨?_, ?_, ?_⟩, ⟨?_, ?_, ?_⟩⟩ <;>
  · apply Nat.eq_of_testBit_eq
    intro i
    rw [e16, e8]
    simp only [Nat.testBit_mod_two_pow, Nat.testBit_shiftRight, Nat.testBit_and,
      Nat.testBit_or, Nat.testBit_shiftLeft]
    by_cases hi : i < 8
    · generalize Nat.testBit x = fx
      generalize Nat.testBit v = fv
      interval_cases i <;> simp [Nat.testBit]
    · simp [hi, hconst 248 i (by norm_num) hi, hconst 252 i (by norm_num) hi]

/-! ## The linear segment of sRGB -/

/-- C35: for every linear value `x <= 0.0031308`, negative values included,
`sRGB_from_linearRGB(x)` is `12.92 * x`, which is at most 0.04045, so
`linearRGB_from_sRGB(sRGB_from_linearRGB(x))` takes the linear branch and is `x` exactly. -/
theorem sRGB_linear_segment_exact {F : Type} [LinearOrderedField F] (fPow : F → F → F)
    (x : F) (hx : x ≤ 0.0031308) :
    color_t.sRGB_from_linearRGB fPow x = 12.92 * x
      ∧ color_t.sRGB_from_linearRGB fPow x ≤ 0.04045
      ∧ color_t.linearRGB_from_sRGB fPow (color_t.sRGB_from_linearRGB fPow x)
          = color_t.sRGB_from_linearRGB fPow x / 12.92
      ∧ color_t.linearRGB_from_sRGB fPow (color_t.sRGB_from_linearRGB fPow x) = x := by
  have h1 : color_t.sRGB_from_linearRGB fPow x = x * 12.92 := by
    simp only [color_t.sRGB_from_linearRGB, hx, if_true]
  have h2 : x * 12.92 ≤ (0.04045 : F) := by
    norm_num at hx ⊢
    linarith
  have h3 : color_t.linearRGB_from_sRGB fPow (x * 12.92) = x * 12.92 / 12.92 := by
    simp only [color_t.linearRGB_from_sRGB, h2, if_true]
  have h4 : x * 12.92 / 12.92 = x := by
    rw [mul_div_assoc, div_self (by norm_num), mul_one]
  rw [h1]
  exact ⟨mul_comm _ _, h2, h3, by rw [h3, h4]⟩

theorem sRGB_linear_segment_exact_witness :
    color_t.linearRGB_from_sRGB (fun x y : ℚ => x * y)
        (color_t.sRGB_from_linearRGB (fun x y : ℚ => x * y) (-2)) = -2 :=
  (sRGB_linear_segment_exact (fun x y : ℚ => x * y) (-2) (by norm_num)).2.2.2

/-- C34, counterexample: with `fPow` the real power function, the encoded value 0.04045
decodes to `0.04045 / 12.92`, which is above 0.0031308, so it is encoded again by the power
branch, and the result is below 0.04045. -/
theorem sRGB_encoded_threshold_not_restored :
    (0 : ℝ) ≤ 0.04045 ∧ (0.04045 : ℝ) ≤ 0.04045
      ∧ color_t.sRGB_from_linearRGB (fun x y : ℝ => x ^ y)
          (color_t.linearRGB_from_sRGB (fun x y : ℝ => x ^ y) 0.04045) ≠ 0.04045 := by
  refine ⟨by norm_num, le_refl _, ?_⟩
  have h1 : color_t.linearRGB_from_sRGB (fun x y : ℝ => x ^ y) 0.04045
      = 4045 / 1292000 := by
    simp only [color_t.linearRGB_from_sRGB, le_refl, if_true]
    norm_num
  have h2 : ¬ ((4045 / 1292000 : ℝ) ≤ 0.0031308) := by norm_num
  rw [h1]
  simp only [color_t.sRGB_from_linearRGB, h2, if_false]
  have hx0 : (0 : ℝ) < 4045 / 1292000 := by norm_num
  have hpow : (4045 / 1292000 : ℝ) ^ (0.416667 : ℝ) ≤ 9047392 / 100000000 := by
    have ha : (4045 / 1292000 : ℝ) ^ (0.416667 : ℝ)
        ≤ (4045 / 1292000 : ℝ) ^ (5 * (12 : ℝ)⁻¹) :=
      Real.rpow_le_rpow_of_exponent_ge hx0 (by norm_num) (by norm_num)
    have h5 : (4045 / 1292000 : ℝ) ^ (5 : ℝ) = (4045 / 1292000 : ℝ) ^ (5 : ℕ) := by
      exact_mod_cast Real.rpow_natCast (4045 / 1292000 : ℝ) 5
    have hb : (4045 / 1292000 : ℝ) ^ (5 * (12 : ℝ)⁻¹) ≤ 9047392 / 100000000 := by
      rw [Real.rpow_mul (le_of_lt hx0)]
      calc ((4045 / 1292000 : ℝ) ^ (5 : ℝ)) ^ ((12 : ℝ)⁻¹)
          = ((4045 / 1292000 : ℝ) ^ (5 : ℕ)) ^ (((12 : ℕ) : ℝ)⁻¹) := by rw [h5]; norm_num
        _ ≤ ((9047392 / 100000000 : ℝ) ^ (12 : ℕ)) ^ (((12 : ℕ) : ℝ)⁻¹) :=
            Real.rpow_le_rpow (by positivity) (by norm_num) (by positivity)
        _ = 9047392 / 100000000 :=
            Real.pow_rpow_inv_natCast (by norm_num) (by norm_num)
    exact le_trans ha hb
  intro h
  norm_num at h hpow
  linarith

/-- C34, amended: for every encoded value `v` with `v <= 0.040449936`, which is
12.92 times 0.0031308, `sRGB_from_linearRGB(linearRGB_from_sRGB(v))` is `v` in exact
arithmetic: both functions take their linear branch. -/
theorem sRGB_encoded_linear_segment_exact {F : Type} [LinearOrderedField F]
    (fPow : F → F → F) (v : F) (hv : v ≤ 0.040449936) :
    color_t.sRGB_from_linearRGB fPow (color_t.linearRGB_from_sRGB fPow v) = v := by
  have h1 : v ≤ (0.04045 : F) := le_trans hv (by norm_num)
  have h2 : v / 12.92 ≤ (0.0031308 : F) := by
    rw [div_le_iff₀ (by norm_num)]
    exact le_trans hv (by norm_num)
  simp only [color_t.linearRGB_from_sRGB, h1, if_true, color_t.sRGB_from_linearRGB, h2]
  rw [div_mul_cancel₀ _ (by norm_num)]

theorem sRGB_encoded_linear_segment_exact_witness :
    color_t.sRGB_from_linearRGB (fun x y : ℚ => x * y)
        (color_t.linearRGB_from_sRGB (fun x y : ℚ => x * y) (1 / 100)) = 1 / 100 :=
  sRGB_encoded_linear_segment_exact (fun x y : ℚ => x * y) (1 / 100) (by norm_num)

/-! ## The proportional clamp, again -/

theorem clampProportionalRGB_bound {F : Type} [LinearOrderedField F] (c : colorOf F)
    (maxValue : F) (hpos : 0 < maxValue) :
    max (color_t.clampProportionalRGB c maxValue).R
      (max (color_t.clampProportionalRGB c maxValue).G
        (color_t.clampProportionalRGB c maxValue).B) ≤ maxValue := by
  obtain ⟨L, hLdef⟩ : ∃ L, L = max c.R (max c.G c.B) := ⟨_, rfl⟩
  have hRL : c.R ≤ L := by rw [hLdef]; exact le_max_left _ _
  have hGL : c.G ≤ L := by rw [hLdef]; exact le_trans (le_max_left _ _) (le_max_right _ _)
  have hBL : c.B ≤ L := by rw [hLdef]; exact le_trans (le_max_right _ _) (le_max_right _ _)
  simp only [color_t.clampProportionalRGB, gt_iff_lt, hpos, if_true, ge_iff_le, ← hLdef]
  by_cases hL : maxValue < L
  · have hLpos : 0 < L := lt_trans hpos hL
    have hp : 0 ≤ maxValue / L := le_of_lt (div_pos hpos hLpos)
    have hmul : L * (maxValue / L) = maxValue := by field_simp
    have hscale : ∀ x : F, x ≤ L → x * (maxValue / L) ≤ maxValue := by
      intro x hx
      calc x * (maxValue / L) ≤ L * (maxValue / L) := mul_le_mul_of_nonneg_right hx hp
        _ = maxValue := hmul
    rw [if_pos hL]
    split_ifs
    · exact max_le (le_refl _) (max_le (hscale _ hGL) (hscale _ hBL))
    · exact max_le (hscale _ hRL) (max_le (le_refl _) (hscale _ hBL))
    · exact max_le (hscale _ hRL) (max_le (hscale _ hGL) (le_refl _))
  · rw [if_neg hL, ← hLdef]
    exact not_lt.1 hL

/-- C37, amended: in exact arithmetic (over every ordered field), for every colour and every
`maxValue > 0`, after `clampProportionalRGB(maxValue)` the largest of R, G, B is at most
`maxValue`, also when channels are negative or tie for largest, and
`clampProportionalRGB(maxValue)` applied a second time changes nothing. -/
theorem clampProportionalRGB_idempotent {F : Type} [LinearOrderedField F] (c : colorOf F)
    (maxValue : F) (hpos : 0 < maxValue) :
    max (color_t.clampProportionalRGB c maxValue).R
        (max (color_t.clampProportionalRGB c maxValue).G
          (color_t.clampProportionalRGB c maxValue).B) ≤ maxValue
      ∧ color_t.clampProportionalRGB (color_t.clampProportionalRGB c maxValue) maxValue
        = color_t.clampProportionalRGB c maxValue := by
  have hb := clampProportionalRGB_bound c maxValue hpos
  refine ⟨hb, ?_⟩
  obtain ⟨d, hd⟩ : ∃ d, d = color_t.clampProportionalRGB c maxValue := ⟨_, rfl⟩
  rw [← hd] at hb ⊢
  have hnot : ¬ maxValue < max d.R (max d.G d.B) := not_lt.2 hb
  simp only [color_t.clampProportionalRGB, gt_iff_lt, hpos, if_true, hnot, if_false]

theorem clampProportionalRGB_idempotent_witness :
    (0 : ℚ) < 2
      ∧ max (color_t.clampProportionalRGB ({ R := 4, G := 4, B := -1 } : colorOf ℚ) 2).R
          (max (color_t.clampProportionalRGB ({ R := 4, G := 4, B := -1 } : colorOf ℚ) 2).G
            (color_t.clampProportionalRGB ({ R := 4, G := 4, B := -1 } : colorOf ℚ) 2).B) ≤ 2
      ∧ color_t.clampProportionalRGB
          (color_t.clampProportionalRGB ({ R := 4, G := 4, B := -1 } : colorOf ℚ) 2) 2
        = color_t.clampProportionalRGB ({ R := 4, G := 4, B := -1 } : colorOf ℚ) 2 :=
  ⟨by norm_num,
    clampProportionalRGB_idempotent ({ R := 4, G := 4, B := -1 } : colorOf ℚ) 2 (by norm_num)⟩


/-! ## Scaling by a colour -/

/-- C38: `operator *=(color_t &)` multiplies R, G, B of every allocated slot by the R, G, B
of the colour and leaves the alpha of every slot unchanged (the colour is promoted to a
`colorA_t` with alpha 1), and `operator *=(colorA_t &)` multiplies the four channels of
every allocated slot by those of its argument, the alpha by the alpha; the enabled bits and
the watermark are unchanged by both. -/
theorem scale_by_color_spec (E : intPassTypes_t) (hE : E.Valid) (s : colorIntPasses_t)
    (a : color_t) (b : colorA_t) (hinv : s.Invariant) :
    (∃ t : colorIntPasses_t, s.operator_mul_assign_color E a = some t
        ∧ (∀ i : Int, 0 ≤ i → i ≤ s.highestInternalPassUsed →
            ∃ old : colorA_t, s.color i = some old
              ∧ t.color i
                = some { R := old.R * a.R, G := old.G * a.G, B := old.B * a.B, A := old.A })
        ∧ t.enabledIntPasses = s.enabledIntPasses
        ∧ t.highestInternalPassUsed = s.highestInternalPassUsed)
      ∧ (∃ t : colorIntPasses_t, s.operator_mul_assign_colorA E b = some t
        ∧ (∀ i : Int, 0 ≤ i → i ≤ s.highestInternalPassUsed →
            ∃ old : colorA_t, s.color i = some old
              ∧ t.color i
                = some { R := old.R * b.R, G := old.G * b.G, B := old.B * b.B,
                         A := old.A * b.A })
        ∧ t.enabledIntPasses = s.enabledIntPasses
        ∧ t.highestInternalPassUsed = s.highestInternalPassUsed) := by
  constructor
  · obtain ⟨t, ht, hslots, hb, hw, _⟩ :=
      bulk_spec E hE (fun _ c => c.operator_mul_assign (colorA_t.of_color a)) s hinv
    refine ⟨t, ht, ?_, hb, hw⟩
    intro i hi0 hi1
    obtain ⟨old, hold, hnew⟩ := hslots i hi0 hi1
    refine ⟨old, hold, ?_⟩
    rw [hnew]
    simp only [colorA_t.operator_mul_assign, colorA_t.of_color, mul_one]
  · obtain ⟨t, ht, hslots, hb, hw, _⟩ :=
      bulk_spec E hE (fun _ c => c.operator_mul_assign b) s hinv
    exact ⟨t, ht, hslots, hb, hw⟩

theorem scale_by_color_spec_witness :
    samplePassTypes.Valid ∧ sampleAccumulator.Invariant
      ∧ ∃ t : colorIntPasses_t,
        sampleAccumulator.operator_mul_assign_color samplePassTypes { R := 2, G := 3, B := 5 }
          = some t
        ∧ (∀ i : Int, 0 ≤ i → i ≤ sampleAccumulator.highestInternalPassUsed →
            ∃ old : colorA_t, sampleAccumulator.color i = some old
              ∧ t.color i
                = some { R := old.R * 2, G := old.G * 3, B := old.B * 5, A := old.A })
        ∧ t.enabledIntPasses = sampleAccumulator.enabledIntPasses
        ∧ t.highestInternalPassUsed = sampleAccumulator.highestInternalPassUsed :=
  ⟨by decide, by decide,
    (scale_by_color_spec samplePassTypes (by decide) sampleAccumulator { R := 2, G := 3, B := 5 }
      { R := 1, G := 1, B := 1, A := 7 } (by decide)).1⟩

/-! ## The entries of the catalog -/

theorem ext_find_combined_name (X : extPassTypes_t) (hX : X.Enumerated) :
    map_find (map_assign_all [] (renderPasses_t.ext_assignments X)) "Combined"
      = some X.PASS_EXT_COMBINED := by
  cases h : map_find (map_assign_all [] (renderPasses_t.ext_assignments X)) "Combined" with
  | none =>
    have h2 := ((map_find_assign_all_none _ _ _).1 h).2 ("Combined", X.PASS_EXT_COMBINED)
      (List.mem_cons_self _ _)
    exact absurd rfl h2
  | some k =>
    rw [(ext_find_combined X hX "Combined" k h).2 rfl]

theorem reachable_entries (X : extPassTypes_t) (E : intPassTypes_t) (hX : X.Enumerated)
    {c : renderPasses_t} (h : renderPasses_t.Reachable X E c) :
    ∀ e ∈ c.extPasses, ∃ (n : String) (ik : Int),
      map_find (map_assign_all [] (renderPasses_t.ext_assignments X)) n
          = some e.externalPassType
        ∧ e = extPass_t.ctor X e.externalPassType ik := by
  induction h with
  | ctor =>
    intro e he
    unfold renderPasses_t.ctor at he
    rw [(generate_pass_maps_fields X E _).1] at he
    rw [List.mem_singleton.1 he]
    exact ⟨"Combined", E.PASS_INT_COMBINED, ext_find_combined_name X hX, rfl⟩
  | pass_add sExternalPass sInternalPass hc ih =>
    intro e he
    rcases pass_add_extPasses X E _ sExternalPass sInternalPass with h1 | ⟨ek, ik, hf, _, h1⟩
    · rw [h1] at he
      exact ih e he
    · rw [h1] at he
      rcases List.mem_append.1 he with h2 | h2
      · exact ih e h2
      · rw [List.mem_singleton.1 h2]
        rw [(reachable_maps X E hc).1] at hf
        exact ⟨sExternalPass, ik, hf, rfl⟩

/-- C33: in every catalog reachable from construction by calls of `pass_add`, every entry of
the list of external passes has `enabled == true`: its external kind is neither
`PASS_EXT_DISABLED` nor at or above `PASS_EXT_TOTAL_PASSES`. -/
theorem reachable_entries_enabled (X : extPassTypes_t) (E : intPassTypes_t)
    (hX : X.Enumerated) (c : renderPasses_t) (hc : renderPasses_t.Reachable X E c) :
    ∀ e ∈ c.extPasses, e.enabled = true
      ∧ e.externalPassType ≠ X.PASS_EXT_DISABLED
      ∧ e.externalPassType < X.PASS_EXT_TOTAL_PASSES := by
  intro e he
  obtain ⟨n, ik, hf, hctor⟩ := reachable_entries X E hX hc e he
  obtain ⟨h1, h2⟩ := hX.1 _ (ext_find_kind X n _ hf)
  have hne : ¬ (e.externalPassType = X.PASS_EXT_DISABLED
      ∨ e.externalPassType ≥ X.PASS_EXT_TOTAL_PASSES) := by omega
  refine ⟨?_, by omega, h2⟩
  rw [hctor]
  simp only [extPass_t.ctor, hne, if_false]

theorem reachable_entries_enabled_witness :
    sampleExtPassTypes.Enumerated
      ∧ ∀ e ∈ ((renderPasses_t.ctor sampleExtPassTypes samplePassTypes).pass_add
          sampleExtPassTypes samplePassTypes "Depth" "z-depth-norm").extPasses,
        e.enabled = true
          ∧ e.externalPassType ≠ sampleExtPassTypes.PASS_EXT_DISABLED
          ∧ e.externalPassType < sampleExtPassTypes.PASS_EXT_TOTAL_PASSES :=
  ⟨by decide,
    reachable_entries_enabled sampleExtPassTypes samplePassTypes (by decide) _
      (renderPasses_t.Reachable.pass_add "Depth" "z-depth-norm" renderPasses_t.Reachable.ctor)⟩

/-- C40: in every catalog reachable from construction by calls of `pass_add`, for every
index `i < numExtPasses()`, `externalPassTypeString(i)` finds the external kind of the entry
`i` in the map from kinds to names (the lookup is never `end()`), and the name it returns is
sent by the map of names to that same external kind. -/
theorem externalPassTypeString_found (X : extPassTypes_t) (E : intPassTypes_t)
    (hX : X.Enumerated) (c : renderPasses_t) (hc : renderPasses_t.Reachable X E c) (i : Nat)
    (hi : i < c.numExtPasses) :
    ∃ (e : extPass_t) (n : String), c.extPasses[i]? = some e
      ∧ map_find c.extPassMapIntString e.externalPassType = some n
      ∧ c.externalPassTypeString i = some n
      ∧ map_find c.extPassMapStringInt n = some e.externalPassType := by
  have hlt : i < c.extPasses.length := hi
  have hget : c.extPasses[i]? = some (c.extPasses.get ⟨i, hlt⟩) :=
    List.getElem?_eq_getElem hlt
  obtain ⟨n0, _, hf, _⟩ := reachable_entries X E hX hc _ (List.get_mem c.extPasses i hlt)
  obtain ⟨hfwd, hback⟩ := reverse_map_inverse _ (ext_map_keys_nodup X)
    (ext_find_injective X hX)
  have hrev := hfwd n0 _ hf
  refine ⟨c.extPasses.get ⟨i, hlt⟩, n0, hget, ?_, ?_, ?_⟩
  · rw [(reachable_reverse_maps X E hc).1]
    exact hrev
  · simp only [renderPasses_t.externalPassTypeString, hget]
    rw [(reachable_reverse_maps X E hc).1]
    exact hrev
  · rw [(reachable_maps X E hc).1]
    exact hf

theorem externalPassTypeString_found_witness :
    sampleExtPassTypes.Enumerated
      ∧ ∃ (e : extPass_t) (n : String),
        (renderPasses_t.ctor sampleExtPassTypes samplePassTypes).extPasses[0]? = some e
        ∧ map_find (renderPasses_t.ctor sampleExtPassTypes samplePassTypes).extPassMapIntString
            e.externalPassType = some n
        ∧ (renderPasses_t.ctor sampleExtPassTypes samplePassTypes).externalPassTypeString 0
            = some n
        ∧ map_find (renderPasses_t.ctor sampleExtPassTypes samplePassTypes).extPassMapStringInt
            n = some e.externalPassType :=
  ⟨by decide,
    externalPassTypeString_found sampleExtPassTypes samplePassTypes (by decide)
      (renderPasses_t.ctor sampleExtPassTypes samplePassTypes) renderPasses_t.Reachable.ctor 0
      (by
        have h := (generate_pass_maps_fields sampleExtPassTypes samplePassTypes
          { extPasses := [extPass_t.ctor sampleExtPassTypes
              sampleExtPassTypes.PASS_EXT_COMBINED samplePassTypes.PASS_INT_COMBINED]
            extPassMapStringInt := []
            extPassMapIntString := []
            intPassMapStringInt := []
            intPassMapIntString := [] }).1
        unfold renderPasses_t.numExtPasses renderPasses_t.ctor
        rw [h]
        exact Nat.zero_lt_one)⟩


/-! ## The order of calls of `enable_pass` -/

theorem vector_ext {α : Type} (v w : List α)
    (h : ∀ j : Int, vector_at v j = vector_at w j) : v = w := by
  apply List.ext_getElem?
  intro n
  have := h (n : Int)
  simpa [vector_at] using this

theorem enable_pass_char (E : intPassTypes_t) (hE : E.Valid) (s : colorIntPasses_t)
    (hinv : s.Invariant) (pass : Int) (h0 : 0 ≤ pass) :
    ∃ t : colorIntPasses_t, s.enable_pass E pass = some t ∧ t.Invariant
      ∧ t.highestInternalPassUsed = max s.highestInternalPassUsed pass
      ∧ (∀ j : Int, vector_at t.intPasses j
          = if j ≤ s.highestInternalPassUsed then vector_at s.intPasses j
            else if j ≤ pass then some (colorIntPasses_t.init_color E j) else none)
      ∧ (∀ j : Int, vector_at t.enabledIntPasses j
          = if j = pass then some true
            else if j ≤ s.highestInternalPassUsed then vector_at s.enabledIntPasses j
            else if j ≤ pass then some false else none) := by
  have hne : pass ≠ E.PASS_INT_DISABLED := by rw [hE.1]; omega
  obtain ⟨hc, hb, hz⟩ := hinv
  by_cases hle : pass ≤ s.highestInternalPassUsed
  · have hcol : ∀ j : Int, vector_at s.intPasses j
        = if j ≤ s.highestInternalPassUsed then vector_at s.intPasses j
          else if j ≤ pass then some (colorIntPasses_t.init_color E j) else none := by
      intro j
      by_cases hj : j ≤ s.highestInternalPassUsed
      · rw [if_pos hj]
      · rw [if_neg hj, if_neg (by omega), vector_at_none_of_le _ _ (by omega)]
    obtain ⟨e, he⟩ := enabled_total s pass ⟨hc, hb, hz⟩ h0
    cases e with
    | true =>
      refine ⟨s, enable_pass_of_enabled E s pass he, ⟨hc, hb, hz⟩,
        (max_eq_left hle).symm, hcol, ?_⟩
      intro j
      have hbit := (enabled_true_range he).2.2.2
      by_cases hj : j = pass
      · rw [if_pos hj, hj, hbit]
      · rw [if_neg hj]
        by_cases hj2 : j ≤ s.highestInternalPassUsed
        · rw [if_pos hj2]
        · rw [if_neg hj2, if_neg (by omega), vector_at_none_of_le _ _ (by omega)]
    | false =>
      have hres := enable_pass_below E s pass hb h0 hle he hne
      refine ⟨_, hres, enable_pass_invariant E pass ⟨hc, hb, hz⟩ hres,
        (max_eq_left hle).symm, hcol, ?_⟩
      intro j
      show vector_at (s.enabledIntPasses.set pass.toNat true) j = _
      rw [vector_at_set]
      have hlt : pass.toNat < s.enabledIntPasses.length := by omega
      by_cases hj : j = pass
      · have : j = ((pass.toNat : Nat) : Int) ∧ pass.toNat < s.enabledIntPasses.length :=
          ⟨by omega, hlt⟩
        rw [if_pos this, if_pos hj]
      · have : ¬ (j = ((pass.toNat : Nat) : Int)
            ∧ pass.toNat < s.enabledIntPasses.length) := by
          intro h
          exact hj (by omega)
        rw [if_neg this, if_neg hj]
        by_cases hj2 : j ≤ s.highestInternalPassUsed
        · rw [if_pos hj2]
        · rw [if_neg hj2, if_neg (by omega), vector_at_none_of_le _ _ (by omega)]
  · have hgt : s.highestInternalPassUsed < pass := not_le.1 hle
    obtain ⟨t, ht, hw, hl1, hl2, hcol, hbit⟩ := enable_pass_above E s pass hc hb hgt hne
    refine ⟨t, ht, enable_pass_invariant E pass ⟨hc, hb, hz⟩ ht, ?_, hcol, ?_⟩
    · rw [hw, max_eq_right (le_of_lt hgt)]
    · intro j
      rw [hbit j]
      by_cases hj : j = pass
      · rw [if_pos hj, if_neg (by omega), if_pos (by omega)]
        simp only [hj, decide_True]
      · rw [if_neg hj]
        by_cases hj2 : j ≤ s.highestInternalPassUsed
        · rw [if_pos hj2, if_pos hj2]
        · rw [if_neg hj2, if_neg hj2]
          by_cases hj3 : j ≤ pass
          · rw [if_pos hj3, if_pos hj3]
            simp only [hj, decide_False]
          · rw [if_neg hj3, if_neg hj3]

/-- C36: on an accumulator that satisfies the invariant, for all kinds `a, b >= 0`,
`enable_pass(a)` then `enable_pass(b)` gives exactly the same accumulator (stored colours,
enabled bits, watermark) as `enable_pass(b)` then `enable_pass(a)`, and `enable_pass(a)`
twice gives the same accumulator as `enable_pass(a)` once. -/
theorem enable_pass_commutes (E : intPassTypes_t) (hE : E.Valid) (s : colorIntPasses_t)
    (hinv : s.Invariant) (a b : Int) (ha : 0 ≤ a) (hb : 0 ≤ b) :
    ∃ sa sb t : colorIntPasses_t, s.enable_pass E a = some sa ∧ s.enable_pass E b = some sb
      ∧ sa.enable_pass E b = some t ∧ sb.enable_pass E a = some t
      ∧ sa.enable_pass E a = some sa := by
  obtain ⟨sa, hsa, hia, hwa, hca, hba⟩ := enable_pass_char E hE s hinv a ha
  obtain ⟨sb, hsb, hib, hwb, hcb, hbb⟩ := enable_pass_char E hE s hinv b hb
  obtain ⟨t, ht, _, hwt, hct, hbt⟩ := enable_pass_char E hE sa hia b hb
  obtain ⟨u, hu, _, hwu, hcu, hbu⟩ := enable_pass_char E hE sb hib a ha
  have htu : t = u := by
    have h1 : t.intPasses = u.intPasses := by
      apply vector_ext
      intro j
      rw [hct j, hcu j, hca j, hcb j, hwa, hwb]
      simp only [le_max_iff]
      split_ifs <;> first | rfl | omega
    have h2 : t.enabledIntPasses = u.enabledIntPasses := by
      apply vector_ext
      intro j
      rw [hbt j, hbu j, hba j, hbb j, hwa, hwb]
      simp only [le_max_iff]
      split_ifs <;> first | rfl | omega
    have h3 : t.highestInternalPassUsed = u.highestInternalPassUsed := by
      rw [hwt, hwu, hwa, hwb, max_assoc, max_assoc, max_comm a b]
    cases t
    cases u
    simp only at h1 h2 h3
    rw [h1, h2, h3]
  have hena : sa.enabled a = some true := by
    rw [enabled_below sa a (by rw [hwa]; exact le_max_right _ _), hba a, if_pos rfl]
  refine ⟨sa, sb, t, hsa, hsb, ht, ?_, enable_pass_of_enabled E sa a hena⟩
  rw [htu]
  exact hu

theorem enable_pass_commutes_witness :
    samplePassTypes.Valid ∧ sampleAccumulator.Invariant
      ∧ ∃ sa sb t : colorIntPasses_t,
        sampleAccumulator.enable_pass samplePassTypes 1 = some sa
        ∧ sampleAccumulator.enable_pass samplePassTypes 4 = some sb
        ∧ sa.enable_pass samplePassTypes 4 = some t
        ∧ sb.enable_pass samplePassTypes 1 = some t
        ∧ sa.enable_pass samplePassTypes 1 = some sa :=
  ⟨by decide, by decide,
    enable_pass_commutes samplePassTypes (by decide) sampleAccumulator (by decide) 1 4
      (by decide) (by decide)⟩

theorem clampProportionalRGB_float_id {F : Type} [LinearOrderedField F] (c : colorOf F)
    (maxValue : F) :
    color_t.clampProportionalRGB_float id c maxValue = color_t.clampProportionalRGB c maxValue :=
  rfl

/-- C37, counterexample: in `float` arithmetic the colour (21, 21, 0) clamped to 3 becomes
(3, 3.0000002384185791015625, 0): the channel G that ties with the largest is multiplied by
the rounded quotient 3/21 and exceeds 3, and a second call changes the colour again, to
(2.9999997615814208984375, 3, 0). -/
theorem clampProportionalRGB_tie_exceeds_limit :
    binary32_round 21 = 21 ∧ binary32_round 3 = 3
      ∧ color_t.clampProportionalRGB_float binary32_round { R := 21, G := 21, B := 0 } 3
        = { R := 3, G := 12582913 / 4194304, B := 0 }
      ∧ (3 : ℚ) < max (3 : ℚ) (max (12582913 / 4194304) 0)
      ∧ color_t.clampProportionalRGB_float binary32_round
          { R := 3, G := 12582913 / 4194304, B := 0 } 3
        = { R := 12582911 / 4194304, G := 3, B := 0 }
      ∧ color_t.clampProportionalRGB_float binary32_round
          (color_t.clampProportionalRGB_float binary32_round { R := 21, G := 21, B := 0 } 3) 3
        ≠ color_t.clampProportionalRGB_float binary32_round { R := 21, G := 21, B := 0 } 3 := by
  refine ⟨by decide!, by decide!, by decide!, by decide!, by decide!, by decide!⟩
